import Mathlib

/-! Cerebrum ADSI service: line codec, line reader, session loop, directory
entry points and the thread structure of the server.

A shallow embedding of `src/c/adsiservice/net.cpp` (`Decode`, `Encode`,
`recvwithtimeout`, `rf_gets`), `src/c/adsiservice/server.cpp`
(`AcceptThreadProc`, `rf_resume`, the loop of `ServiceStart`, `ServiceStop`)
and `src/c/adsiservice/adsi.cpp` (`AlterUser`, `ConvName`, `ProcessUser`,
`ListObjectsWin`, `ListObjectsLdap`, `CreateGroupOrUserWrap`) together with
the properties the specification states about them.

Conventions of the embedding:

* a character (`char`, `TCHAR`) is its code, a natural number; a buffer is a
  list of codes; the C string held by a buffer is the part before the first
  NUL (`cstr`);
* `HRESULT` is a signed integer, `FAILED(hr)` is `hr < 0`;
* the directory backend (COM objects) is an oracle handed in as a parameter;
  every interaction with it is recorded in a trace;
* a string put into an array of fixed size without a check of its length, a
  slot of `par` read before any `Decode` assigned it, and the like are
  recorded as `Fault`s next to the trace: a turn of the session loop is
  described by its trace when it records no fault.
-/

namespace Cerebrum

/-! ## Strings -/

/-- The C string stored in a buffer: the characters before the first NUL
(what `wcscpy`, `wcscmp`, `strlen` see). -/
def cstr (s : List Nat) : List Nat := s.takeWhile (fun c => c != 0)

/-- The character codes of a string literal. -/
def lit (s : String) : List Nat := s.toList.map Char.toNat

/-! ## net.cpp: Decode -/

/-- The value of one hex digit as computed in the inner loop of `Decode`
(net.cpp 138-146): `'0'..'9'`, `'a'..'f'`, `'A'..'F'`, anything else is the
"Illegal decode" case. -/
def hexval (c : Nat) : Option Nat :=
  if 48 ≤ c ∧ c ≤ 57 then some (c - 48)
  else if 97 ≤ c ∧ c ≤ 102 then some (c - 97 + 10)
  else if 65 ≤ c ∧ c ≤ 70 then some (c - 65 + 10)
  else none

/-- What a call of `Decode` leaves behind: the returned `int` and the strings
stored in `params[0]`, `params[1]`, ... in this order (also the ones stored
before a failure was detected). -/
structure DecodeResult where
  ret : Int
  params : List (List Nat)
deriving DecidableEq

/-- The `while(*str != 0)` loop of `Decode` (net.cpp 127-159).

* first argument: the characters from `str` on (the end of the list is the
  terminating NUL, a `0` in the list is a NUL too);
* `b`: the counter `b`;
* `buff`: the characters written to the scratch buffer since `pstr = buff`;
* `params`: the strings stored so far, so `n = params.length`.

`wcscpy(params[n], buff)` copies the C string of the scratch buffer, hence
`cstr buff`. The `b > 255` test comes after the write, as in the source. -/
def DecodeLoop : List Nat → Nat → List Nat → List (List Nat) → DecodeResult
  | [], _, buff, params => ⟨params.length, params ++ [cstr buff]⟩
  | c :: rest, b, buff, params =>
    if c = 0 then ⟨params.length, params ++ [cstr buff]⟩
    else if c = 38 then
      -- `b = 0; pstr = buff; n++`, then `b++` and `b > 255` is false
      DecodeLoop rest 1 [] (params ++ [cstr buff])
    else if c = 37 then
      match rest with
      | h :: l :: rest2 =>
        match hexval h, hexval l with
        | some x, some y =>
          let buff1 := buff ++ [x * 16 + y]
          if b + 1 > 255 then ⟨-1, params⟩ else DecodeLoop rest2 (b + 1) buff1 params
        | _, _ => ⟨-1, params⟩
      | _ => ⟨-1, params⟩
    else
      let buff1 := buff ++ [c]
      if b + 1 > 255 then ⟨-1, params⟩ else DecodeLoop rest (b + 1) buff1 params

/-- The function `int Decode(LPTSTR str, TCHAR *params[], int maxpars)` (net.cpp 120-166).
`maxpars` is accepted and never read, as in the source. -/
def Decode (str : List Nat) (_maxpars : Nat) : DecodeResult :=
  DecodeLoop str 0 [] []

/-! ## net.cpp: the writes of Decode -/

/-- A write `Decode` performs outside its own scalars: `buff[index] = ...`
through `pstr` into the scratch buffer `TCHAR buff[255]`, or
`params[index] = ...` into the caller's array. -/
inductive DecodeWrite
  | buff (index : Nat)
  | params (index : Nat)
deriving DecidableEq

/-- The writes of the `while(*str != 0)` loop of `Decode` and of the
statements after it (net.cpp 127-162), in order. The arguments are those of
`DecodeLoop`, with the offset `pstr - buff` for the contents of the scratch
buffer and `n` for the strings stored so far. -/
def DecodeWrites : List Nat → Nat → Nat → Nat → List DecodeWrite
  | [], _, pstr, n => [DecodeWrite.buff pstr, DecodeWrite.params n]
  | c :: rest, b, pstr, n =>
    if c = 0 then [DecodeWrite.buff pstr, DecodeWrite.params n]
    else if c = 38 then
      -- `*pstr = 0; params[n] = ...; b = 0; pstr = buff; n++`
      DecodeWrite.buff pstr :: DecodeWrite.params n :: DecodeWrites rest 1 0 (n + 1)
    else if c = 37 then
      match rest with
      | h :: l :: rest2 =>
        match hexval h, hexval l with
        | some _, some _ =>
          -- `*pstr++ = s;` then `b++` and the test `b > 255`
          DecodeWrite.buff pstr ::
            (if b + 1 > 255 then [] else DecodeWrites rest2 (b + 1) (pstr + 1) n)
        | _, _ => []
      | _ => []
    else
      -- `*pstr++ = *str;` then `b++` and the test `b > 255`
      DecodeWrite.buff pstr ::
        (if b + 1 > 255 then [] else DecodeWrites rest (b + 1) (pstr + 1) n)

/-- The writes of a call `Decode(str, params, maxpars)`. -/
def Decode.writes (str : List Nat) (_maxpars : Nat) : List DecodeWrite :=
  DecodeWrites str 0 0 0

/-- The write stays inside the object it goes to: the scratch buffer has 255
elements, the caller's array `maxpars`. -/
def DecodeWrite.inBounds (maxpars : Nat) : DecodeWrite → Bool
  | DecodeWrite.buff i => decide (i < 255)
  | DecodeWrite.params i => decide (i < maxpars)

/-- The index of a write into the caller's array. -/
def DecodeWrite.slot : DecodeWrite → Option Nat
  | DecodeWrite.buff _ => none
  | DecodeWrite.params i => some i

/-! ## net.cpp: Encode -/

/-- One lower-case hex digit as printed by `%02x`. -/
def hexdigit (d : Nat) : Nat := if d < 10 then 48 + d else 87 + d

/-- The `while(*c != 0)` loop of `Encode` (net.cpp 174-188).

* first argument: the characters from `c` on;
* `b`: the counter `b`; `pstr`: the offset of `pstr` in `buff`;
* `buff`: the contents of the `static char buff[255]`.

`sprintf(pstr, "%02x", *c)` writes two hex digits and a NUL. A write at an
offset outside the list is dropped. The result is `none` for `return NULL`
and otherwise the contents of the static buffer (the function returns the
address of `buff`). -/
def EncodeLoop : List Nat → Nat → Nat → List Nat → Option (List Nat)
  | [], _, _, buff => some buff
  | c :: rest, b, pstr, buff =>
    if c = 0 then some buff
    else if c = 37 ∨ c = 38 then
      let buff1 := buff.set pstr 37
      let buff2 := ((buff1.set (pstr + 1) (hexdigit (c / 16))).set (pstr + 2)
        (hexdigit (c % 16))).set (pstr + 3) 0
      if b + 3 > 255 then none else EncodeLoop rest (b + 3) (pstr + 3) buff2
    else
      let buff1 := buff.set pstr c
      if b + 1 > 255 then none else EncodeLoop rest (b + 1) (pstr + 1) buff1

/-- The function `char *Encode(char *c)` (net.cpp 168-190): `buff` is the state of the
`static char buff[255]` when the call starts; the result is its state when
the call returns (`none` for `NULL`). No terminator is written after the
loop. -/
def Encode (buff : List Nat) (c : List Nat) : Option (List Nat) :=
  EncodeLoop c 0 0 buff

/-- The static buffer of `Encode` at program start (zero-initialised). -/
def Encode.initBuff : List Nat := List.replicate 255 0

/-- The string a caller reads through the pointer `Encode` returns. -/
def EncodeStr (buff : List Nat) (c : List Nat) : Option (List Nat) :=
  (Encode buff c).map cstr

/-! ## The codec as the specification words it -/

/-- The segments of a line between raw `&` characters (spec 4.1: "splits on
`&`"). A line with `k` separators has `k + 1` segments. -/
def splitAmp : List Nat → List (List Nat)
  | [] => [[]]
  | c :: rest =>
    if c = 38 then [] :: splitAmp rest
    else (c :: (splitAmp rest).headD []) :: (splitAmp rest).tail

/-- Percent-decoding of one segment as the specification words it (`%XX` →
byte); `none` when a `%` is not followed by two hex digits. -/
def percentDecode : List Nat → Option (List Nat)
  | [] => some []
  | c :: rest =>
    if c = 37 then
      match rest with
      | h :: l :: rest2 =>
        match hexval h, hexval l with
        | some x, some y => (percentDecode rest2).map (fun d => (x * 16 + y) :: d)
        | _, _ => none
      | _ => none
    else (percentDecode rest).map (fun d => c :: d)

/-- The characters after a `%` start with two hex digits. -/
def twoHex : List Nat → Bool
  | h :: l :: _ => (hexval h).isSome && (hexval l).isSome
  | _ => false

/-- Some `%` of the line (at any position) is not followed by two characters
from `0-9`, `a-f`, `A-F`. -/
def hasBadEscape : List Nat → Bool
  | [] => false
  | c :: rest => (c == 37 && !twoHex rest) || hasBadEscape rest

/-- The number of characters a segment decodes to, each `%XX` counted as one. -/
def decodedLen (seg : List Nat) : Nat := seg.length - 2 * seg.count 37

/-- The length cap of `Decode`: every segment decodes to at most 254
characters. (The counter `b` restarts at 0 on a separator and is incremented
for the separator itself, so 254 is the longest segment accepted in every
position; it is also the longest that fits the 255-element scratch buffer
with its terminator.) -/
def withinCap (line : List Nat) : Prop :=
  ∀ seg ∈ splitAmp line, decodedLen seg ≤ 254

instance (line : List Nat) : Decidable (withinCap line) := by
  unfold withinCap; infer_instance

/-! ## Result codes and text formatting -/

/-- The COM macro `FAILED(hr)`: the sign bit of the `HRESULT` is set. -/
def FAILED (hr : Int) : Bool := decide (hr < 0)

/-- The COM macro `SUCCEEDED(hr)`. -/
def SUCCEEDED (hr : Int) : Bool := decide (0 ≤ hr)

/-- The platform constant `E_FAIL`, `0x80004005` as a signed 32-bit value. -/
def E_FAIL : Int := -2147467259

/-- The platform flag `ADS_UF_DONT_EXPIRE_PASSWD` (`0x10000`). -/
def ADS_UF_DONT_EXPIRE_PASSWD : Nat := 65536

/-- The platform flag `UF_PASSWD_CANT_CHANGE` (`0x40`). -/
def UF_PASSWD_CANT_CHANGE : Nat := 64

/-- The constant `MAXARGS` (service.h 68). -/
def MAXARGS : Nat := 20

/-- The conversion `%x` applied to an `HRESULT`: lower-case hex of the 32-bit
unsigned value. -/
def fmtHex (hr : Int) : List Nat :=
  (Nat.toDigits 16 (hr % 4294967296).toNat).map Char.toNat

/-- The conversions `%d` and `%i` applied to a non-negative number. -/
def fmtDec (n : Nat) : List Nat := (Nat.toDigits 10 n).map Char.toNat

/-- The text `BAIL_ON_FAILURE` (service.h 63) prints into `ret`:
`sprintf(ret, "Failed: 0x%x on line %d", hr, __LINE__)`. -/
def bailText (hr : Int) (ln : Nat) : List Nat :=
  lit "Failed: 0x" ++ fmtHex hr ++ lit " on line " ++ fmtDec ln

/-! ## The fixed-size arrays of the code -/

/-- The constant `RET_SIZE` (service.h 70). -/
def RET_SIZE : Nat := 512

/-- The arrays of fixed size that the session loop, `send_data` and the
listing functions fill with strings of unchecked length. -/
inductive Buffer
  /-- The array `TCHAR lnBuff[255]` of `AcceptThreadProc` (server.cpp 49). -/
  | lnBuff
  /-- The array `TCHAR respBuff[255]` of `AcceptThreadProc` (server.cpp 48). -/
  | respBuff
  /-- The array `char buff[255]` of `send_data` (net.cpp 194). -/
  | sendBuff
  /-- The arrays `TCHAR line[255]` (server.cpp 112 and 120, adsi.cpp 171). -/
  | line
  /-- The array `TCHAR line[RET_SIZE]` of `ListObjectsLdap` (adsi.cpp 251). -/
  | ldapLine
  /-- The array `WCHAR path[255]` of `ListObjectsLdap` (adsi.cpp 346). -/
  | path
  /-- The array `TCHAR winnt[255]` of `ListObjectsLdap` (adsi.cpp 369). -/
  | winnt
  /-- The array `WCHAR rootdse[255]` of `ListObjectsLdap` (adsi.cpp 257). -/
  | rootdse
  /-- The array `WCHAR base_winnt[255]` of `ListObjectsLdap` (adsi.cpp 250). -/
  | base_winnt
  /-- The array `WCHAR pszNewPath[255]` of `ProcessUser` (adsi.cpp 91). -/
  | pszNewPath
deriving DecidableEq

/-- The number of elements of the array. -/
def Buffer.size : Buffer → Nat
  | Buffer.ldapLine => RET_SIZE
  | _ => 255

/-- A step of the code whose effect the language does not define. The model
records the step and goes on as the code does when the step has no further
effect (the memory behind the array is not in use, the slot holds an empty
string); what the code does after such a step depends on the layout the
compiler chose and is not fixed by the source. The blocks `Decode` allocates
with `malloc` are not tracked. -/
inductive Fault
  /-- A string of `len` characters and its terminator go to array `b`, which
  has `len` elements or fewer. -/
  | overrun (b : Buffer) (len : Nat)
  /-- The element `b[i]` is written with `i` not below the size of `b`. -/
  | index (b : Buffer) (i : Nat)
  /-- A write of `Decode` outside `TCHAR buff[255]` or outside the caller's
  `TCHAR *par[MAXARGS]`. -/
  | decode (w : DecodeWrite)
  /-- The slot `par[i]` is read and no call of `Decode` has stored a string
  in it: it holds an uninitialised pointer. -/
  | unset (i : Nat)
  /-- The array `b` is read as a string and nothing was written to it. -/
  | uninit (b : Buffer)
  /-- The array `char errmsg[255]` is handed to the conversion `%s` of the
  wide `wsprintf` (server.cpp 170), which reads it two bytes at a time and
  goes on behind the terminator of the text. -/
  | format
  /-- The call `FreeADsMem( pszAttr )` with `pszAttr` pointing to an array on
  the stack (adsi.cpp 402). -/
  | free
deriving DecidableEq

/-- The fault, if any, of putting the string `str` and its terminator into
array `b`. -/
def overrun (b : Buffer) (str : List Nat) : List Fault :=
  if str.length < b.size then [] else [Fault.overrun b str.length]

/-- A `char` array read as a wide string: two bytes make one character (low
byte first), up to the first character that is 0. -/
def asWide : List Nat → List Nat
  | lo :: hi :: rest => if lo + 256 * hi = 0 then [] else (lo + 256 * hi) :: asWide rest
  | _ => []

/-! ## adsi.cpp: AlterUser -/

/-- The calls `AlterUser` makes on the directory backend (`ADsGetObject` and
the methods of the `IADsUser` object it returns). -/
inductive UserCall
  | ADsGetObject (path : List Nat)
  | put_FullName (v : List Nat)
  | SetPassword (v : List Nat)
  | Put_HomeDirDrive (v : List Nat)
  | put_HomeDirectory (v : List Nat)
  | put_LoginScript (v : List Nat)
  | put_Profile (v : List Nat)
  | Get_UserFlags
  | Put_UserFlags (v : Nat)
  | put_AccountDisabled (v : Int)
  | SetInfo
deriving DecidableEq

/-- The directory backend as `AlterUser` sees it: the `HRESULT` of each call
and the flag word read by `Get(L"UserFlags")`, both as functions of the calls
made before. -/
structure UserBackend where
  hr : List UserCall → UserCall → Int
  userFlags : List UserCall → Nat

/-- Control flow inside `AlterUser`: fall through to the next statement, or
`goto error` with the `hr` to return. Both carry the contents of `ret` and
the backend calls made so far. -/
inductive Flow
  | next (ret : List Nat) (calls : List UserCall)
  | bail (hr : Int) (ret : List Nat) (calls : List UserCall)
deriving DecidableEq

/-- The macro `BAIL_ON_FAILURE(hr)` (service.h 63) expanded on source line `ln`: on a
failed `hr` the macro overwrites `ret` and jumps to `error`. -/
def BAIL_ON_FAILURE (hr : Int) (ln : Nat) (ret : List Nat) (calls : List UserCall) : Flow :=
  if FAILED hr then Flow.bail hr (bailText hr ln) calls else Flow.next ret calls

/-- A backend call `hr = ...;` followed by `BAIL_ON_FAILURE(hr);` on line `ln`. -/
def invoke (B : UserBackend) (c : UserCall) (ln : Nat) (ret : List Nat)
    (calls : List UserCall) : Flow :=
  BAIL_ON_FAILURE (B.hr calls c) ln ret (calls ++ [c])

/-- The body of the `for` loop of `AlterUser` (adsi.cpp 686-729) for index
`i`: the tag is `p[i]`, the value `p[i+1]`. A slot of `p` beyond the list
reads as the empty string. -/
def alterField (B : UserBackend) (p : List (List Nat)) (i : Nat) (ret : List Nat)
    (calls : List UserCall) : Flow :=
  let tag := p.getD i []
  let val := p.getD (i + 1) []
  if tag = lit "ADIS" then Flow.next ret calls
  else if tag = lit "fn" then invoke B (UserCall.put_FullName val) 689 ret calls
  else if tag = lit "pass" then invoke B (UserCall.SetPassword val) 692 ret calls
  else if tag = lit "hdr" then invoke B (UserCall.Put_HomeDirDrive val) 697 ret calls
  else if tag = lit "hdir" then invoke B (UserCall.put_HomeDirectory val) 700 ret calls
  else if tag = lit "ls" then invoke B (UserCall.put_LoginScript val) 703 ret calls
  else if tag = lit "pf" then invoke B (UserCall.put_Profile val) 706 ret calls
  else if tag = lit "pexp" then
    match invoke B UserCall.Get_UserFlags 709 ret calls with
    | Flow.bail hr r c => Flow.bail hr r c
    | Flow.next r c =>
      let v := B.userFlags calls ||| ADS_UF_DONT_EXPIRE_PASSWD
      let v1 := if val = lit "1" then v ^^^ ADS_UF_DONT_EXPIRE_PASSWD else v
      invoke B (UserCall.Put_UserFlags v1) 713 r c
  else if tag = lit "ccp" then
    match invoke B UserCall.Get_UserFlags 716 ret calls with
    | Flow.bail hr r c => Flow.bail hr r c
    | Flow.next r c =>
      let v := B.userFlags calls ||| UF_PASSWD_CANT_CHANGE
      let v1 := if val = lit "1" then v ^^^ UF_PASSWD_CANT_CHANGE else v
      invoke B (UserCall.Put_UserFlags v1) 720 r c
  else if tag = lit "dis" then
    invoke B (UserCall.put_AccountDisabled (if val = lit "1" then -1 else 0)) 724 ret calls
  else
    -- sprintf(ret, "What do you mean in arg '%i'?\n", i); hr = E_FAIL; BAIL_ON_FAILURE(hr);
    BAIL_ON_FAILURE E_FAIL 728 (lit "What do you mean in arg '" ++ fmtDec i ++ lit "'?\n") calls

/-- The values `i` takes in `for(i=2; i<=n; i+=2)`: 2, 4, ..., `n.toNat / 2`
of them. -/
def alterIndices (n : Int) : List Nat :=
  (List.range (n.toNat / 2)).map (fun k => 2 * k + 2)

/-- The `for` loop of `AlterUser` over the remaining indices. -/
def alterLoop (B : UserBackend) (p : List (List Nat)) :
    List Nat → List Nat → List UserCall → Flow
  | [], ret, calls => Flow.next ret calls
  | i :: is, ret, calls =>
    match alterField B p i ret calls with
    | Flow.bail hr r c => Flow.bail hr r c
    | Flow.next r c => alterLoop B p is r c

/-- What `AlterUser` hands back: the returned `HRESULT`, the contents of
`ret`, and the backend calls it made, in order. -/
structure AlterResult where
  hr : Int
  ret : List Nat
  calls : List UserCall
deriving DecidableEq

/-- The function `HRESULT AlterUser(WCHAR *p[], int n, char *ret)` (adsi.cpp 676-737);
`ret` is the contents of the caller's buffer when the call starts. -/
def AlterUser (B : UserBackend) (p : List (List Nat)) (n : Int) (ret : List Nat) :
    AlterResult :=
  match invoke B (UserCall.ADsGetObject (p.getD 1 [])) 683 ret [] with
  | Flow.bail hr r c => ⟨hr, r, c⟩
  | Flow.next r c =>
    match alterLoop B p (alterIndices n) r c with
    | Flow.bail hr r1 c1 => ⟨hr, r1, c1⟩
    | Flow.next r1 c1 =>
      match invoke B UserCall.SetInfo 733 r1 c1 with
      | Flow.bail hr r2 c2 => ⟨hr, r2, c2⟩
      | Flow.next r2 c2 => ⟨B.hr c1 UserCall.SetInfo, r2, c2⟩

/-- The tags `AlterUser` has a branch for. -/
def knownTags : List (List Nat) :=
  [lit "ADIS", lit "fn", lit "pass", lit "hdr", lit "hdir", lit "ls", lit "pf",
   lit "pexp", lit "ccp", lit "dis"]

/-- The slots of `p` the body of the `for` loop of `AlterUser` reads for
index `i`: the tag `p[i]`, and the value `p[i+1]` in the branches that reach
a statement using it. -/
def alterFieldReads (B : UserBackend) (p : List (List Nat)) (i : Nat)
    (calls : List UserCall) : List Nat :=
  let tag := p.getD i []
  if tag = lit "fn" ∨ tag = lit "pass" ∨ tag = lit "hdr" ∨ tag = lit "hdir" ∨
      tag = lit "ls" ∨ tag = lit "pf" ∨ tag = lit "dis" then [i, i + 1]
  else if tag = lit "pexp" ∨ tag = lit "ccp" then
    if FAILED (B.hr calls UserCall.Get_UserFlags) then [i] else [i, i + 1]
  else [i]

/-- The slots of `p` the `for` loop of `AlterUser` reads, in order. -/
def alterLoopReads (B : UserBackend) (p : List (List Nat)) :
    List Nat → List Nat → List UserCall → List Nat
  | [], _, _ => []
  | i :: is, ret, calls =>
    alterFieldReads B p i calls ++
      (match alterField B p i ret calls with
      | Flow.bail _ _ _ => []
      | Flow.next r c => alterLoopReads B p is r c)

/-- The slots of `p` a call `AlterUser(p, n, ret)` reads, in order: `p[1]`
for the lookup, then those of the loop. -/
def AlterUser.reads (B : UserBackend) (p : List (List Nat)) (n : Int) (ret : List Nat) :
    List Nat :=
  1 :: (match invoke B (UserCall.ADsGetObject (p.getD 1 [])) 683 ret [] with
    | Flow.bail _ _ _ => []
    | Flow.next r c => alterLoopReads B p (alterIndices n) r c)

/-! ## server.cpp: AcceptThreadProc -/

/-- The entry points of adsi.cpp that `AcceptThreadProc` calls (declared in
service.h 97-105), with the arguments passed. -/
inductive ProviderCall
  | ListObjectsWrap (szPath : List Nat) (type : List Nat) (expand : Bool)
  | ProcessUser (pszPath : List Nat)
  | ConvNameWrap (cvPath : List Nat)
  | ShowGroup (pszPath : List Nat) (usersGroups : Bool)
  | CreateGroupOrUserWrap (pwParentName pwGroupName pwSamAcctName : List Nat)
      (type : List Nat)
  | myDeleteObject (pwszAdsPath : List Nat)
  | MoveObject (pszSrc pszDest : List Nat)
  | AddRemoveMemberToGroup (member grp : List Nat) (remove : Bool)
  | AlterUser (p : List (List Nat)) (n : Int)
deriving DecidableEq

/-- What an entry point hands back to `AcceptThreadProc`: the `HRESULT`, the
text left in `ret` (`retb`), the lines it sent on the socket itself (listing
entry points), the text it appended to `line` (`ProcessUser`,
`ConvNameWrap`), the faults of its own statements, and the slots of the
array of arguments it read (`AlterUser`, the one entry point that is handed
the array `par` itself). -/
structure ProviderResult where
  hr : Int
  ret : List Nat
  lines : List (List Nat)
  line : List Nat
  faults : List Fault
  reads : List Nat
deriving DecidableEq

/-- The observable actions of a session thread, in order. -/
inductive Event
  | send (line : List Nat)
  | decode (line : List Nat)
  | call (c : ProviderCall)
  | resume
deriving DecidableEq

/-- What surrounds a session: the shared secret (`password`), the text
`GetLastErrorText` yields after `SetLastError(hr)`, the Provider, whose
answer may depend on everything that happened before, and the bytes the
uninitialised array `char errmsg[255]` holds behind the terminator of a text
copied into it (`errTail`). -/
structure Env where
  password : List Nat
  errText : Int → List Nat
  provider : List Event → ProviderCall → ProviderResult
  errTail : List Nat

/-- The Provider in which `AlterUser` is the function of adsi.cpp run against
a backend; the other entry points are answered by `other`. -/
def adsiProvider (B : List Event → UserBackend)
    (other : List Event → ProviderCall → ProviderResult) :
    List Event → ProviderCall → ProviderResult
  | h, ProviderCall.AlterUser p n =>
    let r := AlterUser (B h) p n []
    ⟨r.hr, r.ret, [], [], [], AlterUser.reads (B h) p n []⟩
  | h, c => other h c

/-- The locals of `AcceptThreadProc` that outlive one turn of the loop,
with the trace of actions so far. `par` holds the strings the slots of
`TCHAR *par[MAXARGS]` point to; it is never cleared between commands, and
only the slots `par[0..stored-1]` have been assigned by `Decode`: the others
hold uninitialised pointers, for which `par` lists a stand-in. `exited` is
set by `rf_resume` (which ends the thread). `faults` lists the faults of the
thread so far. -/
structure Session where
  authenticated : Bool
  done : Bool
  exited : Bool
  par : List (List Nat)
  trace : List Event
  stored : Nat
  faults : List Fault
deriving DecidableEq

/-- The session when the `while(!done)` loop is entered (server.cpp 78-82):
the greeting was sent; no slot of `par` has been assigned, `par0` is the
stand-in for what the slots hold. -/
def Session.start (par0 : List (List Nat)) : Session :=
  ⟨false, false, false, par0, [Event.send (lit "200 Ready æøå\r\n")], 0, []⟩

/-- The function `rf_resume(sock2, ...)` (server.cpp 33-40): close the socket, resume the
main thread, exit this thread. -/
def rf_resume (s : Session) : Session :=
  { s with exited := true, trace := s.trace ++ [Event.resume] }

/-- The call `send_data(sock2, line)` (net.cpp 192-207): the line is
converted into `char buff[255]` and written to the socket. -/
def send_data (s : Session) (line : List Nat) : Session :=
  { s with
    trace := s.trace ++ [Event.send line]
    faults := s.faults ++ overrun Buffer.sendBuff line }

/-- The slots of `par` after `Decode` stored `stored` in `params[0..]`: the
other slots keep what they held. -/
def storePars (par stored : List (List Nat)) : List (List Nat) :=
  stored ++ par.drop stored.length

/-- The locals set by the verb chain of `AcceptThreadProc` (server.cpp
101-162), with the faults of the chain and of the entry point it called and
the slots of `par` read (`par[0]` by the comparisons, the operands where
they are passed, the slots `AlterUser` reads). -/
structure Dispatch where
  hr : Int
  errmsg : List Nat
  give_ack : Bool
  retb : List Nat
  done : Bool
  events : List Event
  faults : List Fault
  reads : List Nat
deriving DecidableEq

/-- The text `errmsgs[BAD_NUMBER_OF_ARGS]` (server.cpp 60). -/
def badArgs : List Nat := lit "Bad number of arguments"

/-- A call of an entry point that sends nothing itself: `give_ack` as given,
`hr` and `retb` from the entry point. `reads` lists the slots of `par` read
up to the call. -/
def callPlain (env : Env) (hist : List Event) (give_ack : Bool) (reads : List Nat)
    (c : ProviderCall) : Dispatch :=
  let r := env.provider hist c
  ⟨r.hr, [], give_ack, r.ret, false, [Event.call c], r.faults, reads ++ r.reads⟩

/-- A call of an entry point that is handed the socket (`ListObjectsWrap`,
`ShowGroup`): the lines it sends follow the call. -/
def callSock (env : Env) (hist : List Event) (give_ack : Bool) (reads : List Nat)
    (c : ProviderCall) : Dispatch :=
  let r := env.provider hist c
  ⟨r.hr, [], give_ack, r.ret, false, Event.call c :: r.lines.map Event.send, r.faults,
    reads ++ r.reads⟩

/-- A call of `ProcessUser` or `ConvNameWrap` (server.cpp 111-126): `line`
(`TCHAR line[255]`) starts as `"210 "`, the entry point appends to it, and on
success a newline is appended and the line is sent. -/
def callLine (env : Env) (hist : List Event) (reads : List Nat) (c : ProviderCall) :
    Dispatch :=
  let r := env.provider hist c
  let line := lit "210 " ++ r.line ++ lit "\n"
  if SUCCEEDED r.hr then
    ⟨r.hr, [], false, r.ret, false, [Event.call c, Event.send line],
      r.faults ++ overrun Buffer.line line ++ overrun Buffer.sendBuff line, reads ++ r.reads⟩
  else ⟨r.hr, [], false, r.ret, false, [Event.call c], r.faults, reads ++ r.reads⟩

/-- The verb chain of `AcceptThreadProc` (server.cpp 101-162), starting from
`hr = 0; errmsg[0] = '\0'; give_ack = FALSE; retb[0] = '\0'`. `hist` is the
trace up to this point. -/
def dispatch (env : Env) (hist : List Event) (par : List (List Nat)) (nargs : Int) :
    Dispatch :=
  let p (i : Nat) : List Nat := par.getD i []
  if p 0 = lit "LUSERS" then
    if nargs ≠ 2 then ⟨0, badArgs, false, [], false, [], [], [0]⟩
    else callSock env hist false [0, 1, 2]
      (ProviderCall.ListObjectsWrap (p 1) (lit "users") (decide (p 2 = lit "1")))
  else if p 0 = lit "LGROUPS" then
    if nargs ≠ 1 then ⟨0, badArgs, false, [], false, [], [], [0]⟩
    else callSock env hist false [0, 1] (ProviderCall.ListObjectsWrap (p 1) (lit "group") false)
  else if p 0 = lit "LORGS" then
    if nargs ≠ 1 then ⟨0, badArgs, false, [], false, [], [], [0]⟩
    else callSock env hist false [0, 1] (ProviderCall.ListObjectsWrap (p 1) (lit "org") false)
  else if p 0 = lit "LUSER" then callLine env hist [0, 1] (ProviderCall.ProcessUser (p 1))
  else if p 0 = lit "TRANS" then callLine env hist [0, 1] (ProviderCall.ConvNameWrap (p 1))
  else if p 0 = lit "LGROUP" then
    callSock env hist true [0, 1] (ProviderCall.ShowGroup (p 1) false)
  else if p 0 = lit "LUSERMEMB" then
    callSock env hist true [0, 1] (ProviderCall.ShowGroup (p 1) true)
  else if p 0 = lit "NEWGR" then
    callPlain env hist true [0, 1, 2, 3]
      (ProviderCall.CreateGroupOrUserWrap (p 1) (p 2) (p 3) (lit "group"))
  else if p 0 = lit "NEWUSR" then
    callPlain env hist true [0, 1, 2, 3]
      (ProviderCall.CreateGroupOrUserWrap (p 1) (p 2) (p 3) (lit "user"))
  else if p 0 = lit "NEWORG" then
    callPlain env hist true [0, 1, 2, 3]
      (ProviderCall.CreateGroupOrUserWrap (p 1) (p 2) (p 3) (lit "org"))
  else if p 0 = lit "DELGR" ∨ p 0 = lit "DELUSR" ∨ p 0 = lit "DELORG" then
    callPlain env hist true [0, 1] (ProviderCall.myDeleteObject (p 1))
  else if p 0 = lit "MOVEOBJ" then
    callPlain env hist true [0, 1, 2] (ProviderCall.MoveObject (p 1) (p 2))
  else if p 0 = lit "ADDUSRGR" then
    callPlain env hist true [0, 1, 2] (ProviderCall.AddRemoveMemberToGroup (p 1) (p 2) false)
  else if p 0 = lit "DELUSRGR" then
    callPlain env hist true [0, 1, 2] (ProviderCall.AddRemoveMemberToGroup (p 1) (p 2) true)
  else if p 0 = lit "ALTRUSR" then
    callPlain env hist true [0] (ProviderCall.AlterUser par nargs)
  else if p 0 = lit "QUIT" then ⟨0, [], false, [], true, [], [], [0]⟩
  else
    -- wsprintf(respBuff, L"310 Ka fasken prater du om (%s)?\r\n", par[0]);
    -- send_data(sock2, respBuff);
    let resp := lit "310 Ka fasken prater du om (" ++ p 0 ++ lit ")?\r\n"
    ⟨0, [], false, [], false, [Event.send resp],
      overrun Buffer.respBuff resp ++ overrun Buffer.sendBuff resp, [0]⟩

/-- The line `wsprintf` builds in `respBuff` on a failure (server.cpp
169-170). With `errmsg` empty it carries `hr`, the system text and `retb`.
Otherwise the `char` array `errmsg` goes to the wide conversion `%s`: the
text is what the bytes of `errmsg`, its terminator and the bytes behind it
give when read as wide characters. -/
def failLine (env : Env) (d : Dispatch) : List Nat :=
  if d.errmsg = [] then
    lit "300 Failed 0x" ++ fmtHex d.hr ++ lit " (" ++ env.errText d.hr ++ lit ") (" ++
      d.retb ++ lit ")\n"
  else lit "300 Failed (" ++ asWide (d.errmsg ++ [0] ++ env.errTail) ++ lit ")\n"

/-- The response written after the verb chain (server.cpp 163-172). -/
def respond (env : Env) (d : Dispatch) : List Event :=
  if SUCCEEDED d.hr ∧ d.errmsg = [] then
    if d.give_ack then [Event.send (lit "210 OK\n")] else []
  else [Event.send (failLine env d)]

/-- The faults of the response written after the verb chain: the failure
line goes through `respBuff` and `send_data`, and the `errmsg` form of it
reads `errmsg` as a wide string. -/
def respondFaults (env : Env) (d : Dispatch) : List Fault :=
  if SUCCEEDED d.hr ∧ d.errmsg = [] then []
  else
    (if d.errmsg = [] then [] else [Fault.format]) ++
      overrun Buffer.respBuff (failLine env d) ++ overrun Buffer.sendBuff (failLine env d)

/-- The string `Decode` is handed (server.cpp 98-99): `lnBuff` after
`lnBuff[n-1] = '\0'`. -/
def commandLine (n : Int) (lnBuff : List Nat) : List Nat :=
  cstr (lnBuff.set (n - 1).toNat 0)

/-- The faults of the writes of `Decode` on `line`, called with the array
`par` of `MAXARGS` slots. -/
def decodeFaults (line : List Nat) : List Fault :=
  ((Decode.writes line MAXARGS).filter (fun w => !w.inBounds MAXARGS)).map Fault.decode

/-- The faults of reading the slots `reads` of `par` when the slots below
`stored` have been assigned. -/
def unsetSlots (stored : Nat) (reads : List Nat) : List Fault :=
  (reads.filter (fun i => decide (stored ≤ i))).map Fault.unset

/-- The faults of the statements that bring a line to the verb chain
(server.cpp 83-99) for the outcome `(n, lnBuff)` of `rf_gets`: the string in
`lnBuff` was written to an array of 255 elements, `lnBuff[n-1]` is assigned,
and `Decode` writes its scratch buffer and `par`. -/
def inputFaults (n : Int) (lnBuff : List Nat) : List Fault :=
  overrun Buffer.lnBuff lnBuff ++
    (if (n - 1).toNat < Buffer.lnBuff.size then []
      else [Fault.index Buffer.lnBuff (n - 1).toNat]) ++
    decodeFaults (commandLine n lnBuff)

/-- One turn of the `while(!done)` loop (server.cpp 83-173) for the outcome
`(n, lnBuff)` of `rf_gets`: `n` is the returned count, `lnBuff` the string
the array holds after the call. -/
def loopBody (env : Env) (s : Session) (n : Int) (lnBuff : List Nat) : Session :=
  if n ≤ 0 then rf_resume s
  else if s.authenticated = false then
    let s0 := { s with faults := s.faults ++ overrun Buffer.lnBuff lnBuff }
    if cstr env.password ≠ cstr lnBuff then
      rf_resume (send_data s0 (lit "300 Hey! That wasn't nice! Go away!\n"))
    else
      { send_data s0 (lit "200 Howdy, long time no see!\n") with authenticated := true }
  else
    let line := commandLine n lnBuff
    let r := Decode line MAXARGS
    let par := storePars s.par r.params
    let stored := max s.stored r.params.length
    let hist := s.trace ++ [Event.decode line]
    let d := dispatch env hist par r.ret
    { s with
      done := d.done
      par := par
      trace := hist ++ d.events ++ respond env d
      stored := stored
      faults := s.faults ++ inputFaults n lnBuff ++ unsetSlots stored d.reads ++ d.faults ++
        respondFaults env d }

/-- The end of `AcceptThreadProc` once the loop is left (server.cpp 175-177):
the farewell line and `rf_resume`. -/
def farewell (s : Session) : Session :=
  rf_resume (send_data s (lit "210 Haba baba\r\n"))

/-- One turn of the loop followed, when it set `done`, by the end of the
thread. A thread that has exited does nothing. -/
def sessionStep (env : Env) (s : Session) (n : Int) (lnBuff : List Nat) : Session :=
  if s.exited then s
  else
    let s1 := loopBody env s n lnBuff
    if s1.done ∧ s1.exited = false then farewell s1 else s1

/-- A session run over the successive outcomes of `rf_gets`. -/
def runSession (env : Env) : Session → List (Int × List Nat) → Session
  | s, [] => s
  | s, (n, lnBuff) :: rest => runSession env (sessionStep env s n lnBuff) rest

def verbs : List (List Nat) :=
  [lit "LUSERS", lit "LGROUPS", lit "LORGS", lit "LUSER", lit "TRANS", lit "LGROUP",
   lit "LUSERMEMB", lit "NEWGR", lit "NEWUSR", lit "NEWORG", lit "DELGR", lit "DELUSR",
   lit "DELORG", lit "MOVEOBJ", lit "ADDUSRGR", lit "DELUSRGR", lit "ALTRUSR", lit "QUIT"]

/-- A backend on which every call succeeds with `S_OK` and the flag word is 0. -/
def okBackend : UserBackend := ⟨fun _ _ => 0, fun _ => 0⟩

/-- A Provider that answers every entry point with `S_OK` and no text. -/
def okProvider : List Event → ProviderCall → ProviderResult :=
  fun _ _ => ⟨0, [], [], [], [], []⟩

/-- Surroundings with the secret `secret\n` in which `AlterUser` is the code
of adsi.cpp on `okBackend` and every other entry point succeeds. -/
def okEnv : Env :=
  ⟨lit "secret\n", fun _ => lit "error text", adsiProvider (fun _ => okBackend) okProvider, []⟩

/-- A session that has passed authentication and has decoded no command yet:
no slot of `par` is assigned (the stand-in for what the slots hold is the
empty string). -/
def authedSession : Session :=
  ⟨true, false, false, List.replicate MAXARGS [],
    [Event.send (lit "200 Ready æøå\r\n"), Event.send (lit "200 Howdy, long time no see!\n")],
    0, []⟩

/-- The surroundings `okEnv` with the shared secret `QUIT`. -/
def quitEnv : Env := ⟨lit "QUIT\n", okEnv.errText, okEnv.provider, okEnv.errTail⟩

/-! ## Notions used to state the properties -/

/-- The escape scheme as the specification words it: `%` and `&` become
`%25` and `%26`, every other character stands for itself. -/
def escape : List Nat → List Nat
  | [] => []
  | c :: rest =>
    if c = 37 ∨ c = 38 then 37 :: hexdigit (c / 16) :: hexdigit (c % 16) :: escape rest
    else c :: escape rest

/-- The backend calls recorded in a `Flow`. -/
def Flow.calls : Flow → List UserCall
  | Flow.next _ c => c
  | Flow.bail _ _ c => c

/-- What one call of `recv` yields: `SOCKET_ERROR`, or the bytes received
(none at all when the peer has closed the connection). -/
inductive RecvResult
  | error
  | data (bytes : List Nat)
deriving DecidableEq

/-- What the socket does during one call of `recvwithtimeout`: the outcome of
the first `recv`, whether the error after it is `WSAEWOULDBLOCK`, the value
of `select` (`-1` is `SOCKET_ERROR`, `0` is a timeout) and the outcome of the
second `recv`. -/
structure SockCall where
  first : RecvResult
  wouldBlock : Bool
  select : Int
  second : RecvResult
deriving DecidableEq

/-- The function `recvwithtimeout` (net.cpp 30-69): the value it returns and
the bytes it stored. -/
def recvwithtimeout (s : SockCall) : RecvResult :=
  match s.first with
  | RecvResult.data bytes => RecvResult.data bytes
  | RecvResult.error =>
    if s.wouldBlock then
      if s.select = -1 then RecvResult.error
      else if s.select = 0 then RecvResult.error
      else s.second
    else RecvResult.error

/-- A read that times out: the first `recv` would block and `select` returns
0 after `TIMEOUT_VALUE` seconds. -/
def timedOut (s : SockCall) : Prop :=
  s.first = RecvResult.error ∧ s.wouldBlock = true ∧ s.select = 0

instance (s : SockCall) : Decidable (timedOut s) := by
  unfold timedOut; infer_instance

/-- How the scan of the unread characters of `fb` ends: at a `break` (with
the characters of `buff` and the characters of `fb` still unread), or with no
characters left (`i == fb->incnt`). -/
inductive Scan
  | done (buff : List Nat) (rest : List Nat)
  | more (buff : List Nat)
deriving DecidableEq

/-- The part of the `for(;;)` loop of `rf_gets` that consumes the unread
characters of `fb` (net.cpp 89-108). `buff` holds `buff[0..ct-1]`, so `ct` is
its length. -/
def scanLine (n : Int) : List Nat → List Nat → Scan
  | [], buff => Scan.more buff
  | ch :: rest, buff =>
    if ch = 10 then
      if buff.length = 0 then Scan.done (buff ++ [10]) rest
      else if buff.getLast? = some 13 then Scan.done (buff.dropLast ++ [10]) rest
      else if (buff.length : Int) < n - 1 then Scan.done (buff ++ [10]) rest
      else Scan.done buff (ch :: rest)
    else if (buff.length : Int) = n - 1 then Scan.done buff (ch :: rest)
    else scanLine n rest (buff ++ [ch])

/-- What a call of `rf_gets` leaves behind: the returned `int`, the string
written to `rbuff` (`none` when the call returns without writing it), the
unread characters left in `fb`, and the socket calls still to come. -/
structure GetsResult where
  ret : Int
  rbuff : Option (List Nat)
  pending : List Nat
  sock : List SockCall
deriving DecidableEq

/-- The loop of `rf_gets` from the point where `fb` has no characters left
(net.cpp 77-88): each refill is one call of `recvwithtimeout`, whose outcomes
are listed in the first argument. The result is `none` when the listed
outcomes end before the loop does. `MultiByteToWideChar` copies the C string
of `buff`. -/
def rf_getsFill (n : Int) : List SockCall → List Nat → Option GetsResult
  | [], _ => none
  | s :: socks, buff =>
    match recvwithtimeout s with
    | RecvResult.error =>
      -- buff[ct] = '\0'; return ct ? ct : -1;
      some ⟨if buff.length ≠ 0 then (buff.length : Int) else -1, none, [], socks⟩
    | RecvResult.data bytes =>
      if bytes = [] then some ⟨buff.length, some (cstr buff), [], socks⟩
      else
        match scanLine n bytes buff with
        | Scan.done b rest => some ⟨b.length, some (cstr b), rest, socks⟩
        | Scan.more b => rf_getsFill n socks b

/-- The function `rf_gets(rbuff, n, fb)` (net.cpp 71-118): `pending` holds
the unread characters of `fb` (`fb->inptr[0..incnt-1]`), `socks` the outcomes
of the calls of `recvwithtimeout` to come. -/
def rf_gets (n : Int) (pending : List Nat) (socks : List SockCall) : Option GetsResult :=
  match scanLine n pending [] with
  | Scan.done b rest => some ⟨b.length, some (cstr b), rest, socks⟩
  | Scan.more b => rf_getsFill n socks b

/-- The value of `sizeof(lnBuff)` passed to `rf_gets` (server.cpp 83) for
`TCHAR lnBuff[255]` with two-byte `TCHAR` (the buffer is handed to `wcscmp`). -/
def sizeofLnBuff : Int := 510

/-- A session thread together with its line reader: the contents of `lnBuff`,
the unread characters of `fb` and the socket calls to come. -/
structure Conn where
  session : Session
  lnBuff : List Nat
  pending : List Nat
  socks : List SockCall
deriving DecidableEq

/-- One turn of the `while(!done)` loop including its call of `rf_gets`
(server.cpp 83): `lnBuff` keeps its contents when `rf_gets` returns without
writing it. The result is `none` when the listed socket calls run out. -/
def connStep (env : Env) (c : Conn) : Option Conn :=
  if c.session.exited then some c
  else
    match rf_gets sizeofLnBuff c.pending c.socks with
    | none => none
    | some g =>
      let ln := g.rbuff.getD c.lnBuff
      some ⟨sessionStep env c.session g.ret ln, ln, g.pending, g.sock⟩

/-- At most `k` turns of the loop, stopping when the thread has exited. -/
def runConn (env : Env) : Nat → Conn → Option Conn
  | 0, c => some c
  | k + 1, c =>
    if c.session.exited then some c
    else
      match connStep env c with
      | none => none
      | some c1 => runConn env k c1

/-- A socket call that delivers `bytes` at once. -/
def delivers (bytes : List Nat) : SockCall :=
  ⟨RecvResult.data bytes, false, 1, RecvResult.error⟩

/-- A socket call that times out. -/
def timesOut : SockCall := ⟨RecvResult.error, true, 0, RecvResult.error⟩

/-- The characters that denote the hex digit `d`: the decimal digit, or the
letter in lower and in upper case. -/
def hexChars (d : Nat) : List Nat :=
  if d < 10 then [48 + d] else [87 + d, 55 + d]

/-! ## adsi.cpp: CreateGroupOrUserWrap -/

/-- The backend calls of the create functions. -/
inductive CreateCall
  | ADsGetObject (path : List Nat)
  | Create (cls : List Nat) (name : List Nat)
  | QueryInterface
  | SetInfo
  | CreateDSObject (rdn : List Nat) (cls : List Nat) (dwAttrs : Nat)
deriving DecidableEq

/-- What a create function hands back: the returned `HRESULT`, the contents
of `ret`, and the backend calls it made, in order. -/
structure CreateResult where
  hr : Int
  ret : List Nat
  calls : List CreateCall
deriving DecidableEq

/-- The function `CreateGroupOrUserWin` (adsi.cpp 615-640). `B` gives the
`HRESULT` of each backend call from the calls made before it; `wcslen` is the
length of the C string. -/
def CreateGroupOrUserWin (B : List CreateCall → CreateCall → Int)
    (pwParentName pwGroupName type ret : List Nat) : CreateResult :=
  if (cstr pwGroupName).length > 20 then ⟨E_FAIL, ret, []⟩
  else
    let c1 := CreateCall.ADsGetObject pwParentName
    if FAILED (B [] c1) then ⟨B [] c1, bailText (B [] c1) 624, [c1]⟩
    else
      let c2 := CreateCall.Create
        (if type = lit "group" then lit "GlobalGroup" else lit "User") pwGroupName
      if FAILED (B [c1] c2) then ⟨B [c1] c2, bailText (B [c1] c2) 628, [c1, c2]⟩
      else
        let c3 := CreateCall.QueryInterface
        if FAILED (B [c1, c2] c3) then
          ⟨B [c1, c2] c3, bailText (B [c1, c2] c3) 631, [c1, c2, c3]⟩
        else
          let c4 := CreateCall.SetInfo
          if FAILED (B [c1, c2, c3] c4) then
            ⟨B [c1, c2, c3] c4, bailText (B [c1, c2, c3] c4) 633, [c1, c2, c3, c4]⟩
          else ⟨B [c1, c2, c3] c4, ret, [c1, c2, c3, c4]⟩

/-- The function `CreateGroupOrUserLdap` (adsi.cpp 548-613). -/
def CreateGroupOrUserLdap (B : List CreateCall → CreateCall → Int)
    (pszPath pwCommonName _pwSamAcctName type ret : List Nat) : CreateResult :=
  let c1 := CreateCall.ADsGetObject pszPath
  if FAILED (B [] c1) then ⟨B [] c1, bailText (B [] c1) 584, [c1]⟩
  else if type = lit "group" ∨ type = lit "user" ∨ type = lit "org" then
    let c2 :=
      if type = lit "group" then
        CreateCall.CreateDSObject (lit "CN=" ++ pwCommonName) (lit "group") 3
      else if type = lit "user" then
        CreateCall.CreateDSObject (lit "CN=" ++ pwCommonName) (lit "user") 2
      else CreateCall.CreateDSObject (lit "OU=" ++ pwCommonName) (lit "organizationalUnit") 1
    if FAILED (B [c1] c2) then ⟨B [c1] c2, bailText (B [c1] c2) 608, [c1, c2]⟩
    else ⟨B [c1] c2, ret, [c1, c2]⟩
  else ⟨E_FAIL, lit "Illegal type '" ++ type ++ lit "'", [c1]⟩

/-- The test `wcsncmp(path, L"WinNT:", 6) == 0` of the wrappers: the flat
convention. -/
def isFlat (path : List Nat) : Bool := (cstr path).take 6 == lit "WinNT:"

/-- The function `CreateGroupOrUserWrap` (adsi.cpp 642-649). -/
def CreateGroupOrUserWrap (B : List CreateCall → CreateCall → Int)
    (pwParentName pwGroupName pwSamAcctName type ret : List Nat) : CreateResult :=
  if isFlat pwParentName then CreateGroupOrUserWin B pwParentName pwGroupName type ret
  else CreateGroupOrUserLdap B pwParentName pwGroupName pwSamAcctName type ret

/-- The types the verb chain passes for `NEWGR`, `NEWUSR` and `NEWORG`
(server.cpp 133-141). -/
def createTypes : List (List Nat) := [lit "group", lit "user", lit "org"]

/-- A create backend on which every call succeeds. -/
def okCreate : List CreateCall → CreateCall → Int := fun _ _ => 0

/-! ## adsi.cpp: ConvName -/

/-- The platform constant `ADS_NAME_TYPE_1779` (distinguished name). -/
def ADS_NAME_TYPE_1779 : Nat := 1

/-- The platform constant `ADS_NAME_TYPE_NT4` (`DOMAIN\name`). -/
def ADS_NAME_TYPE_NT4 : Nat := 3

/-- The backend name translator (`IADsNameTranslate`): the `HRESULT` of
`CoCreateInstance` and of `Init`, the `HRESULT` of `Set(type, name)`, and the
`HRESULT` and string of `Get(type)` after `Set(setType, name)`. -/
structure NameTranslate where
  create : Int
  init : Int
  set : Nat → List Nat → Int
  get : Nat → Nat → List Nat → Int × List Nat

/-- What `ConvName` leaves behind: the returned `HRESULT`, the contents of
`to` (`dst`) and of `ret`, and the contents of `from`, which the function edits in
place. -/
structure ConvResult where
  hr : Int
  dst : List Nat
  ret : List Nat
  src : List Nat
deriving DecidableEq

/-- The loops `while((ch = wcschr(s, a)) != NULL) *ch = b;`: every `a` of the
string becomes `b`. -/
def swapChar (a b : Nat) (s : List Nat) : List Nat :=
  s.map (fun c => if c = a then b else c)

/-- The function `ConvName(from, to, ret)` (adsi.cpp 25-63); `src` stands for
`from`, `dst` for `to`. Strings are C strings (no NUL inside). -/
def ConvName (T : NameTranslate) (src dst ret : List Nat) : ConvResult :=
  if FAILED T.create then ⟨T.create, dst, bailText T.create 33, src⟩
  else if FAILED T.init then ⟨T.init, dst, bailText T.init 35, src⟩
  else if src.take 7 = lit "LDAP://" then
    let fp := src.drop 7
    if FAILED (T.set ADS_NAME_TYPE_1779 fp) then
      ⟨T.set ADS_NAME_TYPE_1779 fp, dst, bailText (T.set ADS_NAME_TYPE_1779 fp) 39, src⟩
    else
      let g := T.get ADS_NAME_TYPE_NT4 ADS_NAME_TYPE_1779 fp
      if FAILED g.1 then ⟨g.1, dst, bailText g.1 41, src⟩
      else ⟨g.1, lit "WinNT://" ++ swapChar 92 47 g.2, ret, src⟩
  else if src.take 8 = lit "WinNT://" then
    let fp := swapChar 47 92 (src.drop 8)
    if FAILED (T.set ADS_NAME_TYPE_NT4 fp) then
      ⟨T.set ADS_NAME_TYPE_NT4 fp, dst, bailText (T.set ADS_NAME_TYPE_NT4 fp) 54,
        src.take 8 ++ fp⟩
    else
      let g := T.get ADS_NAME_TYPE_1779 ADS_NAME_TYPE_NT4 fp
      ⟨g.1, lit "LDAP://" ++ g.2, ret, src.take 8 ++ fp⟩
  else ⟨T.init, dst, ret, src⟩

/-- A translator that knows one object: the distinguished name
`CN=u,DC=d` and the NT4 name `D\u`. -/
def oneObject : NameTranslate :=
  ⟨0, 0, fun _ _ => 0,
    fun ty _ name =>
      if ty = ADS_NAME_TYPE_NT4 ∧ name = lit "CN=u,DC=d" then (0, lit "D\\u")
      else if ty = ADS_NAME_TYPE_1779 ∧ name = lit "D\\u" then (0, lit "CN=u,DC=d")
      else (E_FAIL, [])⟩

/-! ## adsi.cpp: ProcessUser -/

/-- The platform constant `S_FALSE`. -/
def S_FALSE : Int := 1

/-- The platform constant `S_ADS_NOMORE_ROWS` (`0x5012`). -/
def S_ADS_NOMORE_ROWS : Int := 20498

/-- A user object (`IADsUser`) as `ProcessUser` reads it: the `HRESULT` and
the value of each getter, in the order of the calls. -/
structure UserObject where
  name : Int × List Nat
  adsPath : Int × List Nat
  homeDirectory : Int × List Nat
  fullName : Int × List Nat
  profile : Int × List Nat
  loginScript : Int × List Nat
  homeDirDrive : Int × List Nat
  accountDisabled : Int × Bool
  userFlags : Int × Nat
  passwordExpired : Int × Bool
deriving DecidableEq

/-- The function `appres(str, key, val, maxlen)` (adsi.cpp 82-85): `key&val&`
is appended to `str`. -/
def appres (str key val : List Nat) : List Nat :=
  str ++ key ++ lit "&" ++ val ++ lit "&"

/-- What a function that builds a response line hands back: the `HRESULT`,
the contents of `line` and the contents of `ret`. -/
structure LineResult where
  hr : Int
  line : List Nat
  ret : List Nat
deriving DecidableEq

/-- The flag digits `ProcessUser` prints. -/
def digit01 (b : Bool) : List Nat := if b then lit "1" else lit "0"

/-- The part of `ProcessUser` after the user object is at hand (adsi.cpp
103-158): ten getters, each followed by `BAIL_ON_FAILURE` and an `appres`. -/
def ProcessUserGetters (u : UserObject) (line ret : List Nat) : LineResult :=
  if FAILED u.name.1 then ⟨u.name.1, line, bailText u.name.1 104⟩
  else
    let l1 := appres line (lit "name") u.name.2
    if FAILED u.adsPath.1 then ⟨u.adsPath.1, l1, bailText u.adsPath.1 109⟩
    else
      let l2 := appres l1 (lit "up") u.adsPath.2
      if FAILED u.homeDirectory.1 then
        ⟨u.homeDirectory.1, l2, bailText u.homeDirectory.1 114⟩
      else
        let l3 := appres l2 (lit "hdir") u.homeDirectory.2
        if FAILED u.fullName.1 then ⟨u.fullName.1, l3, bailText u.fullName.1 119⟩
        else
          let l4 := appres l3 (lit "fn") u.fullName.2
          if FAILED u.profile.1 then ⟨u.profile.1, l4, bailText u.profile.1 124⟩
          else
            let l5 := appres l4 (lit "pf") u.profile.2
            if FAILED u.loginScript.1 then
              ⟨u.loginScript.1, l5, bailText u.loginScript.1 129⟩
            else
              let l6 := appres l5 (lit "ls") u.loginScript.2
              if FAILED u.homeDirDrive.1 then
                ⟨u.homeDirDrive.1, l6, bailText u.homeDirDrive.1 134⟩
              else
                let l7 := appres l6 (lit "hdr") u.homeDirDrive.2
                if FAILED u.accountDisabled.1 then
                  ⟨u.accountDisabled.1, l7, bailText u.accountDisabled.1 139⟩
                else
                  let l8 := appres l7 (lit "dis") (digit01 u.accountDisabled.2)
                  if FAILED u.userFlags.1 then
                    ⟨u.userFlags.1, l8, bailText u.userFlags.1 144⟩
                  else
                    let l9 := appres l8 (lit "ccp")
                      (if u.userFlags.2 &&& UF_PASSWD_CANT_CHANGE ≠ 0 then lit "0"
                       else lit "1")
                    if FAILED u.passwordExpired.1 then
                      ⟨u.passwordExpired.1, l9, bailText u.passwordExpired.1 149⟩
                    else
                      ⟨0, appres l9 (lit "pexp") (digit01 u.passwordExpired.2), ret⟩

/-- The directory as the listing functions and `ProcessUser` see it. -/
structure Directory where
  /-- The name translator used by `ConvName`. -/
  translate : NameTranslate
  /-- The call `ADsGetObject(path, IID_IADsUser, ...)`: `HRESULT` and object. -/
  getUser : List Nat → Int × UserObject
  /-- What an uninitialised local path buffer holds. -/
  garbage : List Nat

/-- The function `ProcessUser(pszPath, NULL, line, ret)` (adsi.cpp 87-159) for
a null `pUser`: the object is fetched by path, a hierarchical path being
converted first (the result code of that `ConvName` is not looked at). -/
def ProcessUser (D : Directory) (pszPath line ret : List Nat) : LineResult :=
  let c : ConvResult :=
    if pszPath.take 7 = lit "LDAP://" then ConvName D.translate pszPath D.garbage ret
    else ⟨0, pszPath, ret, pszPath⟩
  if FAILED (D.getUser c.dst).1 then
    ⟨(D.getUser c.dst).1, line, bailText (D.getUser c.dst).1 100⟩
  else ProcessUserGetters (D.getUser c.dst).2 line c.ret

/-! ## adsi.cpp: ListObjectsWin, ListObjectsLdap, ListObjectsWrap -/

/-- One enumerated element as `ListObjectsWin` uses it: the `HRESULT` of
`QueryInterface(IID_IADsUser)` and the user object, the `HRESULT` of
`QueryInterface(IID_IADs)`, and the results of `get_ADsPath` and `get_Name`. -/
structure ListedObject where
  qiUser : Int
  user : UserObject
  qiAds : Int
  adsPath : Int × List Nat
  name : Int × List Nat
deriving DecidableEq

/-- A container of the flat convention as `ListObjectsWin` sees it: the
`HRESULT` of `ADsGetObject`, `ADsBuildVarArrayStr`, `put_Filter` and
`ADsBuildEnumerator`, and the successive answers of `ADsEnumerateNext`
(`HRESULT` and the elements fetched). -/
structure WinContainer where
  getObject : Int
  buildVarArray : Int
  putFilter : Int
  buildEnumerator : Int
  answers : List (Int × List ListedObject)

/-- What a listing function hands back: the returned `HRESULT`, the contents
of `ret`, the lines it sent on the socket, in order, and the faults of its
statements. -/
structure ListResult where
  hr : Int
  ret : List Nat
  lines : List (List Nat)
  faults : List Fault
deriving DecidableEq

/-- The conversion `%d` applied to a `DWORD`: the value modulo 2^32, printed
as a signed 32-bit number. -/
def fmtInt32 (n : Nat) : List Nat :=
  if n % 4294967296 < 2147483648 then fmtDec (n % 4294967296)
  else 45 :: fmtDec (4294967296 - n % 4294967296)

/-- The final line of a listing (adsi.cpp 233, 405). The counter `dwObjects`
is a `DWORD`: the loops keep the exact count, which is reduced modulo 2^32
here, where `%d` prints it. -/
def allOfThem (dwObjects : Nat) : List Nat :=
  lit "210 OK That's all folks, all " ++ fmtInt32 dwObjects ++ lit " of them!\n"

/-- The body of the `for` loop of `ListObjectsWin` for one element (adsi.cpp
198-228): the last `hr` (a failure is a `goto error`), the string built in
`line` during this turn (empty when the turn ends before the `wcscpy`) and
the contents of `ret`. -/
def listOneWin (expand : Bool) (o : ListedObject) (ret : List Nat) : LineResult :=
  if expand then
    if FAILED o.qiUser then ⟨o.qiUser, [], bailText o.qiUser 204⟩
    else
      let r := ProcessUserGetters o.user (lit "210-") ret
      if FAILED r.hr then r else ⟨r.hr, r.line ++ lit "\n", r.ret⟩
  else
    if FAILED o.qiAds then ⟨o.qiAds, lit "210-", bailText o.qiAds 216⟩
    else if FAILED o.adsPath.1 then ⟨o.adsPath.1, lit "210-", bailText o.adsPath.1 218⟩
    else if FAILED o.name.1 then
      ⟨o.name.1, lit "210-" ++ lit "up&" ++ o.adsPath.2, bailText o.name.1 222⟩
    else
      ⟨o.name.1,
        lit "210-" ++ lit "up&" ++ o.adsPath.2 ++ lit "&name&" ++ o.name.2 ++ lit "\n", ret⟩

/-- The `for` loop of `ListObjectsWin` over the elements of one batch,
started with the last `hr`, `ret`, the lines sent and the faults so far: the
same at the end of the batch, or at the `goto error`. Each line is built in
`TCHAR line[255]` and sent by `send_data`. -/
def listBatchWin (expand : Bool) : List ListedObject → ListResult →
    Except ListResult ListResult
  | [], acc => Except.ok acc
  | o :: os, acc =>
    let r := listOneWin expand o acc.ret
    if FAILED r.hr then
      Except.error ⟨r.hr, r.ret, acc.lines, acc.faults ++ overrun Buffer.line r.line⟩
    else
      listBatchWin expand os ⟨r.hr, acc.ret, acc.lines ++ [r.line],
        acc.faults ++ overrun Buffer.line r.line ++ overrun Buffer.sendBuff r.line⟩

/-- The `while (fContinue)` loop of `ListObjectsWin` (adsi.cpp 190-234) over
the answers of `ADsEnumerateNext`; `none` when the listed answers end before
one of them is `S_FALSE`. -/
def listLoopWin (expand : Bool) :
    List (Int × List ListedObject) → Nat → ListResult → Option ListResult
  | [], _, _ => none
  | (hr, objs) :: rest, dwObjects, acc =>
    match listBatchWin expand objs ⟨hr, acc.ret, acc.lines, acc.faults⟩ with
    | Except.error r => some r
    | Except.ok acc1 =>
      if hr = S_FALSE then
        some ⟨acc1.hr, acc1.ret, acc1.lines ++ [allOfThem (dwObjects + objs.length)],
          acc1.faults ++ overrun Buffer.line (allOfThem (dwObjects + objs.length)) ++
            overrun Buffer.sendBuff (allOfThem (dwObjects + objs.length))⟩
      else listLoopWin expand rest (dwObjects + objs.length) acc1

/-- The function `ListObjectsWin` (adsi.cpp 161-240). -/
def ListObjectsWin (C : WinContainer) (type : List Nat) (expand : Bool) (ret : List Nat) :
    Option ListResult :=
  if FAILED C.getObject then some ⟨C.getObject, bailText C.getObject 175, [], []⟩
  else if type = lit "users" ∨ type = lit "groups" then
    if FAILED C.buildVarArray then
      some ⟨C.buildVarArray, bailText C.buildVarArray 184, [], []⟩
    else if FAILED C.putFilter then some ⟨C.putFilter, bailText C.putFilter 186, [], []⟩
    else if FAILED C.buildEnumerator then
      some ⟨C.buildEnumerator, bailText C.buildEnumerator 188, [], []⟩
    else listLoopWin expand C.answers 0 ⟨C.buildEnumerator, ret, [], []⟩
  else some ⟨S_FALSE, lit "Bad args", [], []⟩

/-- One row of a directory search as `ListObjectsLdap` reads it: the results
of `GetColumn` for `ADsPath` and for `samaccountname`, and the `HRESULT` of
the `GetNextRow` that follows the row. -/
structure LdapRow where
  adsPath : Int × List Nat
  sam : Int × List Nat
  next : Int
deriving DecidableEq

/-- A search of the hierarchical convention as `ListObjectsLdap` sees it: the
`HRESULT` of `ADsOpenObject`, of `ADsGetObject(L"LDAP://rootDSE")`, the
result of `Get(L"defaultNamingContext")`, the `HRESULT` of `GetFirstRow`, and
the rows (paging is done below `GetNextRow`). -/
structure LdapSearch where
  openObject : Int
  rootDSE : Int
  namingContext : Int × List Nat
  firstRow : Int
  rows : List LdapRow

/-- The value of `dtype` for the three types (adsi.cpp 290-308). -/
def ldapType (type : List Nat) : Option Nat :=
  if type = lit "users" then some 1
  else if type = lit "group" then some 2
  else if type = lit "org" then some 3
  else none

/-- The faults of a call `ConvName(src, b, ret)` whose result `b` is read
afterwards without a look at the returned `HRESULT`: the converted name may
not fit `b`, and `b` holds nothing when `ConvName` left it alone (run on an
empty `to`, the result is still empty). -/
def convFaults (T : NameTranslate) (b : Buffer) (src ret : List Nat) : List Fault :=
  if (ConvName T src [] ret).dst = [] then [Fault.uninit b]
  else overrun b (ConvName T src [] ret).dst

/-- The faults of the statements of `ProcessUser(pszPath, NULL, line, ret)`
that fill `pszNewPath` (adsi.cpp 93-99). -/
def ProcessUser.faults (D : Directory) (pszPath ret : List Nat) : List Fault :=
  if pszPath.take 7 = lit "LDAP://" then convFaults D.translate Buffer.pszNewPath pszPath ret
  else overrun Buffer.pszNewPath pszPath

/-- A line of `ListObjectsLdap` that is built in `TCHAR line[RET_SIZE]` and
sent: the lines sent and the faults so far, with this one added. -/
def sendLdap (acc : ListResult) (line : List Nat) : ListResult :=
  ⟨acc.hr, acc.ret, acc.lines ++ [line],
    acc.faults ++ overrun Buffer.ldapLine line ++ overrun Buffer.sendBuff line⟩

/-- The body of the `while` loop of `ListObjectsLdap` for one row (adsi.cpp
344-403), up to the call of `FreeADsMem`: the state after the row, or the
state at the `goto error`. -/
def listOneLdap (D : Directory) (dtype : Nat) (expand : Bool) (base_winnt : List Nat)
    (row : LdapRow) (acc : ListResult) : Except ListResult ListResult :=
  if FAILED row.adsPath.1 then
    Except.error ⟨row.adsPath.1, bailText row.adsPath.1 354, acc.lines, acc.faults⟩
  else
    -- wcscpy(path, col.pADsValues->CaseIgnoreString);
    let acc1 : ListResult :=
      ⟨row.adsPath.1, acc.ret, acc.lines, acc.faults ++ overrun Buffer.path row.adsPath.2⟩
    if dtype = 3 then
      Except.ok (sendLdap acc1 (lit "210-path&" ++ row.adsPath.2 ++ lit "\n"))
    else if FAILED row.sam.1 then
      Except.error ⟨row.sam.1, bailText row.sam.1 354, acc1.lines, acc1.faults⟩
    else if dtype = 1 then
      if expand then
        -- wsprintf(winnt, L"%s%s", base_winnt, ...); hr = ProcessUser(winnt, NULL, line, ret);
        let winnt := base_winnt ++ row.sam.2
        let r := ProcessUser D winnt (appres (lit "210-") (lit "path") row.adsPath.2) acc.ret
        let faults := acc1.faults ++ overrun Buffer.winnt winnt ++
          ProcessUser.faults D winnt acc.ret
        if FAILED r.hr then
          Except.error ⟨r.hr, r.ret, acc.lines, faults ++ overrun Buffer.ldapLine r.line⟩
        else Except.ok (sendLdap ⟨r.hr, r.ret, acc.lines, faults⟩ (r.line ++ lit "\n"))
      else
        Except.ok (sendLdap ⟨row.sam.1, acc.ret, acc.lines, acc1.faults⟩
          (appres (lit "210-") (lit "up") row.adsPath.2 ++ lit "\n"))
    else if dtype = 2 then
      Except.ok (sendLdap ⟨row.sam.1, acc.ret, acc.lines, acc1.faults⟩
        (appres (appres (lit "210-") (lit "up") row.adsPath.2) (lit "name") row.sam.2 ++
          lit "\n"))
    else Except.ok ⟨row.sam.1, acc.ret, acc.lines, acc1.faults⟩

/-- The loop `while( hr != S_ADS_NOMORE_ROWS )` of `ListObjectsLdap`
(adsi.cpp 343-406) with the final line; `none` when the listed rows end
before `GetNextRow` reports the end. Each row that is completed ends with
`FreeADsMem( pszAttr )` on the array `pszAttrSam` or `pszAttrPath` of the
stack (adsi.cpp 402). -/
def listLoopLdap (D : Directory) (dtype : Nat) (expand : Bool) (base_winnt : List Nat) :
    List LdapRow → Int → Nat → ListResult → Option ListResult
  | [], hr, dwObjects, acc =>
    if hr = S_ADS_NOMORE_ROWS then some (sendLdap ⟨hr, acc.ret, acc.lines, acc.faults⟩
      (allOfThem dwObjects))
    else none
  | row :: rest, hr, dwObjects, acc =>
    if hr = S_ADS_NOMORE_ROWS then some (sendLdap ⟨hr, acc.ret, acc.lines, acc.faults⟩
      (allOfThem dwObjects))
    else
      match listOneLdap D dtype expand base_winnt row acc with
      | Except.error r => some r
      | Except.ok acc1 =>
        listLoopLdap D dtype expand base_winnt rest row.next (dwObjects + 1)
          ⟨acc1.hr, acc1.ret, acc1.lines, acc1.faults ++ [Fault.free]⟩

/-- The value of `base_winnt` in `ListObjectsLdap` (adsi.cpp 328-335): the
flat form of `LDAP://<defaultNamingContext>` as `ConvName` leaves it in the
buffer, with `/` for every `\`. -/
def ldapBase (D : Directory) (S : LdapSearch) (ret : List Nat) : List Nat :=
  swapChar 92 47
    (ConvName D.translate (lit "LDAP://" ++ S.namingContext.2) D.garbage ret).dst

/-- The function `ListObjectsLdap` (adsi.cpp 245-413). The results of
`SetSearchPreference` and `ExecuteSearch` are not looked at, nor is the
result of the `ConvName` that computes `base_winnt`. -/
def ListObjectsLdap (D : Directory) (S : LdapSearch) (type : List Nat) (expand : Bool)
    (ret : List Nat) : Option ListResult :=
  if FAILED S.openObject then some ⟨S.openObject, bailText S.openObject 286, [], []⟩
  else
    match ldapType type with
    | none => some ⟨S_FALSE, lit "Bad args", [], []⟩
    | some dtype =>
      if FAILED S.rootDSE then some ⟨S.rootDSE, bailText S.rootDSE 325, [], []⟩
      else if FAILED S.namingContext.1 then
        some ⟨S.namingContext.1, bailText S.namingContext.1 327, [], []⟩
      else
        -- wcscpy(rootdse, L"LDAP://"); wcscat(rootdse, var.bstrVal);
        -- ConvName(rootdse, base_winnt, ret); ... send_data(sock2, L"210-Data follows\n");
        let rootdse := lit "LDAP://" ++ S.namingContext.2
        let c := ConvName D.translate rootdse D.garbage ret
        let faults := overrun Buffer.rootdse rootdse ++
          convFaults D.translate Buffer.base_winnt rootdse ret ++
          overrun Buffer.sendBuff (lit "210-Data follows\n")
        if FAILED S.firstRow then
          some ⟨S.firstRow, bailText S.firstRow 341, [lit "210-Data follows\n"], faults⟩
        else
          listLoopLdap D dtype expand (ldapBase D S ret) S.rows S.firstRow 0
            ⟨S.firstRow, c.ret, [lit "210-Data follows\n"], faults⟩

/-- The directory behind the listing entry point: for each path the flat
container and the hierarchical search it denotes. -/
structure ListBackend where
  dir : Directory
  win : List Nat → WinContainer
  ldap : List Nat → LdapSearch

/-- The function `ListObjectsWrap` (adsi.cpp 415-422). -/
def ListObjectsWrap (L : ListBackend) (szPath type : List Nat) (expand : Bool)
    (ret : List Nat) : Option ListResult :=
  if isFlat szPath then ListObjectsWin (L.win szPath) type expand ret
  else ListObjectsLdap L.dir (L.ldap szPath) type expand ret

/-- The Provider in which `ListObjectsWrap` is the function of adsi.cpp run
against a directory; the other entry points, and a listing whose backend
answers run out, are answered by `other`. -/
def listProvider (L : ListBackend) (other : List Event → ProviderCall → ProviderResult) :
    List Event → ProviderCall → ProviderResult
  | h, ProviderCall.ListObjectsWrap p t e =>
    match ListObjectsWrap L p t e [] with
    | some r => ⟨r.hr, r.ret, r.lines, [], r.faults, []⟩
    | none => other h (ProviderCall.ListObjectsWrap p t e)
  | h, c => other h c

/-- A user object whose getters all succeed. -/
def okUser (nm : List Nat) : UserObject :=
  ⟨(0, nm), (0, lit "WinNT://D/" ++ nm), (0, []), (0, []), (0, []), (0, []), (0, []),
    (0, false), (0, 0), (0, false)⟩

/-- An enumerated element whose calls all succeed. -/
def okObject (nm : List Nat) : ListedObject :=
  ⟨0, okUser nm, 0, (0, lit "WinNT://D/" ++ nm), (0, nm)⟩

/-- A directory with the flat container `WinNT://D` holding the users `a`
and `b`, enumerated in two batches, and an empty hierarchical search. -/
def twoUsers : ListBackend :=
  ⟨⟨oneObject, fun p => (0, okUser p), []⟩,
    fun _ => ⟨0, 0, 0, 0, [(0, [okObject (lit "a")]), (S_FALSE, [okObject (lit "b")])]⟩,
    fun _ => ⟨0, 0, (0, lit "DC=d"), S_ADS_NOMORE_ROWS, []⟩⟩

/-- Surroundings in which the listing entry point is the code of adsi.cpp on
`twoUsers`. -/
def listEnv : Env :=
  ⟨lit "secret\n", fun _ => lit "error text", listProvider twoUsers okProvider, []⟩

/-- Every getter of the user object succeeds. -/
def UserObject.ok (u : UserObject) : Prop :=
  FAILED u.name.1 = false ∧ FAILED u.adsPath.1 = false ∧ FAILED u.homeDirectory.1 = false ∧
    FAILED u.fullName.1 = false ∧ FAILED u.profile.1 = false ∧
    FAILED u.loginScript.1 = false ∧ FAILED u.homeDirDrive.1 = false ∧
    FAILED u.accountDisabled.1 = false ∧ FAILED u.userFlags.1 = false ∧
    FAILED u.passwordExpired.1 = false

instance (u : UserObject) : Decidable u.ok := by
  unfold UserObject.ok; infer_instance

/-- The fields `ProcessUser` appends for a user object whose getters all
succeed. -/
def userFields (u : UserObject) : List Nat :=
  appres (appres (appres (appres (appres (appres (appres (appres (appres (appres []
    (lit "name") u.name.2) (lit "up") u.adsPath.2) (lit "hdir") u.homeDirectory.2)
    (lit "fn") u.fullName.2) (lit "pf") u.profile.2) (lit "ls") u.loginScript.2)
    (lit "hdr") u.homeDirDrive.2) (lit "dis") (digit01 u.accountDisabled.2))
    (lit "ccp") (if u.userFlags.2 &&& UF_PASSWD_CANT_CHANGE ≠ 0 then lit "0" else lit "1"))
    (lit "pexp") (digit01 u.passwordExpired.2)

/-- The line `ListObjectsWin` sends for a user when `expand` is set. -/
def winUserLine (o : ListedObject) : List Nat :=
  lit "210-" ++ userFields o.user ++ lit "\n"

/-- Every call `ListObjectsWin` makes on the element when `expand` is set
succeeds. -/
def ListedObject.okUser (o : ListedObject) : Prop :=
  FAILED o.qiUser = false ∧ o.user.ok

instance (o : ListedObject) : Decidable o.okUser := by
  unfold ListedObject.okUser; infer_instance

/-- A backend on which every call succeeds and `Get(L"UserFlags")` reads the
flag word `f`. -/
def flagsBackend (f : Nat) : UserBackend := ⟨fun _ _ => 0, fun _ => f⟩

/-- The line `ListObjectsWin` sends for an element when `expand` is not set
(adsi.cpp 214-226). -/
def winObjectLine (o : ListedObject) : List Nat :=
  lit "210-" ++ lit "up&" ++ o.adsPath.2 ++ lit "&name&" ++ o.name.2 ++ lit "\n"

/-- The line `ListObjectsWin` sends for an element. -/
def winLine (expand : Bool) (o : ListedObject) : List Nat :=
  if expand then winUserLine o else winObjectLine o

/-- Every call `ListObjectsWin` makes on the element when `expand` is not set
succeeds. -/
def ListedObject.okPlain (o : ListedObject) : Prop :=
  FAILED o.qiAds = false ∧ FAILED o.adsPath.1 = false ∧ FAILED o.name.1 = false

instance (o : ListedObject) : Decidable o.okPlain := by
  unfold ListedObject.okPlain; infer_instance

/-- Every call `ListObjectsWin` makes on the element succeeds. -/
def ListedObject.okFor (expand : Bool) (o : ListedObject) : Prop :=
  if expand then o.okUser else o.okPlain

instance (expand : Bool) (o : ListedObject) : Decidable (o.okFor expand) := by
  unfold ListedObject.okFor; infer_instance

/-- The elements of all the batches, in the order of the enumeration. -/
def batchElements (answers : List (Int × List ListedObject)) : List ListedObject :=
  (answers.map Prod.snd).flatten

/-- The batches are ended by the answer `S_FALSE` of `ADsEnumerateNext`, and
by no answer before it. -/
def endsWithSFalse (answers : List (Int × List ListedObject)) : Prop :=
  ∃ pre last, answers = pre ++ [(S_FALSE, last)] ∧ ∀ a ∈ pre, a.1 ≠ S_FALSE

/-- A flat container whose setup calls succeed and whose enumeration gives
the listed batches. -/
def batchContainer (answers : List (Int × List ListedObject)) : WinContainer :=
  ⟨0, 0, 0, 0, answers⟩

/-- The faults of building the lines of the listed elements in
`TCHAR line[255]` and of sending them through `send_data`, in the order of
the elements: none for an element whose line is shorter than 255
characters. -/
def winFaults (expand : Bool) (objs : List ListedObject) : List Fault :=
  (objs.map (fun o => overrun Buffer.line (winLine expand o) ++
    overrun Buffer.sendBuff (winLine expand o))).flatten

/-- A translator that knows the domain `DC=d` under the NT4 name `D\`. -/
def domainD : NameTranslate :=
  ⟨0, 0, fun _ _ => 0,
    fun ty _ name =>
      if ty = ADS_NAME_TYPE_NT4 ∧ name = lit "DC=d" then (0, lit "D\\") else (E_FAIL, [])⟩

/-- The directory `twoUsers` with the translator `domainD`: the flat
container `WinNT://D` holds the users `a` and `b`, the hierarchical search
finds nothing. -/
def noRows : ListBackend := ⟨⟨domainD, twoUsers.dir.getUser, []⟩, twoUsers.win, twoUsers.ldap⟩

/-- The directory `noRows` with a hierarchical search that finds the one
user `u`. -/
def oneRow : ListBackend :=
  ⟨noRows.dir, noRows.win,
    fun _ => ⟨0, 0, (0, lit "DC=d"), 0,
      [⟨(0, lit "LDAP://CN=u,DC=d"), (0, lit "u"), S_ADS_NOMORE_ROWS⟩]⟩⟩

/-! ## Successive calls of rf_gets -/

/-- The socket call hands `bytes` to `recvwithtimeout` without a read error:
the first `recv` returns them, or the first `recv` would block, `select`
reports the socket readable and the second `recv` returns them. -/
def SockCall.gives (sc : SockCall) (bytes : List Nat) : Prop :=
  sc.first = RecvResult.data bytes ∨
    (sc.first = RecvResult.error ∧ sc.wouldBlock = true ∧ 0 < sc.select ∧
      sc.second = RecvResult.data bytes)

/-- Successive calls `rf_gets(rbuff, n, &fb)` on the same `fb` (as the loop of
`AcceptThreadProc` makes them): `k` calls, each starting from the unread
characters and the socket the call before it left behind. The result is
`none` when the listed socket calls run out. -/
def rf_getsCalls (n : Int) : Nat → List Nat → List SockCall → Option (List GetsResult)
  | 0, _, _ => some []
  | k + 1, pending, socks =>
    match rf_gets n pending socks with
    | none => none
    | some g => (rf_getsCalls n k g.pending g.sock).map (fun gs => g :: gs)

/-- The bytes the listed socket calls deliver, in order. -/
def socketBytes (socks : List SockCall) : List Nat :=
  (socks.map (fun s =>
    match recvwithtimeout s with
    | RecvResult.data bytes => bytes
    | RecvResult.error => [])).flatten

/-- The input a call of `rf_gets` leaves for the calls after it: the unread
characters of `fb`, then the bytes still to come from the socket. -/
def GetsResult.unread (g : GetsResult) : List Nat := g.pending ++ socketBytes g.sock

/-- The byte stream made of the line bodies `ls`, each followed by LF. -/
def lineStream (ls : List (List Nat)) : List Nat := (ls.map (fun s => s ++ [10])).flatten

/-- A line body as `rf_gets` returns it: a CR that precedes the LF is
dropped. -/
def dropCR (s : List Nat) : List Nat := if s.getLast? = some 13 then s.dropLast else s

/-! ## server.cpp: the threads of ServiceStart, rf_resume and ServiceStop -/

/-- Where a session thread is in `AcceptThreadProc`: blocked in `accept`
(server.cpp 62), servicing the accepted connection (66-177, `sock2` open), in
`rf_resume` after `closesocket(s)` (37), or past `ExitThread(0)` (39). -/
inductive ThreadPc
  | accept
  | serve
  | resume
  | exited
deriving DecidableEq

/-- A thread created by `CreateThread`: its position, and whether it still
runs (it stops running at `ExitThread` or when `TerminateThread` hits it). -/
structure Thread where
  pc : ThreadPc
  running : Bool
deriving DecidableEq

/-- Where the main thread is in the loop of `ServiceStart` (server.cpp
231-238): at the test `while(!told2stop)`, before `CreateThread`, after
`CreateThread` has returned the handle `h` (`none` for `NULL`) that is still
to be stored in `acceptThread`, in `WaitForSingleObject(acceptThread,
INFINITE)`, or past the loop. -/
inductive MainPc
  | top
  | create
  | assign (h : Option Nat)
  | wait
  | stopped
deriving DecidableEq

/-- The process: the main thread, the globals `told2stop` and `acceptThread`
(a handle is the index of the thread in `threads`), every thread created so
far in the order of creation, and the number of calls of `ServiceStop` that
have set `told2stop` and not yet called `TerminateThread`. -/
structure Server where
  main : MainPc
  told2stop : Bool
  acceptThread : Option Nat
  threads : List Thread
  stops : Nat
deriving DecidableEq

/-- What the scheduler and the surroundings choose next: the main thread
runs (`ok`: `CreateThread` succeeds), the thread `i` runs (`go`: `accept`
returns a connection, respectively the session loop goes on rather than
reaching `rf_resume`), or a call of `ServiceStop` executes its first or its
second statement. -/
inductive Action
  | main (ok : Bool)
  | thread (i : Nat) (go : Bool)
  | stopFlag
  | terminate
deriving DecidableEq

/-- One step of a running session thread through `AcceptThreadProc`
(server.cpp 62-177) and `rf_resume` (33-40): a failed `accept`, a refused
host and the end of the session all lead to `rf_resume`, which closes the
socket and then calls `ResumeThread(mainThread)` (without effect: the main
thread is not suspended) and `ExitThread(0)`. -/
def AcceptThreadProc.step (go : Bool) (t : Thread) : Thread :=
  match t.pc with
  | ThreadPc.accept => if go then ⟨ThreadPc.serve, true⟩ else ⟨ThreadPc.resume, true⟩
  | ThreadPc.serve => if go then ⟨ThreadPc.serve, true⟩ else ⟨ThreadPc.resume, true⟩
  | ThreadPc.resume => ⟨ThreadPc.exited, false⟩
  | ThreadPc.exited => t

/-- Whether the thread behind the handle `i` still runs (the handle of a
thread is signalled once the thread has ended). -/
def Server.isRunning (s : Server) (i : Nat) : Bool :=
  match s.threads[i]? with
  | some t => t.running
  | none => false

/-- One step of the main thread in the loop of `ServiceStart` (server.cpp
231-238). `WaitForSingleObject` returns when the thread of `acceptThread` has
ended, and at once on the handle `NULL`. -/
def ServiceStart.step (s : Server) (ok : Bool) : Server :=
  match s.main with
  | MainPc.top =>
    if s.told2stop then { s with main := MainPc.stopped } else { s with main := MainPc.create }
  | MainPc.create =>
    if ok then
      { s with threads := s.threads ++ [⟨ThreadPc.accept, true⟩],
               main := MainPc.assign (some s.threads.length) }
    else { s with main := MainPc.assign none }
  | MainPc.assign h => { s with acceptThread := h, main := MainPc.wait }
  | MainPc.wait =>
    match s.acceptThread with
    | none => { s with main := MainPc.top }
    | some i => if s.isRunning i then s else { s with main := MainPc.top }
  | MainPc.stopped => s

/-- One step of the thread `i`, if there is such a thread and it runs. -/
def Server.threadStep (s : Server) (i : Nat) (go : Bool) : Server :=
  match s.threads[i]? with
  | none => s
  | some t =>
    if t.running then { s with threads := s.threads.set i (AcceptThreadProc.step go t) } else s

/-- The second statement of `ServiceStop` (server.cpp 243):
`TerminateThread(acceptThread, 0)` ends the thread where it is. -/
def ServiceStop.terminate (s : Server) : Server :=
  if s.stops = 0 then s
  else
    match s.acceptThread with
    | none => { s with stops := s.stops - 1 }
    | some i =>
      match s.threads[i]? with
      | none => { s with stops := s.stops - 1 }
      | some t =>
        { s with stops := s.stops - 1, threads := s.threads.set i { t with running := false } }

/-- One step of the process. The first statement of `ServiceStop` (server.cpp
242) is `told2stop = 1`. -/
def Server.step (s : Server) : Action → Server
  | Action.main ok => ServiceStart.step s ok
  | Action.thread i go => s.threadStep i go
  | Action.stopFlag => { s with told2stop := true, stops := s.stops + 1 }
  | Action.terminate => ServiceStop.terminate s

/-- The process when `ServiceStart` reaches its loop: no thread yet,
`told2stop` is `FALSE` and `acceptThread` is `NULL`. -/
def Server.init : Server := ⟨MainPc.top, false, none, [], 0⟩

/-- The state after the listed steps. -/
def Server.run (acts : List Action) : Server := acts.foldl Server.step Server.init

/-- A live session: a running thread that services a connection. -/
def Thread.live (t : Thread) : Bool := t.running && decide (t.pc = ThreadPc.serve)

/-- A thread that has gone through `rf_resume`: its socket is closed and it
has ended with `ExitThread`. -/
def Thread.finished : Thread := ⟨ThreadPc.exited, false⟩

/-- What the position of the main thread says about the threads. -/
def mainInv (s : Server) : MainPc → Prop
  | MainPc.top => ∀ (i : Nat) (t : Thread), s.threads[i]? = some t → t.running = false
  | MainPc.create => ∀ (i : Nat) (t : Thread), s.threads[i]? = some t → t = Thread.finished
  | MainPc.assign none =>
    ∀ (i : Nat) (t : Thread), s.threads[i]? = some t → t = Thread.finished
  | MainPc.assign (some h) => h + 1 = s.threads.length
  | MainPc.wait =>
    match s.acceptThread with
    | none => ∀ (i : Nat) (t : Thread), s.threads[i]? = some t → t.running = false
    | some h => h + 1 = s.threads.length
  | MainPc.stopped => True

/-- The invariant of the process: every thread but the last created has
finished; `TerminateThread` is pending only with `told2stop` set; while
`told2stop` is unset every thread that does not run has finished; and
`mainInv` at the position of the main thread. -/
def Server.Inv (s : Server) : Prop :=
  (∀ (i : Nat) (t : Thread), s.threads[i]? = some t → i + 1 < s.threads.length →
    t = Thread.finished) ∧
  (0 < s.stops → s.told2stop = true) ∧
  (s.told2stop = false → ∀ (i : Nat) (t : Thread), s.threads[i]? = some t →
    t.running = false → t = Thread.finished) ∧
  mainInv s s.main

/-- A schedule in which two connections are served one after the other: the
main thread creates a thread and waits, the thread accepts, serves, closes
its socket and ends, the main thread creates the next thread, which
accepts. -/
def twoConnections : List Action :=
  [Action.main true, Action.main true, Action.main true, Action.thread 0 true,
    Action.thread 0 true, Action.thread 0 false, Action.thread 0 true, Action.main true,
    Action.main true, Action.main true, Action.main true, Action.thread 1 true]

/-! # Properties -/

/-! ## Lemmas on the codec -/

theorem splitAmp_ne_nil (l : List Nat) : splitAmp l ≠ [] := by
  cases l with
  | nil => simp [splitAmp]
  | cons c rest => by_cases h : c = 38 <;> simp [splitAmp, h]

theorem splitAmp_cons_of_eq {c : Nat} {rest s0 : List Nat} {ss : List (List Nat)}
    (hc : c ≠ 38) (h : splitAmp rest = s0 :: ss) :
    splitAmp (c :: rest) = (c :: s0) :: ss := by
  simp [splitAmp, hc, h]

theorem splitAmp_inv {l : List Nat} {a : Nat} {s : List Nat} {ss : List (List Nat)}
    (h : splitAmp l = (a :: s) :: ss) :
    ∃ r, l = a :: r ∧ a ≠ 38 ∧ splitAmp r = s :: ss := by
  cases l with
  | nil => simp [splitAmp] at h
  | cons c r =>
    by_cases hc : c = 38
    · simp [splitAmp, hc] at h
    · have hne := splitAmp_ne_nil r
      cases hr : splitAmp r with
      | nil => exact absurd hr hne
      | cons t ts =>
        simp [splitAmp, hc, hr] at h
        obtain ⟨⟨h1, h2⟩, h3⟩ := h
        subst h1 h2 h3
        exact ⟨r, rfl, hc, hr⟩

theorem hexval_ne {h x : Nat} (hx : hexval h = some x) : h ≠ 0 ∧ h ≠ 37 ∧ h ≠ 38 := by
  unfold hexval at hx
  refine ⟨?_, ?_, ?_⟩ <;> rintro rfl <;> simp at hx

theorem hexval_lt {h x : Nat} (hx : hexval h = some x) : x < 16 := by
  unfold hexval at hx
  split_ifs at hx <;> simp at hx <;> omega

theorem percentDecode_plain {c : Nat} {s d : List Nat} (hc : c ≠ 37)
    (h : percentDecode (c :: s) = some d) :
    ∃ d1, d = c :: d1 ∧ percentDecode s = some d1 := by
  rw [percentDecode.eq_def] at h
  simp only [hc, if_false] at h
  cases hd : percentDecode s with
  | none => simp [hd] at h
  | some d1 => simp [hd] at h; exact ⟨d1, h.symm, rfl⟩

theorem percentDecode_escape {s d : List Nat} (h : percentDecode (37 :: s) = some d) :
    ∃ hh l s2 x y d1, s = hh :: l :: s2 ∧ hexval hh = some x ∧ hexval l = some y ∧
      percentDecode s2 = some d1 ∧ d = (x * 16 + y) :: d1 := by
  match s, h with
  | [], h => simp [percentDecode] at h
  | [_], h => simp [percentDecode] at h
  | hh :: l :: s2, h =>
    rw [percentDecode.eq_def] at h
    simp only [if_true] at h
    cases hx : hexval hh with
    | none => simp [hx] at h
    | some x =>
      cases hy : hexval l with
      | none => simp [hx, hy] at h
      | some y =>
        cases hd : percentDecode s2 with
        | none => simp [hx, hy, hd] at h
        | some d1 =>
          simp [hx, hy, hd] at h
          exact ⟨hh, l, s2, x, y, d1, rfl, hx, hy, hd, h.symm⟩

/-- The loop of `Decode` on a line whose segments all percent-decode and
respect the counter: one stored string per segment, in order. -/
theorem DecodeLoop_segments (k : Nat) : ∀ (line : List Nat), line.length ≤ k →
    ∀ (b : Nat) (buff : List Nat) (params : List (List Nat)) (s0 d0 : List Nat)
      (ss : List (List Nat)),
    0 ∉ line → splitAmp line = s0 :: ss → percentDecode s0 = some d0 →
    b + d0.length ≤ 255 →
    (∀ s ∈ ss, ∃ d, percentDecode s = some d ∧ d.length ≤ 254) →
    DecodeLoop line b buff params =
      ⟨((params.length + ss.length : Nat) : Int),
        params ++ cstr (buff ++ d0) :: ss.map (fun s => cstr ((percentDecode s).getD []))⟩ := by
  induction k with
  | zero =>
    intro line hlen b buff params s0 d0 ss h0 hsplit hdec hb hss
    have : line = [] := List.length_eq_zero.mp (Nat.le_zero.mp hlen)
    subst this
    simp [splitAmp] at hsplit
    obtain ⟨rfl, rfl⟩ := hsplit
    simp [percentDecode] at hdec
    subst hdec
    simp [DecodeLoop]
  | succ k ih =>
    intro line hlen b buff params s0 d0 ss h0 hsplit hdec hb hss
    cases line with
    | nil =>
      simp [splitAmp] at hsplit
      obtain ⟨rfl, rfl⟩ := hsplit
      simp [percentDecode] at hdec
      subst hdec
      simp [DecodeLoop]
    | cons c rest =>
      have hc0 : c ≠ 0 := by rintro rfl; simp at h0
      have h0r : 0 ∉ rest := fun h => h0 (List.mem_cons_of_mem _ h)
      have hlenr : rest.length ≤ k := by simpa using hlen
      by_cases hamp : c = 38
      · subst hamp
        simp only [splitAmp, if_true, List.cons.injEq] at hsplit
        obtain ⟨rfl, hss2⟩ := hsplit
        simp [percentDecode] at hdec
        subst hdec
        cases ss with
        | nil => exact absurd hss2 (splitAmp_ne_nil rest)
        | cons s1 ss1 =>
          obtain ⟨d1, hd1, hl1⟩ := hss s1 (List.mem_cons_self _ _)
          have := ih rest hlenr 1 [] (params ++ [cstr buff]) s1 d1 ss1 h0r hss2 hd1
            (by omega) (fun s hs => hss s (List.mem_cons_of_mem _ hs))
          rw [DecodeLoop.eq_def]
          simp only [hc0, if_false, if_true]
          rw [this]
          simp [hd1]
          omega
      · by_cases hpct : c = 37
        · subst hpct
          cases s0 with
          | nil => simp [splitAmp] at hsplit
          | cons a s0r =>
            obtain ⟨r, hr, _, hsr⟩ := splitAmp_inv hsplit
            simp only [List.cons.injEq] at hr
            obtain ⟨ha, rfl⟩ := hr
            subst ha
            obtain ⟨hh, l, s2, x, y, d1, hs0r, hx, hy, hd1, hd0⟩ := percentDecode_escape hdec
            subst hs0r hd0
            obtain ⟨r1, hr1, _, hsr1⟩ := splitAmp_inv hsr
            subst hr1
            obtain ⟨r2, hr2, _, hsr2⟩ := splitAmp_inv hsr1
            subst hr2
            have h0r2 : 0 ∉ r2 := fun h => h0r (List.mem_cons_of_mem _ (List.mem_cons_of_mem _ h))
            have hlen2 : r2.length ≤ k := by simp at hlenr; omega
            simp only [List.length_cons] at hb
            have := ih r2 hlen2 (b + 1) (buff ++ [x * 16 + y]) params s2 d1 ss h0r2 hsr2 hd1
              (by omega) hss
            rw [DecodeLoop.eq_def]
            simp only [hc0, hamp, if_false, if_true, hx, hy]
            rw [if_neg (by omega), this]
            simp
        · have hne := splitAmp_ne_nil rest
          cases hr : splitAmp rest with
          | nil => exact absurd hr hne
          | cons t ts =>
            rw [splitAmp_cons_of_eq hamp hr] at hsplit
            simp only [List.cons.injEq] at hsplit
            obtain ⟨rfl, rfl⟩ := hsplit
            obtain ⟨d1, hd0, hd1⟩ := percentDecode_plain hpct hdec
            subst hd0
            simp only [List.length_cons] at hb
            have := ih rest hlenr (b + 1) (buff ++ [c]) params t d1 ts h0r hr hd1
              (by omega) hss
            rw [DecodeLoop.eq_def]
            simp only [hc0, hamp, hpct, if_false]
            rw [if_neg (by omega), this]
            simp

theorem cstr_of_not_mem {d : List Nat} (h : 0 ∉ d) : cstr d = d := by
  unfold cstr
  rw [List.takeWhile_eq_self_iff]
  intro x hx
  have : x ≠ 0 := by rintro rfl; exact h hx
  simpa using this

theorem splitAmp_length (line : List Nat) : (splitAmp line).length = line.count 38 + 1 := by
  induction line with
  | nil => simp [splitAmp]
  | cons c rest ih =>
    by_cases hc : c = 38
    · subst hc; simp [splitAmp, ih]
    · have hne := splitAmp_ne_nil rest
      cases hr : splitAmp rest with
      | nil => exact absurd hr hne
      | cons t ts =>
        rw [splitAmp_cons_of_eq hc hr]
        rw [hr] at ih
        simp only [List.length_cons, List.count_cons, beq_iff_eq, hc, if_false] at ih ⊢
        omega

theorem twoHex_inv {rest : List Nat} (h : twoHex rest = true) :
    ∃ hh l r2 x y, rest = hh :: l :: r2 ∧ hexval hh = some x ∧ hexval l = some y := by
  match rest, h with
  | [], h => simp [twoHex] at h
  | [_], h => simp [twoHex] at h
  | hh :: l :: r2, h =>
    simp only [twoHex, Bool.and_eq_true, Option.isSome_iff_exists] at h
    obtain ⟨⟨x, hx⟩, ⟨y, hy⟩⟩ := h
    exact ⟨hh, l, r2, x, y, rfl, hx, hy⟩

theorem hasBadEscape_cons (c : Nat) (rest : List Nat) :
    hasBadEscape (c :: rest) = false ↔
      (c = 37 → twoHex rest = true) ∧ hasBadEscape rest = false := by
  simp [hasBadEscape]

theorem hasBadEscape_skip {hh l x y : Nat} {r2 : List Nat} (hx : hexval hh = some x)
    (hy : hexval l = some y) : hasBadEscape (hh :: l :: r2) = hasBadEscape r2 := by
  have h1 : (hh == 37) = false := by simpa using (hexval_ne hx).2.1
  have h2 : (l == 37) = false := by simpa using (hexval_ne hy).2.1
  simp [hasBadEscape, h1, h2]

/-- A line with a bad escape makes the loop of `Decode` return -1, whatever
the state of the loop. -/
theorem DecodeLoop_bad (k : Nat) : ∀ (line : List Nat), line.length ≤ k →
    ∀ (b : Nat) (buff : List Nat) (params : List (List Nat)),
    0 ∉ line → hasBadEscape line = true → (DecodeLoop line b buff params).ret = -1 := by
  induction k with
  | zero =>
    intro line hlen b buff params h0 hbad
    have : line = [] := List.length_eq_zero.mp (Nat.le_zero.mp hlen)
    subst this
    simp [hasBadEscape] at hbad
  | succ k ih =>
    intro line hlen b buff params h0 hbad
    cases line with
    | nil => simp [hasBadEscape] at hbad
    | cons c rest =>
      have hc0 : c ≠ 0 := by rintro rfl; simp at h0
      have h0r : 0 ∉ rest := fun h => h0 (List.mem_cons_of_mem _ h)
      have hlenr : rest.length ≤ k := by simpa using hlen
      rw [DecodeLoop.eq_def]
      simp only [hc0, if_false]
      by_cases hamp : c = 38
      · subst hamp
        simp only [if_true]
        apply ih rest hlenr _ _ _ h0r
        simpa [hasBadEscape] using hbad
      · simp only [hamp, if_false]
        by_cases hpct : c = 37
        · subst hpct
          simp only [if_true]
          match rest, hbad, h0r, hlenr with
          | [], _, _, _ => rfl
          | [_], _, _, _ => rfl
          | hh :: l :: r2, hbad, h0r, hlenr =>
            simp only
            cases hx : hexval hh with
            | none => rfl
            | some x =>
              cases hy : hexval l with
              | none => rfl
              | some y =>
                simp only
                split_ifs with hb
                · rfl
                · have h0r2 : 0 ∉ r2 :=
                    fun h => h0r (List.mem_cons_of_mem _ (List.mem_cons_of_mem _ h))
                  have hlen2 : r2.length ≤ k := by simp at hlenr; omega
                  apply ih r2 hlen2 _ _ _ h0r2
                  have h2 : twoHex (hh :: l :: r2) = true := by simp [twoHex, hx, hy]
                  have h3 : hasBadEscape (hh :: l :: r2) = hasBadEscape r2 := hasBadEscape_skip hx hy
                  have h4 : hasBadEscape (37 :: hh :: l :: r2) =
                      hasBadEscape (hh :: l :: r2) := by
                    rw [hasBadEscape, h2]; simp
                  rw [h4, h3] at hbad
                  exact hbad
        · simp only [hpct, if_false]
          split_ifs with hb
          · rfl
          · apply ih rest hlenr _ _ _ h0r
            simpa [hasBadEscape, hpct] using hbad

theorem twoHex_first_segment {rest s0 : List Nat} {ss : List (List Nat)}
    (h : twoHex rest = true) (hs : splitAmp rest = s0 :: ss) : twoHex s0 = true := by
  obtain ⟨hh, l, r2, x, y, rfl, hx, hy⟩ := twoHex_inv h
  have h1 := (hexval_ne hx).2.2
  have h2 := (hexval_ne hy).2.2
  simp only [splitAmp, h1, h2, if_false] at hs
  simp only [List.cons.injEq] at hs
  obtain ⟨rfl, _⟩ := hs
  simp [twoHex, hx, hy]

theorem hasBadEscape_segments (line : List Nat) (h : hasBadEscape line = false) :
    ∀ seg ∈ splitAmp line, hasBadEscape seg = false := by
  induction line with
  | nil => intro seg hseg; simp [splitAmp] at hseg; subst hseg; rfl
  | cons c rest ih =>
    rw [hasBadEscape_cons] at h
    obtain ⟨h1, h2⟩ := h
    have ih := ih h2
    by_cases hc : c = 38
    · subst hc
      intro seg hseg
      simp only [splitAmp, if_true, List.mem_cons] at hseg
      rcases hseg with rfl | hseg
      · rfl
      · exact ih seg hseg
    · have hne := splitAmp_ne_nil rest
      cases hr : splitAmp rest with
      | nil => exact absurd hr hne
      | cons t ts =>
        rw [splitAmp_cons_of_eq hc hr]
        rw [hr] at ih
        intro seg hseg
        simp only [List.mem_cons] at hseg
        rcases hseg with rfl | hseg
        · rw [hasBadEscape_cons]
          exact ⟨fun h37 => twoHex_first_segment (h1 h37) hr, ih t (List.mem_cons_self _ _)⟩
        · exact ih seg (List.mem_cons_of_mem _ hseg)

theorem percentDecode_of_good (k : Nat) : ∀ (seg : List Nat), seg.length ≤ k →
    hasBadEscape seg = false →
    ∃ d, percentDecode seg = some d ∧ d.length + 2 * seg.count 37 = seg.length := by
  induction k with
  | zero =>
    intro seg hlen _
    have : seg = [] := List.length_eq_zero.mp (Nat.le_zero.mp hlen)
    subst this
    exact ⟨[], by simp [percentDecode], by simp⟩
  | succ k ih =>
    intro seg hlen hgood
    cases seg with
    | nil => exact ⟨[], by simp [percentDecode], by simp⟩
    | cons c rest =>
      rw [hasBadEscape_cons] at hgood
      obtain ⟨h1, h2⟩ := hgood
      have hlenr : rest.length ≤ k := by simpa using hlen
      by_cases hpct : c = 37
      · subst hpct
        obtain ⟨hh, l, r2, x, y, rfl, hx, hy⟩ := twoHex_inv (h1 rfl)
        rw [hasBadEscape_skip hx hy] at h2
        have hlen2 : r2.length ≤ k := by simp at hlenr; omega
        obtain ⟨d2, hd2, hl2⟩ := ih r2 hlen2 h2
        refine ⟨(x * 16 + y) :: d2, ?_, ?_⟩
        · rw [percentDecode.eq_def]; simp [hx, hy, hd2]
        · have e1 : (hh == 37) = false := by simpa using (hexval_ne hx).2.1
          have e2 : (l == 37) = false := by simpa using (hexval_ne hy).2.1
          simp [List.count_cons, e1, e2]
          omega
      · obtain ⟨d1, hd1, hl1⟩ := ih rest hlenr h2
        refine ⟨c :: d1, ?_, ?_⟩
        · rw [percentDecode.eq_def]; simp [hpct, hd1]
        · have e1 : (c == 37) = false := by simpa using hpct
          simp [List.count_cons, e1]
          omega

/-- On a line without a bad escape every segment percent-decodes, to
`decodedLen` characters. -/
theorem good_segments_decode {line : List Nat} (h : hasBadEscape line = false) :
    ∀ seg ∈ splitAmp line, ∃ d, percentDecode seg = some d ∧ d.length = decodedLen seg := by
  intro seg hseg
  obtain ⟨d, hd, hl⟩ := percentDecode_of_good seg.length seg le_rfl
    (hasBadEscape_segments line h seg hseg)
  exact ⟨d, hd, by unfold decodedLen; omega⟩

/-- The result of `Decode` on a well-escaped line within the cap. -/
theorem Decode_of_good {line : List Nat} (maxpars : Nat) (h0 : 0 ∉ line)
    (hesc : hasBadEscape line = false) (hcap : withinCap line) :
    Decode line maxpars =
      ⟨((line.count 38 : Nat) : Int),
        (splitAmp line).map (fun s => cstr ((percentDecode s).getD []))⟩ := by
  have hall := good_segments_decode hesc
  have hne := splitAmp_ne_nil line
  have hlen := splitAmp_length line
  cases hs : splitAmp line with
  | nil => exact absurd hs hne
  | cons s0 ss =>
    rw [hs] at hall hlen
    obtain ⟨d0, hd0, hl0⟩ := hall s0 (List.mem_cons_self _ _)
    have hc0 : decodedLen s0 ≤ 254 := hcap s0 (by rw [hs]; exact List.mem_cons_self _ _)
    have hrest : ∀ s ∈ ss, ∃ d, percentDecode s = some d ∧ d.length ≤ 254 := by
      intro s hsm
      obtain ⟨d, hd, hl⟩ := hall s (List.mem_cons_of_mem _ hsm)
      have := hcap s (by rw [hs]; exact List.mem_cons_of_mem _ hsm)
      exact ⟨d, hd, by omega⟩
    have := DecodeLoop_segments line.length line le_rfl 0 [] [] s0 d0 ss h0 hs hd0
      (by omega) hrest
    unfold Decode
    rw [this]
    simp only [List.length_cons] at hlen
    simp [hd0]
    omega

/-! ## The session loop -/

theorem overrun_of_lt {b : Buffer} {str : List Nat} (h : str.length < b.size) :
    overrun b str = [] := by
  unfold overrun
  rw [if_pos h]

/-- The first line of a session is only compared with the shared secret: a
line that differs is answered by the `300` rejection followed by `rf_resume`
and nothing else (no `Decode`, no Provider call, the `par` slots untouched),
a line equal to the secret by the `200` acknowledgement only, with the
authenticated flag set and the session staying in the loop. The one fault
the turn can have is that of the line reader putting the line into
`TCHAR lnBuff[255]`: there is none for a line shorter than 255 characters. -/
theorem first_line_compared (env : Env) (s : Session) (n : Int) (lnBuff : List Nat)
    (hn : 0 < n) (hauth : s.authenticated = false) (hlive : s.exited = false)
    (hdone : s.done = false) :
    (sessionStep env s n lnBuff).faults = s.faults ++ overrun Buffer.lnBuff lnBuff ∧
    (lnBuff.length < 255 → (sessionStep env s n lnBuff).faults = s.faults) ∧
    (cstr lnBuff ≠ cstr env.password →
      (sessionStep env s n lnBuff).trace =
          s.trace ++ [Event.send (lit "300 Hey! That wasn't nice! Go away!\n"), Event.resume] ∧
        (sessionStep env s n lnBuff).exited = true ∧
        (sessionStep env s n lnBuff).authenticated = false ∧
        (sessionStep env s n lnBuff).par = s.par) ∧
    (cstr lnBuff = cstr env.password →
      (sessionStep env s n lnBuff).trace =
          s.trace ++ [Event.send (lit "200 Howdy, long time no see!\n")] ∧
        (sessionStep env s n lnBuff).authenticated = true ∧
        (sessionStep env s n lnBuff).exited = false ∧
        (sessionStep env s n lnBuff).done = false ∧
        (sessionStep env s n lnBuff).par = s.par) := by
  have hn' : ¬ n ≤ 0 := by omega
  have h300 : overrun Buffer.sendBuff (lit "300 Hey! That wasn't nice! Go away!\n") = [] := by
    decide
  have h200 : overrun Buffer.sendBuff (lit "200 Howdy, long time no see!\n") = [] := by
    decide
  have hf : (sessionStep env s n lnBuff).faults = s.faults ++ overrun Buffer.lnBuff lnBuff := by
    by_cases hne : cstr env.password = cstr lnBuff
    · simp [sessionStep, loopBody, hlive, hn', hauth, hne, send_data, hdone, h200]
    · simp [sessionStep, loopBody, hlive, hn', hauth, hne, rf_resume, send_data, hdone, h300]
  refine ⟨hf, ?_, ?_, ?_⟩
  · intro hlen
    rw [hf, overrun_of_lt (by simpa [Buffer.size] using hlen), List.append_nil]
  · intro hne
    have hne' : cstr env.password ≠ cstr lnBuff := fun h => hne h.symm
    simp [sessionStep, loopBody, hlive, hn', hauth, hne', rf_resume, send_data, hdone]
  · intro heq
    simp [sessionStep, loopBody, hlive, hn', hauth, heq, send_data, hdone]

set_option maxRecDepth 100000 in
/-- C4, at the failing input. A first line of 300 characters `A` and the
line feed, received in two reads on a session that is not authenticated: the
line reader, called with `sizeof(lnBuff)` = 510, hands back all 301 characters,
so the line and its terminator are written to `TCHAR lnBuff[255]`, 47
elements past its end, before the comparison with the secret is made. -/
theorem first_line_overruns_lnBuff :
    (Session.start []).authenticated = false ∧
      (connStep okEnv ⟨Session.start [], [], [],
        [delivers (List.replicate 255 65), delivers (List.replicate 45 65 ++ [10])]⟩).map
          (fun c => (c.lnBuff.length, c.session.faults)) =
        some (301, [Fault.overrun Buffer.lnBuff 301]) ∧
      Buffer.lnBuff.size = 255 ∧ sizeofLnBuff = 510 := by
  decide

/-- One turn of the loop on an authenticated session, in terms of the verb
chain `d` and the response. -/
theorem loopBody_authed (env : Env) (s : Session) (n : Int) (lnBuff : List Nat)
    (hn : 0 < n) (hauth : s.authenticated = true) (d : Dispatch)
    (hd : d = dispatch env (s.trace ++ [Event.decode (commandLine n lnBuff)])
      (storePars s.par (Decode (commandLine n lnBuff) MAXARGS).params)
      (Decode (commandLine n lnBuff) MAXARGS).ret) :
    loopBody env s n lnBuff =
      { s with
        done := d.done
        par := storePars s.par (Decode (commandLine n lnBuff) MAXARGS).params
        trace := s.trace ++ [Event.decode (commandLine n lnBuff)] ++ d.events ++ respond env d
        stored := max s.stored (Decode (commandLine n lnBuff) MAXARGS).params.length
        faults := s.faults ++ inputFaults n lnBuff ++
          unsetSlots (max s.stored (Decode (commandLine n lnBuff) MAXARGS).params.length)
            d.reads ++ d.faults ++ respondFaults env d } := by
  have hn' : ¬ n ≤ 0 := by omega
  subst hd
  simp [loopBody, hn', hauth]

/-- The verb chain on a first argument that is no verb: the `310` line only,
built in `respBuff` and sent. -/
theorem dispatch_unknown (env : Env) (hist : List Event) (par : List (List Nat)) (nargs : Int)
    (h : par.getD 0 [] ∉ verbs) :
    dispatch env hist par nargs =
      ⟨0, [], false, [], false,
        [Event.send (lit "310 Ka fasken prater du om (" ++ par.getD 0 [] ++ lit ")?\r\n")],
        overrun Buffer.respBuff
            (lit "310 Ka fasken prater du om (" ++ par.getD 0 [] ++ lit ")?\r\n") ++
          overrun Buffer.sendBuff
            (lit "310 Ka fasken prater du om (" ++ par.getD 0 [] ++ lit ")?\r\n"),
        [0]⟩ := by
  simp only [verbs, List.mem_cons, List.mem_singleton, not_or, List.not_mem_nil,
    or_false] at h
  obtain ⟨h1, h2, h3, h4, h5, h6, h7, h8, h9, h10, h11, h12, h13, h14, h15, h16, h17, h18⟩ := h
  unfold dispatch
  simp only [h1, h2, h3, h4, h5, h6, h7, h8, h9, h10, h11, h12, h13, h14, h15, h16,
    h17, h18, if_false, or_self]

/-- A command whose first argument (`par[0]` after `Decode`) is none of the
verbs, on an authenticated session: the faults of the turn are those of the
input line, of reading `par[0]` when no `Decode` has assigned it, and of the
`310` line when it does not fit `respBuff` and the buffer of `send_data`;
the session sends exactly one line, the `310` line echoing that argument,
makes no Provider call, and stays in the loop. -/
theorem unknown_verb_reply (env : Env) (s : Session) (n : Int) (lnBuff : List Nat)
    (hn : 0 < n) (hauth : s.authenticated = true) (hlive : s.exited = false)
    (hverb : (storePars s.par
      (Decode (commandLine n lnBuff) MAXARGS).params).getD 0 [] ∉ verbs) :
    (sessionStep env s n lnBuff).faults =
        s.faults ++ inputFaults n lnBuff ++
          unsetSlots (max s.stored (Decode (commandLine n lnBuff) MAXARGS).params.length) [0] ++
          (overrun Buffer.respBuff (lit "310 Ka fasken prater du om (" ++
              (storePars s.par (Decode (commandLine n lnBuff) MAXARGS).params).getD 0 [] ++
              lit ")?\r\n") ++
            overrun Buffer.sendBuff (lit "310 Ka fasken prater du om (" ++
              (storePars s.par (Decode (commandLine n lnBuff) MAXARGS).params).getD 0 [] ++
              lit ")?\r\n")) ∧
      (sessionStep env s n lnBuff).trace =
        s.trace ++ [Event.decode (commandLine n lnBuff),
          Event.send (lit "310 Ka fasken prater du om (" ++
            (storePars s.par (Decode (commandLine n lnBuff) MAXARGS).params).getD 0 [] ++
            lit ")?\r\n")] ∧
      (sessionStep env s n lnBuff).done = false ∧
      (sessionStep env s n lnBuff).exited = false ∧
      (sessionStep env s n lnBuff).authenticated = true := by
  have hb := loopBody_authed env s n lnBuff hn hauth _ rfl
  rw [dispatch_unknown env _ _ _ hverb] at hb
  simp [sessionStep, hlive, hb, respond, respondFaults, SUCCEEDED, hauth]

set_option maxRecDepth 100000 in
/-- C6, at the failing input. The command line of 230 characters `A` (and
the line feed) on an authenticated session: the line fits `lnBuff`, `Decode`
stores the one argument within its bounds, the argument is no verb, and the
`310` line that echoes it has 262 characters; `wsprintf` writes it to
`TCHAR respBuff[255]` and `send_data` converts it into `char buff[255]`, both
past the end of the array. -/
theorem unknown_verb_overruns_respBuff :
    (connStep okEnv ⟨authedSession, [], [], [delivers (List.replicate 230 65 ++ [10])]⟩).map
        (fun c => (c.lnBuff.length, c.session.faults)) =
      some (231, [Fault.overrun Buffer.respBuff 262, Fault.overrun Buffer.sendBuff 262]) ∧
    Decode (List.replicate 230 65) MAXARGS = ⟨0, [List.replicate 230 65]⟩ ∧
    List.replicate 230 65 ∉ verbs ∧
    (lit "310 Ka fasken prater du om (" ++ List.replicate 230 65 ++ lit ")?\r\n").length = 262 ∧
    Buffer.respBuff.size = 255 ∧ Buffer.sendBuff.size = 255 := by
  decide

theorem BAIL_E_FAIL (ret : List Nat) (calls : List UserCall) :
    BAIL_ON_FAILURE E_FAIL 728 ret calls = Flow.bail E_FAIL (bailText E_FAIL 728) calls := by
  have : FAILED E_FAIL = true := by decide
  simp [BAIL_ON_FAILURE, this]

/-- The indices of `alterIndices n` are the values of `i` in
`for(i=2; i<=n; i+=2)`. -/
theorem mem_alterIndices (n : Int) (i : Nat) :
    i ∈ alterIndices n ↔ 2 ≤ i ∧ (i : Int) ≤ n ∧ i % 2 = 0 := by
  unfold alterIndices
  simp only [List.mem_map, List.mem_range]
  constructor
  · rintro ⟨k, hk, rfl⟩
    refine ⟨by omega, ?_, by omega⟩
    have : 2 * k + 2 ≤ n.toNat := by omega
    omega
  · rintro ⟨h2, hn, hev⟩
    refine ⟨i / 2 - 1, ?_, by omega⟩
    have : i ≤ n.toNat := by omega
    omega

/-! ## Codec: the claims -/

/-- C2. `Decode` splits on raw `&` and percent-decodes each segment: for a
line (a C string) with `k` raw `&` in which every `%` is followed by two hex
digits, no segment decodes to a string containing NUL and every segment is
within the length cap, `Decode` returns `k` and stores `k + 1` arguments, the
i-th being the percent-decoding of the i-th segment. -/
theorem Decode_splits_and_decodes (line : List Nat) (maxpars : Nat) (h0 : 0 ∉ line)
    (hesc : hasBadEscape line = false)
    (hnul : ∀ seg ∈ splitAmp line, 0 ∉ (percentDecode seg).getD [])
    (hcap : withinCap line) :
    (Decode line maxpars).ret = (line.count 38 : Nat) ∧
      (Decode line maxpars).params.length = line.count 38 + 1 ∧
      List.Forall₂ (fun seg arg => percentDecode seg = some arg) (splitAmp line)
        (Decode line maxpars).params := by
  rw [Decode_of_good maxpars h0 hesc hcap]
  refine ⟨rfl, by simp [splitAmp_length], ?_⟩
  rw [List.forall₂_map_right_iff, List.forall₂_same]
  intro seg hseg
  obtain ⟨d, hd, _⟩ := good_segments_decode hesc seg hseg
  have := hnul seg hseg
  rw [hd] at this ⊢
  simp only [Option.getD_some] at this ⊢
  rw [cstr_of_not_mem this]

/-- C2 on `a%26b&%41%4a&`: two separators, three arguments `a&b`, `AJ` and
the empty string; the escaped `%26` stays inside the first argument. -/
theorem Decode_splits_and_decodes_witness :
    (Decode (lit "a%26b&%41%4a&") 20).ret = ((lit "a%26b&%41%4a&").count 38 : Nat) ∧
      (Decode (lit "a%26b&%41%4a&") 20).params.length = (lit "a%26b&%41%4a&").count 38 + 1 ∧
      List.Forall₂ (fun seg arg => percentDecode seg = some arg)
        (splitAmp (lit "a%26b&%41%4a&")) (Decode (lit "a%26b&%41%4a&") 20).params :=
  Decode_splits_and_decodes (lit "a%26b&%41%4a&") 20 (by decide) (by decide) (by decide)
    (by decide)

/-- C3. `Decode` rejects malformed escapes: for a line (a C string) whose
segments are within the length cap, `Decode` returns -1 exactly when some `%`
of the line is not followed by two characters from `0-9`, `a-f`, `A-F`. -/
theorem Decode_fails_iff_bad_escape (line : List Nat) (maxpars : Nat) (h0 : 0 ∉ line)
    (hcap : withinCap line) :
    (Decode line maxpars).ret = -1 ↔ hasBadEscape line = true := by
  constructor
  · intro hret
    by_contra hbad
    have hgood : hasBadEscape line = false := by simpa using hbad
    rw [Decode_of_good maxpars h0 hgood hcap] at hret
    simp only at hret
    omega
  · intro hbad
    exact DecodeLoop_bad line.length line le_rfl 0 [] [] h0 hbad

/-- C3 on a line whose last `%` is followed by one character only. -/
theorem Decode_fails_iff_bad_escape_witness :
    (Decode (lit "LUSER&ab%4") 20).ret = -1 ↔ hasBadEscape (lit "LUSER&ab%4") = true :=
  Decode_fails_iff_bad_escape (lit "LUSER&ab%4") 20 (by decide) (by decide)

/-- C1, at the failing input. A second call of `Encode` returns the new
encoding followed by what the previous call left in the static buffer: after
`Encode("abcdef")`, `Encode("xy")` yields the string `xycdef`, which `Decode`
turns into the single argument `xycdef`, not `xy`. -/
theorem Encode_keeps_stale_tail :
    (Encode Encode.initBuff (lit "abcdef")).bind (fun buff => EncodeStr buff (lit "xy")) =
        some (lit "xycdef") ∧
      Decode (lit "xycdef") MAXARGS = ⟨0, [lit "xycdef"]⟩ ∧
      lit "xycdef" ≠ lit "xy" := by
  decide

/-! ## Dispatch: argument counts -/

/-- The text of `errmsgs[BAD_NUMBER_OF_ARGS]` and its terminator, read two
bytes at a time: twelve wide characters, none of them 0 (the last one is
`s` with the terminator as its high byte), followed by what the bytes behind
the terminator give. -/
theorem asWide_badArgs (tail : List Nat) :
    asWide (badArgs ++ [0] ++ tail) =
      [24898, 8292, 30062, 25197, 29285, 28448, 8294, 29281, 30055, 25965, 29806, 115] ++
        asWide tail := by
  have h : badArgs ++ [0] =
      [66, 97, 100, 32, 110, 117, 109, 98, 101, 114, 32, 111, 102, 32, 97, 114, 103, 117,
        109, 101, 110, 116, 115, 0] := by decide
  rw [h]
  simp [asWide]

/-- The listing verbs test the argument count: with a count other than the
arity the verb chain calls nothing and the response is the arity failure
line `300 Failed (...)`. The text between the brackets is not
`Bad number of arguments`: `errmsg` is a `char` array and the wide `wsprintf`
reads it as wide characters, past its terminator. -/
theorem listing_arity_checked (env : Env) (hist : List Event) (par : List (List Nat))
    (nargs : Int)
    (h : (par.getD 0 [] = lit "LUSERS" ∧ nargs ≠ 2) ∨
      (par.getD 0 [] = lit "LGROUPS" ∧ nargs ≠ 1) ∨
      (par.getD 0 [] = lit "LORGS" ∧ nargs ≠ 1)) :
    dispatch env hist par nargs = ⟨0, badArgs, false, [], false, [], [], [0]⟩ ∧
      respond env (dispatch env hist par nargs) =
        [Event.send (lit "300 Failed (" ++
          ([24898, 8292, 30062, 25197, 29285, 28448, 8294, 29281, 30055, 25965, 29806, 115] ++
            asWide env.errTail) ++ lit ")\n")] ∧
      Fault.format ∈ respondFaults env (dispatch env hist par nargs) := by
  have hd : dispatch env hist par nargs = ⟨0, badArgs, false, [], false, [], [], [0]⟩ := by
    unfold dispatch
    rcases h with ⟨h, hn⟩ | ⟨h, hn⟩ | ⟨h, hn⟩ <;>
      simp +decide only [h, hn, if_false, if_true, ne_eq, not_false_eq_true]
  refine ⟨hd, ?_, ?_⟩
  · rw [hd]
    have hb : ¬ badArgs = [] := by decide
    simp only [respond, failLine, hb, and_false, if_false, asWide_badArgs]
  · rw [hd]
    have hb : ¬ badArgs = [] := by decide
    simp only [respondFaults, hb, and_false, if_false, List.cons_append, List.nil_append,
      List.mem_cons, true_or]

/-- C5, at the failing input. `MOVEOBJ` takes two operands; the line
`MOVEOBJ&c` (one operand) sent after `MOVEOBJ&a&b` is not rejected: the verb
chain calls `MoveObject` with the operand `b` left in `par[2]` by the
previous command and the session answers `210 OK`. -/
theorem MOVEOBJ_arity_not_checked :
    (runSession okEnv authedSession
        [(12, lit "MOVEOBJ&a&b\n"), (10, lit "MOVEOBJ&c\n")]).trace =
      authedSession.trace ++
        [Event.decode (lit "MOVEOBJ&a&b"),
          Event.call (ProviderCall.MoveObject (lit "a") (lit "b")),
          Event.send (lit "210 OK\n"),
          Event.decode (lit "MOVEOBJ&c"),
          Event.call (ProviderCall.MoveObject (lit "c") (lit "b")),
          Event.send (lit "210 OK\n")] := by
  decide

/-! ## ALTRUSR: validation and the detail text -/

/-- C8, at the failing input. The line `ALTRUSR&WinNT://D/u&fn` has one token
after the user reference (a tag without a value). It is not rejected:
`AlterUser` is called with `n = 2`, looks the user up, writes the full name
from the slot `par[3]` that `Decode` did not store for this line, and
commits; the session answers `210 OK`. -/
theorem ALTRUSR_odd_tokens_reach_backend :
    (sessionStep okEnv authedSession 23 (lit "ALTRUSR&WinNT://D/u&fn\n")).trace =
        authedSession.trace ++
          [Event.decode (lit "ALTRUSR&WinNT://D/u&fn"),
            Event.call (ProviderCall.AlterUser
              (storePars authedSession.par [lit "ALTRUSR", lit "WinNT://D/u", lit "fn"]) 2),
            Event.send (lit "210 OK\n")] ∧
      (AlterUser okBackend
          (storePars authedSession.par [lit "ALTRUSR", lit "WinNT://D/u", lit "fn"]) 2 []).calls =
        [UserCall.ADsGetObject (lit "WinNT://D/u"), UserCall.put_FullName [],
          UserCall.SetInfo] := by
  decide

/-- The unrecognized-tag branch of `AlterUser`: whatever the index `i`, the
text left in `ret` is the one `BAIL_ON_FAILURE` prints, which overwrites the
text naming `i`. -/
theorem alterField_unknown (B : UserBackend) (p : List (List Nat)) (i : Nat)
    (ret : List Nat) (calls : List UserCall) (h : p.getD i [] ∉ knownTags) :
    alterField B p i ret calls = Flow.bail E_FAIL (bailText E_FAIL 728) calls := by
  simp only [knownTags, List.mem_cons, List.mem_singleton, not_or, List.not_mem_nil,
    or_false] at h
  obtain ⟨h1, h2, h3, h4, h5, h6, h7, h8, h9, h10⟩ := h
  unfold alterField
  simp only [h1, h2, h3, h4, h5, h6, h7, h8, h9, h10, if_false]
  exact BAIL_E_FAIL _ _

/-- C10, at the failing input. For `ALTRUSR&WinNT://D/u&zz&1` (unrecognized
tag `zz` at argument position 2) the detail text handed back is
`Failed: 0x80004005 on line 728` and the response carries that text; the
position 2 is named nowhere. The same command with the tag at position 4
gives the same detail text. -/
theorem ALTRUSR_unknown_tag_detail :
    (AlterUser okBackend [lit "ALTRUSR", lit "WinNT://D/u", lit "zz", lit "1"] 3 []).ret =
        lit "Failed: 0x80004005 on line 728" ∧
      (AlterUser okBackend
          [lit "ALTRUSR", lit "WinNT://D/u", lit "fn", lit "A", lit "zz", lit "1"] 5 []).ret =
        lit "Failed: 0x80004005 on line 728" ∧
      (sessionStep okEnv authedSession 25 (lit "ALTRUSR&WinNT://D/u&zz&1\n")).trace =
        authedSession.trace ++
          [Event.decode (lit "ALTRUSR&WinNT://D/u&zz&1"),
            Event.call (ProviderCall.AlterUser
              (storePars authedSession.par
                [lit "ALTRUSR", lit "WinNT://D/u", lit "zz", lit "1"]) 3),
            Event.send (lit
              "300 Failed 0x80004005 (error text) (Failed: 0x80004005 on line 728)\n")] := by
  decide

theorem invoke_calls (B : UserBackend) (c : UserCall) (ln : Nat) (ret : List Nat)
    (calls : List UserCall) : (invoke B c ln ret calls).calls = calls ++ [c] := by
  unfold invoke BAIL_ON_FAILURE
  split_ifs <;> rfl

theorem flagBranch_extends {B : UserBackend} {l1 l2 : Nat} {v : Nat} {ret : List Nat}
    {calls : List UserCall} :
    calls <+: (match invoke B UserCall.Get_UserFlags l1 ret calls with
      | Flow.bail hr r c => Flow.bail hr r c
      | Flow.next r c => invoke B (UserCall.Put_UserFlags v) l2 r c).calls := by
  have hg := invoke_calls B UserCall.Get_UserFlags l1 ret calls
  cases hi : invoke B UserCall.Get_UserFlags l1 ret calls with
  | bail hr0 r0 c0 =>
    rw [hi] at hg
    simp only [Flow.calls] at hg ⊢
    rw [hg]; exact List.prefix_append _ _
  | next r0 c0 =>
    rw [hi] at hg
    simp only [Flow.calls] at hg
    simp only
    rw [invoke_calls, hg, List.append_assoc]
    exact List.prefix_append _ _

theorem alterField_extends (B : UserBackend) (p : List (List Nat)) (i : Nat) (ret : List Nat)
    (calls : List UserCall) : calls <+: (alterField B p i ret calls).calls := by
  unfold alterField
  simp only
  by_cases t0 : p.getD i [] = lit "ADIS"
  · rw [if_pos t0]; exact List.prefix_refl _
  rw [if_neg t0]
  by_cases t1 : p.getD i [] = lit "fn"
  · rw [if_pos t1, invoke_calls]; exact List.prefix_append _ _
  rw [if_neg t1]
  by_cases t2 : p.getD i [] = lit "pass"
  · rw [if_pos t2, invoke_calls]; exact List.prefix_append _ _
  rw [if_neg t2]
  by_cases t3 : p.getD i [] = lit "hdr"
  · rw [if_pos t3, invoke_calls]; exact List.prefix_append _ _
  rw [if_neg t3]
  by_cases t4 : p.getD i [] = lit "hdir"
  · rw [if_pos t4, invoke_calls]; exact List.prefix_append _ _
  rw [if_neg t4]
  by_cases t5 : p.getD i [] = lit "ls"
  · rw [if_pos t5, invoke_calls]; exact List.prefix_append _ _
  rw [if_neg t5]
  by_cases t6 : p.getD i [] = lit "pf"
  · rw [if_pos t6, invoke_calls]; exact List.prefix_append _ _
  rw [if_neg t6]
  by_cases t7 : p.getD i [] = lit "pexp"
  · rw [if_pos t7]; exact flagBranch_extends
  rw [if_neg t7]
  by_cases t8 : p.getD i [] = lit "ccp"
  · rw [if_pos t8]; exact flagBranch_extends
  rw [if_neg t8]
  by_cases t9 : p.getD i [] = lit "dis"
  · rw [if_pos t9, invoke_calls]; exact List.prefix_append _ _
  rw [if_neg t9]
  rw [BAIL_E_FAIL]
  exact List.prefix_refl _

theorem alterLoop_extends (B : UserBackend) (p : List (List Nat)) (idxs : List Nat) :
    ∀ (ret : List Nat) (calls : List UserCall),
      calls <+: (alterLoop B p idxs ret calls).calls := by
  induction idxs with
  | nil => intro ret calls; exact List.prefix_refl _
  | cons i is ih =>
    intro ret calls
    rw [alterLoop]
    have hf := alterField_extends B p i ret calls
    cases hi : alterField B p i ret calls with
    | bail hr0 r0 c0 => rw [hi] at hf; exact hf
    | next r0 c0 =>
      rw [hi] at hf
      exact List.IsPrefix.trans hf (ih r0 c0)

/-- Every call of `AlterUser` starts with the lookup of the user object
`p[1]`: the backend always observes at least this call. -/
theorem AlterUser_looks_up_first (B : UserBackend) (p : List (List Nat)) (n : Int)
    (ret : List Nat) :
    [UserCall.ADsGetObject (p.getD 1 [])] <+: (AlterUser B p n ret).calls := by
  unfold AlterUser
  have hg := invoke_calls B (UserCall.ADsGetObject (p.getD 1 [])) 683 ret []
  cases hi : invoke B (UserCall.ADsGetObject (p.getD 1 [])) 683 ret [] with
  | bail hr0 r0 c0 =>
    rw [hi] at hg
    simp only [Flow.calls, List.nil_append] at hg
    simp only [hg]
    exact List.prefix_refl _
  | next r0 c0 =>
    rw [hi] at hg
    simp only [Flow.calls, List.nil_append] at hg
    subst hg
    simp only
    have hl := alterLoop_extends B p (alterIndices n) r0 [UserCall.ADsGetObject (p.getD 1 [])]
    cases hj : alterLoop B p (alterIndices n) r0 [UserCall.ADsGetObject (p.getD 1 [])] with
    | bail hr1 r1 c1 => rw [hj] at hl; exact hl
    | next r1 c1 =>
      rw [hj] at hl
      simp only [Flow.calls] at hl
      simp only
      have hs := invoke_calls B UserCall.SetInfo 733 r1 c1
      cases hk : invoke B UserCall.SetInfo 733 r1 c1 with
      | bail hr2 r2 c2 =>
        rw [hk] at hs
        simp only [Flow.calls] at hs
        simp only [hs]
        exact List.IsPrefix.trans hl (List.prefix_append _ _)
      | next r2 c2 =>
        rw [hk] at hs
        simp only [Flow.calls] at hs
        simp only [hs]
        exact List.IsPrefix.trans hl (List.prefix_append _ _)

/-! ## Encode on a zeroed buffer -/

theorem set_at_length {α : Type} (pre : List α) (x y : α) (rest : List α) :
    (pre ++ x :: rest).set pre.length y = pre ++ y :: rest := by
  induction pre with
  | nil => rfl
  | cons a pre ih => simp [List.set, ih]

theorem set_at {α : Type} (pre : List α) (x y : α) (rest : List α) (n : Nat)
    (hn : n = pre.length) : (pre ++ x :: rest).set n y = pre ++ y :: rest := by
  subst hn; exact set_at_length pre x y rest

theorem set_four {α : Type} (pre : List α) (a b c d x1 x2 x3 x4 : α) (rest : List α) :
    ((((pre ++ a :: b :: c :: d :: rest).set pre.length x1).set (pre.length + 1) x2).set
        (pre.length + 2) x3).set (pre.length + 3) x4 =
      pre ++ x1 :: x2 :: x3 :: x4 :: rest := by
  rw [set_at_length]
  have e1 : pre ++ x1 :: b :: c :: d :: rest = (pre ++ [x1]) ++ b :: c :: d :: rest := by simp
  rw [e1, set_at (pre ++ [x1]) b x2 _ _ (by simp)]
  have e2 : (pre ++ [x1]) ++ x2 :: c :: d :: rest = (pre ++ [x1, x2]) ++ c :: d :: rest := by
    simp
  rw [e2, set_at (pre ++ [x1, x2]) c x3 _ _ (by simp)]
  have e3 : (pre ++ [x1, x2]) ++ x3 :: d :: rest = (pre ++ [x1, x2, x3]) ++ d :: rest := by
    simp
  rw [e3, set_at (pre ++ [x1, x2, x3]) d x4 _ _ (by simp)]
  simp

/-- On a buffer that holds `pre` followed by zeros, the loop of `Encode`
appends the escaped form of `v` and leaves the remaining zeros. -/
theorem EncodeLoop_zeros (v : List Nat) : ∀ (pre : List Nat) (k : Nat),
    0 ∉ v → (escape v).length + 1 ≤ k → pre.length + (escape v).length ≤ 255 →
    EncodeLoop v pre.length pre.length (pre ++ List.replicate k 0) =
      some (pre ++ escape v ++ List.replicate (k - (escape v).length) 0) := by
  induction v with
  | nil => intro pre k _ _ _; simp [EncodeLoop, escape]
  | cons c v ih =>
    intro pre k h0 hk hlen
    have hc0 : c ≠ 0 := by rintro rfl; simp at h0
    have h0v : 0 ∉ v := fun h => h0 (List.mem_cons_of_mem _ h)
    by_cases hesc : c = 37 ∨ c = 38
    · simp only [escape, hesc, if_true, List.length_cons] at hk hlen ⊢
      obtain ⟨k1, rfl⟩ : ∃ k1, k = k1 + 4 := ⟨k - 4, by omega⟩
      have hrep : List.replicate (k1 + 4) 0 = 0 :: 0 :: 0 :: 0 :: List.replicate k1 0 := rfl
      rw [EncodeLoop]
      simp only [hc0, hesc, if_false, if_true]
      rw [hrep, set_four, if_neg (by omega)]
      have := ih (pre ++ [37, hexdigit (c / 16), hexdigit (c % 16)]) (k1 + 1) h0v
        (by omega) (by simp; omega)
      simp only [List.length_append, List.length_cons, List.length_nil] at this
      have hr1 : List.replicate (k1 + 1) 0 = 0 :: List.replicate k1 0 := rfl
      rw [hr1] at this
      simp only [List.append_assoc, List.cons_append, List.nil_append] at this ⊢
      rw [this]
      have e : k1 + 1 - (escape v).length = k1 + 4 - ((escape v).length + 1 + 1 + 1) := by
        omega
      rw [e]
    · simp only [escape, hesc, if_false, List.length_cons] at hk hlen ⊢
      obtain ⟨k1, rfl⟩ : ∃ k1, k = k1 + 1 := ⟨k - 1, by omega⟩
      have hrep : List.replicate (k1 + 1) 0 = 0 :: List.replicate k1 0 := rfl
      rw [EncodeLoop]
      simp only [hc0, hesc, if_false]
      rw [hrep, set_at_length, if_neg (by omega)]
      have := ih (pre ++ [c]) k1 h0v (by omega) (by simp; omega)
      simp only [List.length_append, List.length_cons, List.length_nil] at this
      simp only [List.append_assoc, List.cons_append, List.nil_append] at this ⊢
      rw [this]
      have e : k1 - (escape v).length = k1 + 1 - ((escape v).length + 1) := by omega
      rw [e]

theorem cstr_append_zero (a rest : List Nat) (h : 0 ∉ a) : cstr (a ++ 0 :: rest) = a := by
  induction a with
  | nil => simp [cstr]
  | cons c a ih =>
    have hc : c ≠ 0 := by rintro rfl; simp at h
    have ha : 0 ∉ a := fun hm => h (List.mem_cons_of_mem _ hm)
    have := ih ha
    unfold cstr at this ⊢
    have hb : (c != 0) = true := by simpa using hc
    rw [List.cons_append, List.takeWhile_cons, this]
    simp only [hb, if_true]

theorem hexdigit_ne_zero (d : Nat) : hexdigit d ≠ 0 := by
  unfold hexdigit
  split_ifs <;> omega

theorem escape_not_mem_zero (v : List Nat) (h : 0 ∉ v) : 0 ∉ escape v := by
  induction v with
  | nil => simp [escape]
  | cons c v ih =>
    have hc : c ≠ 0 := by rintro rfl; simp at h
    have ha : 0 ∉ v := fun hm => h (List.mem_cons_of_mem _ hm)
    have := ih ha
    unfold escape
    split_ifs
    · simp only [List.mem_cons, not_or]
      exact ⟨by omega, (hexdigit_ne_zero _).symm, (hexdigit_ne_zero _).symm, this⟩
    · simp only [List.mem_cons, not_or]
      exact ⟨fun e => hc e.symm, this⟩

/-- The first call of `Encode` (static buffer still zeroed) returns the
escaped form of the value, when it fits the buffer with its terminator. -/
theorem EncodeStr_first_call (v : List Nat) (h0 : 0 ∉ v) (hfit : (escape v).length ≤ 254) :
    EncodeStr Encode.initBuff v = some (escape v) := by
  have := EncodeLoop_zeros v [] 255 h0 (by omega) (by simpa using by omega)
  simp only [List.length_nil, List.nil_append] at this
  unfold EncodeStr Encode Encode.initBuff
  rw [this]
  obtain ⟨m, hm⟩ : ∃ m, 255 - (escape v).length = m + 1 :=
    ⟨254 - (escape v).length, by omega⟩
  rw [hm]
  have hr : List.replicate (m + 1) 0 = 0 :: List.replicate m 0 := rfl
  rw [hr]
  simp only [Option.map_some', Option.some.injEq]
  exact cstr_append_zero _ _ (escape_not_mem_zero v h0)

/-- The loop of `Decode` on an escaped value: the value is appended to the
scratch buffer and stored as one argument. -/
theorem DecodeLoop_escape (v : List Nat) : ∀ (b : Nat) (buff : List Nat)
    (params : List (List Nat)), 0 ∉ v → b + v.length ≤ 255 →
    DecodeLoop (escape v) b buff params =
      ⟨(params.length : Nat), params ++ [cstr (buff ++ v)]⟩ := by
  induction v with
  | nil => intro b buff params _ _; simp [escape, DecodeLoop]
  | cons c v ih =>
    intro b buff params h0 hb
    have hc0 : c ≠ 0 := by rintro rfl; simp at h0
    have h0v : 0 ∉ v := fun h => h0 (List.mem_cons_of_mem _ h)
    simp only [List.length_cons] at hb
    by_cases hesc : c = 37 ∨ c = 38
    · have hx : hexval (hexdigit (c / 16)) = some 2 := by
        rcases hesc with rfl | rfl <;> decide
      have hy : hexval (hexdigit (c % 16)) = some (c - 32) := by
        rcases hesc with rfl | rfl <;> decide
      have hval : 2 * 16 + (c - 32) = c := by rcases hesc with rfl | rfl <;> rfl
      simp only [escape, hesc, if_true]
      rw [DecodeLoop.eq_def]
      simp only [show (37 : Nat) ≠ 0 by decide, show (37 : Nat) ≠ 38 by decide, if_false,
        if_true, hx, hy, hval]
      rw [if_neg (by omega), ih (b + 1) (buff ++ [c]) params h0v (by omega)]
      simp
    · have h37 : c ≠ 37 := fun e => hesc (Or.inl e)
      have h38 : c ≠ 38 := fun e => hesc (Or.inr e)
      simp only [escape, hesc, if_false]
      rw [DecodeLoop.eq_def]
      simp only [hc0, h37, h38, if_false]
      rw [if_neg (by omega), ih (b + 1) (buff ++ [c]) params h0v (by omega)]
      simp

/-- Round trip on the first call: for a value without NUL whose escaped form
fits the buffer, `Decode` applied to what the first call of `Encode` returns
succeeds with return value 0 and stores the value as its only argument. -/
theorem Encode_Decode_first_call (v : List Nat) (maxpars : Nat) (h0 : 0 ∉ v)
    (hfit : (escape v).length ≤ 254) :
    ∃ s, EncodeStr Encode.initBuff v = some s ∧ Decode s maxpars = ⟨0, [v]⟩ := by
  refine ⟨escape v, EncodeStr_first_call v h0 hfit, ?_⟩
  have hlen : v.length ≤ (escape v).length := by
    clear h0 hfit
    induction v with
    | nil => simp
    | cons c v ih =>
      unfold escape
      split_ifs <;> simp <;> omega
  unfold Decode
  rw [DecodeLoop_escape v 0 [] [] h0 (by omega)]
  simp [cstr_of_not_mem h0]

/-! ## The line reader -/

/-- Characters that are no LF and fit the buffer are copied to `buff`. -/
theorem scanLine_plain (n : Int) (s : List Nat) : ∀ (t buff : List Nat), 10 ∉ s →
    ((buff.length + s.length : Nat) : Int) ≤ n - 1 →
    scanLine n (s ++ t) buff = scanLine n t (buff ++ s) := by
  induction s with
  | nil => intro t buff _ _; simp
  | cons c s ih =>
    intro t buff hlf hlen
    have hc : c ≠ 10 := by rintro rfl; simp at hlf
    have hs : 10 ∉ s := fun h => hlf (List.mem_cons_of_mem _ h)
    simp only [List.length_cons] at hlen
    have hne : ¬ ((buff.length : Int) = n - 1) := by omega
    have hlen1 : (((buff ++ [c]).length + s.length : Nat) : Int) ≤ n - 1 := by
      simp only [List.length_append, List.length_cons, List.length_nil]
      omega
    rw [List.cons_append, scanLine]
    simp only [hc, hne, if_false]
    rw [ih t (buff ++ [c]) hs hlen1, List.append_assoc]
    rfl

/-- The scan of a line body followed by CR LF. -/
theorem scanLine_crlf (n : Int) (s rest : List Nat) (hlf : 10 ∉ s)
    (hlen : (s.length : Int) ≤ n - 2) :
    scanLine n (s ++ [13, 10] ++ rest) [] = Scan.done (s ++ [10]) rest := by
  have hl : ((([] : List Nat).length + s.length : Nat) : Int) ≤ n - 1 := by
    simp only [List.length_nil, Nat.zero_add]
    omega
  rw [List.append_assoc, scanLine_plain n s _ [] hlf hl]
  simp only [List.nil_append, List.cons_append, List.nil_append]
  have hne : ¬ ((s.length : Int) = n - 1) := by omega
  rw [scanLine]
  simp only [show (13 : Nat) ≠ 10 by decide, hne, if_false]
  rw [scanLine]
  simp

/-- The scan of a line body followed by a bare LF. -/
theorem scanLine_lf (n : Int) (s rest : List Nat) (hlf : 10 ∉ s)
    (hcr : s.getLast? ≠ some 13) (hlen : (s.length : Int) ≤ n - 2) :
    scanLine n (s ++ [10] ++ rest) [] = Scan.done (s ++ [10]) rest := by
  have hl : ((([] : List Nat).length + s.length : Nat) : Int) ≤ n - 1 := by
    simp only [List.length_nil, Nat.zero_add]
    omega
  rw [List.append_assoc, scanLine_plain n s _ [] hlf hl]
  simp only [List.nil_append, List.cons_append, List.nil_append]
  rw [scanLine]
  by_cases h0 : s.length = 0
  · simp [h0]
  · have hlt : (s.length : Int) < n - 1 := by omega
    simp only [h0, hcr, hlt, if_false, if_true]

/-- A call of `rf_gets` whose scan of `fb` ends at a `break`. -/
theorem rf_gets_of_done {n : Int} {pending b rest : List Nat} (socks : List SockCall)
    (h : scanLine n pending [] = Scan.done b rest) :
    rf_gets n pending socks = some ⟨b.length, some (cstr b), rest, socks⟩ := by
  unfold rf_gets
  rw [h]

/-- A call of `rf_gets` on an empty `fb` whose first call of
`recvwithtimeout` returns a complete line (from the first `recv`, or from
the second one after `select`). -/
theorem rf_gets_of_delivery {n : Int} {bytes b rest : List Nat} {sc : SockCall}
    (socks : List SockCall) (hsc : recvwithtimeout sc = RecvResult.data bytes)
    (hne : bytes ≠ []) (h : scanLine n bytes [] = Scan.done b rest) :
    rf_gets n [] (sc :: socks) = some ⟨b.length, some (cstr b), rest, socks⟩ := by
  unfold rf_gets
  rw [scanLine]
  simp only
  rw [rf_getsFill.eq_def]
  simp only [hsc, hne, if_false]
  rw [h]

/-- A socket call that gives `bytes` makes `recvwithtimeout` return them. -/
theorem recvwithtimeout_of_gives {sc : SockCall} {bytes : List Nat} (h : sc.gives bytes) :
    recvwithtimeout sc = RecvResult.data bytes := by
  unfold recvwithtimeout
  rcases h with h | ⟨h1, h2, h3, h4⟩
  · rw [h]
  · have hm : ¬ sc.select = -1 := by omega
    have hz : ¬ sc.select = 0 := by omega
    rw [h1]
    simp only [h2, hm, hz, if_true, if_false, h4]

/-- C16, as stated, fails. The line body `A`, NUL, `B` has no LF, does not
end in CR and has 3 characters; on the inputs `A\0B\r\n` and `A\0B\n` the
function `rf_gets` returns the count 4, but the line it hands back is the
one character `A`: `MultiByteToWideChar` copies `strlen(buff)+1` characters
of the buffer, up to the first NUL. -/
theorem rf_gets_cuts_at_NUL :
    (10 : Nat) ∉ [65, 0, 66] ∧ ([65, 0, 66] : List Nat).getLast? ≠ some 13 ∧
      ((([65, 0, 66] : List Nat).length : Nat) : Int) ≤ 510 - 2 ∧
      rf_gets 510 ([65, 0, 66] ++ [13, 10]) [] = some ⟨4, some [65], [], []⟩ ∧
      rf_gets 510 ([65, 0, 66] ++ [10]) [] = some ⟨4, some [65], [], []⟩ ∧
      ([65] : List Nat) ≠ [65, 0, 66] ++ [10] := by
  decide

/-- C16, amended. CRLF normalisation in `rf_gets`: for every line body `s`
without LF and without NUL, not ending in CR and of at most `n - 2`
characters, reading `s\r\n` and reading `s\n` give the same result, whether
the input waits in `fb` or is what the socket gives to the next call of
`recvwithtimeout` (by its first `recv`, or by its second one after a first
one that would block): the returned count is `len(s) + 1` and the returned line is `s`
followed by one `\n`; what follows the terminator stays unread in `fb`. For
the empty `s` the line is the one character `\n`. -/
theorem rf_gets_crlf (n : Int) (s rest : List Nat) (socks : List SockCall) (hlf : 10 ∉ s)
    (h0 : 0 ∉ s) (hcr : s.getLast? ≠ some 13) (hlen : (s.length : Int) ≤ n - 2) :
    rf_gets n (s ++ [13, 10] ++ rest) socks =
        some ⟨(s.length : Int) + 1, some (s ++ [10]), rest, socks⟩ ∧
      rf_gets n (s ++ [10] ++ rest) socks =
        some ⟨(s.length : Int) + 1, some (s ++ [10]), rest, socks⟩ ∧
      (∀ sc : SockCall, sc.gives (s ++ [13, 10] ++ rest) →
        rf_gets n [] (sc :: socks) =
          some ⟨(s.length : Int) + 1, some (s ++ [10]), rest, socks⟩) ∧
      (∀ sc : SockCall, sc.gives (s ++ [10] ++ rest) →
        rf_gets n [] (sc :: socks) =
          some ⟨(s.length : Int) + 1, some (s ++ [10]), rest, socks⟩) := by
  have h1 := scanLine_crlf n s rest hlf hlen
  have h2 := scanLine_lf n s rest hlf hcr hlen
  have hl : (((s ++ [10]).length : Nat) : Int) = (s.length : Int) + 1 := by simp
  have hc : cstr (s ++ [10]) = s ++ [10] := by
    apply cstr_of_not_mem
    simp only [List.mem_append, List.mem_singleton, not_or]
    exact ⟨h0, by decide⟩
  refine ⟨?_, ?_, ?_, ?_⟩
  · rw [rf_gets_of_done socks h1, hl, hc]
  · rw [rf_gets_of_done socks h2, hl, hc]
  · intro sc hsc
    rw [rf_gets_of_delivery socks (recvwithtimeout_of_gives hsc) (by simp) h1, hl, hc]
  · intro sc hsc
    rw [rf_gets_of_delivery socks (recvwithtimeout_of_gives hsc) (by simp) h2, hl, hc]

/-- C16 amended, on the body `QUIT&` followed by another command, and on the
empty body; the input comes from `fb`, from a first `recv`, or from the
second `recv` after the first one would block. -/
theorem rf_gets_crlf_witness :
    rf_gets 510 [13, 10] [] = some ⟨1, some [10], [], []⟩ ∧
    rf_gets 510 [10] [] = some ⟨1, some [10], [], []⟩ ∧
    rf_gets 510 []
        [⟨RecvResult.error, true, 1, RecvResult.data (lit "QUIT&" ++ [13, 10] ++ lit "LUSER&x\n")⟩] =
      some ⟨6, some (lit "QUIT&\n"), lit "LUSER&x\n", []⟩ ∧
    (rf_gets 510 (lit "QUIT&" ++ [13, 10] ++ lit "LUSER&x\n") [] =
        some ⟨((lit "QUIT&").length : Int) + 1, some (lit "QUIT&" ++ [10]), lit "LUSER&x\n", []⟩ ∧
      rf_gets 510 (lit "QUIT&" ++ [10] ++ lit "LUSER&x\n") [] =
        some ⟨((lit "QUIT&").length : Int) + 1, some (lit "QUIT&" ++ [10]), lit "LUSER&x\n", []⟩ ∧
      (∀ sc : SockCall, sc.gives (lit "QUIT&" ++ [13, 10] ++ lit "LUSER&x\n") →
        rf_gets 510 [] (sc :: []) =
          some ⟨((lit "QUIT&").length : Int) + 1, some (lit "QUIT&" ++ [10]),
            lit "LUSER&x\n", []⟩) ∧
      (∀ sc : SockCall, sc.gives (lit "QUIT&" ++ [10] ++ lit "LUSER&x\n") →
        rf_gets 510 [] (sc :: []) =
          some ⟨((lit "QUIT&").length : Int) + 1, some (lit "QUIT&" ++ [10]),
            lit "LUSER&x\n", []⟩)) :=
  ⟨by decide, by decide, by decide,
    rf_gets_crlf 510 (lit "QUIT&") (lit "LUSER&x\n") [] (by decide) (by decide) (by decide)
      (by decide)⟩

/-- C15, as stated, fails. With the two characters `AB` of an unfinished line
in `fb`, a read that times out makes `rf_gets` return 2, not -1, without
writing `lnBuff`; the session (authenticated, `lnBuff` still holding the
previous line `DELUSR&x`) does not close: it cuts `lnBuff` to one character,
hands it to `Decode` and answers with the `310` line. -/
theorem rf_gets_timeout_partial_line :
    timedOut timesOut ∧
      rf_gets sizeofLnBuff (lit "AB") [timesOut] = some ⟨2, none, [], []⟩ ∧
      (connStep okEnv ⟨authedSession, lit "DELUSR&x\n", lit "AB", [timesOut]⟩).map
          (fun c => (c.session.trace.drop 2, c.session.exited)) =
        some ([Event.decode (lit "D"),
          Event.send (lit "310 Ka fasken prater du om (D)?\r\n")], false) := by
  decide

/-- C15, amended. For every state of the line reader (`buff` holds the
characters of the current line received so far), a read that times out ends
`rf_gets`: it returns -1 when no character of the current line has been
received, and the number of characters received otherwise, in both cases
without writing `rbuff`; on the return value -1 a live session calls
`rf_resume` and does nothing else (no `Decode`, no Provider call). -/
theorem rf_gets_timeout (n : Int) (t : SockCall) (socks : List SockCall) (ht : timedOut t) :
    (∀ buff : List Nat, rf_getsFill n (t :: socks) buff =
        some ⟨if buff = [] then -1 else (buff.length : Int), none, [], socks⟩) ∧
      (∀ pending buff : List Nat, scanLine n pending [] = Scan.more buff →
        rf_gets n pending (t :: socks) =
          some ⟨if buff = [] then -1 else (buff.length : Int), none, [], socks⟩) ∧
      (∀ (env : Env) (s : Session) (lnBuff : List Nat), s.exited = false →
        sessionStep env s (-1) lnBuff = rf_resume s ∧
        (sessionStep env s (-1) lnBuff).exited = true ∧
        (sessionStep env s (-1) lnBuff).trace = s.trace ++ [Event.resume]) := by
  obtain ⟨h1, h2, h3⟩ := ht
  have hfill : ∀ buff : List Nat, rf_getsFill n (t :: socks) buff =
      some ⟨if buff = [] then -1 else (buff.length : Int), none, [], socks⟩ := by
    intro buff
    rw [rf_getsFill.eq_def]
    simp only [recvwithtimeout, h1, h2, h3, if_true]
    by_cases hb : buff = []
    · subst hb; simp
    · have : buff.length ≠ 0 := fun h => hb (List.length_eq_zero.mp h)
      simp [hb, this]
  refine ⟨hfill, ?_, ?_⟩
  · intro pending buff hscan
    unfold rf_gets
    rw [hscan]
    exact hfill buff
  · intro env s lnBuff hlive
    have hs : sessionStep env s (-1) lnBuff = rf_resume s := by
      simp [sessionStep, loopBody, hlive, rf_resume]
    rw [hs]
    exact ⟨rfl, rfl, rfl⟩

/-- C15 amended, on a reader that has received nothing of the current line. -/
theorem rf_gets_timeout_witness :
    (∀ buff : List Nat, rf_getsFill 510 (timesOut :: []) buff =
        some ⟨if buff = [] then -1 else (buff.length : Int), none, [], []⟩) ∧
      (∀ pending buff : List Nat, scanLine 510 pending [] = Scan.more buff →
        rf_gets 510 pending (timesOut :: []) =
          some ⟨if buff = [] then -1 else (buff.length : Int), none, [], []⟩) ∧
      (∀ (env : Env) (s : Session) (lnBuff : List Nat), s.exited = false →
        sessionStep env s (-1) lnBuff = rf_resume s ∧
        (sessionStep env s (-1) lnBuff).exited = true ∧
        (sessionStep env s (-1) lnBuff).trace = s.trace ++ [Event.resume]) :=
  rf_gets_timeout 510 timesOut [] (by decide)

/-! ## Lines that are too long or do not decode -/

set_option maxRecDepth 100000 in
/-- C13, at the failing input. A line of 256 characters `A` (and its LF) is
not rejected: `rf_gets`, called with `sizeof(lnBuff)` = 510, returns all 257
characters into `lnBuff` (declared with 255 elements); the session hands the
256 characters to `Decode`, whose return value -1 it does not test, runs the
verb chain on what `par[0]` holds, answers with the `310` line and stays in
the loop. -/
theorem long_line_not_rejected :
    (connStep okEnv ⟨authedSession, [], [],
        [delivers (List.replicate 256 65 ++ [10])]⟩).map
          (fun c => (c.lnBuff.length, c.session.trace.drop 2, c.session.exited,
            c.session.done)) =
        some (257, [Event.decode (List.replicate 256 65),
          Event.send (lit "310 Ka fasken prater du om ()?\r\n")], false, false) ∧
      (Decode (List.replicate 256 65) MAXARGS).ret = -1 := by
  decide

/-- C14, at the failing input. On the line `DELUSR&WinNT://D/u&%zz` the
function `Decode` returns -1 (bad escape in the third segment) after it has
stored `DELUSR` and `WinNT://D/u`; the session does not test the return
value: the verb `DELUSR` is matched, `myDeleteObject` is called on
`WinNT://D/u`, the answer is `210 OK` and the thread stays in the loop. -/
theorem decode_failure_still_dispatched :
    (Decode (lit "DELUSR&WinNT://D/u&%zz") MAXARGS).ret = -1 ∧
      (sessionStep okEnv authedSession 23 (lit "DELUSR&WinNT://D/u&%zz\n")).trace =
        authedSession.trace ++
          [Event.decode (lit "DELUSR&WinNT://D/u&%zz"),
            Event.call (ProviderCall.myDeleteObject (lit "WinNT://D/u")),
            Event.send (lit "210 OK\n")] ∧
      (sessionStep okEnv authedSession 23 (lit "DELUSR&WinNT://D/u&%zz\n")).exited = false ∧
      (sessionStep okEnv authedSession 23 (lit "DELUSR&WinNT://D/u&%zz\n")).done = false := by
  decide

/-! ## Escapes for every byte value -/

theorem hexval_of_hexChars {d h : Nat} (hd : d < 16) (hh : h ∈ hexChars d) :
    hexval h = some d := by
  unfold hexChars at hh
  split_ifs at hh with h10
  · simp only [List.mem_singleton] at hh
    subst hh
    unfold hexval
    rw [if_pos (by omega)]
    congr 1
    omega
  · simp only [List.mem_cons, List.mem_singleton, List.not_mem_nil, or_false] at hh
    rcases hh with rfl | rfl
    · unfold hexval
      rw [if_neg (by omega), if_pos (by omega)]
      congr 1
      omega
    · unfold hexval
      rw [if_neg (by omega), if_neg (by omega), if_pos (by omega)]
      congr 1
      omega

/-- C17, as stated, fails at the byte value 0: `Decode` of `%00` succeeds but
the stored argument is the empty string, not the one character NUL. -/
theorem Decode_escape_nul :
    (48 : Nat) ∈ hexChars (0 / 16) ∧ (48 : Nat) ∈ hexChars (0 % 16) ∧
      Decode [37, 48, 48] MAXARGS = ⟨0, [[]]⟩ ∧
      Decode [37, 48, 48] MAXARGS ≠ ⟨0, [[0]]⟩ := by
  decide

/-- C17, amended. For every byte value `v` in 1..255 and every spelling
`h`, `l` of its two hex digits (either letter case), `Decode` of the
one-segment line `%hl` returns 0 and stores the single argument consisting of
the one character `v`. -/
theorem Decode_escape_byte (v h l maxpars : Nat) (h1 : 1 ≤ v) (h255 : v ≤ 255)
    (hh : h ∈ hexChars (v / 16)) (hl : l ∈ hexChars (v % 16)) :
    Decode [37, h, l] maxpars = ⟨0, [[v]]⟩ := by
  have hx := hexval_of_hexChars (by omega) hh
  have hy := hexval_of_hexChars (by omega) hl
  have hv : v / 16 * 16 + v % 16 = v := by omega
  have hv0 : v ≠ 0 := by omega
  unfold Decode
  rw [DecodeLoop.eq_def]
  simp only [show (37 : Nat) ≠ 0 by decide, show (37 : Nat) ≠ 38 by decide, if_false,
    if_true, hx, hy, hv]
  rw [if_neg (by omega), DecodeLoop]
  have hb : (v != 0) = true := by simpa using hv0
  simp [cstr, List.takeWhile, hb]

/-- C17 amended, on `%e5` and `%E5`. -/
theorem Decode_escape_byte_witness :
    Decode [37, 101, 53] 20 = ⟨0, [[229]]⟩ ∧ Decode [37, 69, 53] 20 = ⟨0, [[229]]⟩ :=
  ⟨Decode_escape_byte 229 101 53 20 (by decide) (by decide) (by decide) (by decide),
    Decode_escape_byte 229 69 53 20 (by decide) (by decide) (by decide) (by decide)⟩

/-! ## The authenticated flag -/

theorem sessionStep_keeps_authenticated (env : Env) (s : Session) (n : Int)
    (lnBuff : List Nat) (h : s.authenticated = true) :
    (sessionStep env s n lnBuff).authenticated = true := by
  unfold sessionStep
  by_cases hx : s.exited = true
  · simp [hx, h]
  · have hl : (loopBody env s n lnBuff).authenticated = true := by
      unfold loopBody
      by_cases hn : n ≤ 0
      · simp [hn, rf_resume, h]
      · simp [hn, h]
    simp only [hx, Bool.false_eq_true, if_false]
    split_ifs
    · simp [farewell, rf_resume, send_data, hl]
    · exact hl

theorem runSession_keeps_authenticated (env : Env) (inputs : List (Int × List Nat)) :
    ∀ s : Session, s.authenticated = true → (runSession env s inputs).authenticated = true := by
  induction inputs with
  | nil => intro s h; exact h
  | cons x xs ih =>
    intro s h
    obtain ⟨n, lnBuff⟩ := x
    exact ih _ (sessionStep_keeps_authenticated env s n lnBuff h)

/-- C20, as stated, fails. With the shared secret `QUIT` the secret sent
again on the authenticated session is decoded and dispatched as the command
`QUIT`: the turn has no fault, the session sends the farewell line
`210 Haba baba` and ends; no `310` line is sent. -/
theorem repeated_secret_QUIT :
    quitEnv.password = lit "QUIT\n" ∧ cstr (lit "QUIT\n") = cstr quitEnv.password ∧
      (sessionStep quitEnv authedSession 5 (lit "QUIT\n")).trace =
        authedSession.trace ++
          [Event.decode (lit "QUIT"), Event.send (lit "210 Haba baba\r\n"), Event.resume] ∧
      (sessionStep quitEnv authedSession 5 (lit "QUIT\n")).faults = [] ∧
      (sessionStep quitEnv authedSession 5 (lit "QUIT\n")).exited = true := by
  decide

/-- C20, amended. No re-authentication: once the authenticated flag is set
it stays set over every further run of the session; on an authenticated
session a line is handled without any look at the shared secret (the turn is
the same whatever the secret is); and a later line equal to the secret whose
first argument after `Decode` is no verb is, on a turn without fault (the
secret decodes to at least one argument and the line that echoes it is
shorter than 255 characters), decoded and dispatched like any other line:
the only reply is the `310` line, so neither the `200` acknowledgement nor
the `300` rejection is sent, and the session stays open. -/
theorem no_reauthentication (env : Env) (s : Session) (n : Int) (lnBuff : List Nat)
    (hn : 0 < n) (hauth : s.authenticated = true) (hlive : s.exited = false)
    (hsecret : cstr lnBuff = cstr env.password)
    (hverb : (storePars s.par
      (Decode (commandLine n lnBuff) MAXARGS).params).getD 0 [] ∉ verbs) :
    (∀ inputs : List (Int × List Nat), (runSession env s inputs).authenticated = true) ∧
      (∀ pw : List Nat,
        sessionStep ⟨pw, env.errText, env.provider, env.errTail⟩ s n lnBuff =
          sessionStep env s n lnBuff) ∧
      ((sessionStep env s n lnBuff).faults = s.faults →
        (sessionStep env s n lnBuff).trace =
          s.trace ++ [Event.decode (commandLine n lnBuff),
            Event.send (lit "310 Ka fasken prater du om (" ++
              (storePars s.par (Decode (commandLine n lnBuff) MAXARGS).params).getD 0 [] ++
              lit ")?\r\n")] ∧
        (sessionStep env s n lnBuff).authenticated = true ∧
        (sessionStep env s n lnBuff).exited = false ∧
        (sessionStep env s n lnBuff).done = false) := by
  have _hs := hsecret
  have hn0 : ¬ n ≤ 0 := by omega
  refine ⟨fun inputs => runSession_keeps_authenticated env inputs s hauth, ?_, fun _ => ?_⟩
  · intro pw
    simp [sessionStep, loopBody, hauth, hn0, dispatch, respond, respondFaults, failLine,
      callPlain, callSock, callLine]
  · have h := unknown_verb_reply env s n lnBuff hn hauth hlive hverb
    exact ⟨h.2.1, h.2.2.2.2, h.2.2.2.1, h.2.2.1⟩

/-- C20 amended, on the secret `secret` sent a second time: the turn has no
fault and the reply is the `310` line echoing `secret`. -/
theorem no_reauthentication_witness :
    (sessionStep okEnv authedSession 7 (lit "secret\n")).faults = authedSession.faults ∧
    (sessionStep okEnv authedSession 7 (lit "secret\n")).trace =
      authedSession.trace ++ [Event.decode (lit "secret"),
        Event.send (lit "310 Ka fasken prater du om (secret)?\r\n")] ∧
    ((∀ inputs : List (Int × List Nat),
        (runSession okEnv authedSession inputs).authenticated = true) ∧
      (∀ pw : List Nat,
        sessionStep ⟨pw, okEnv.errText, okEnv.provider, okEnv.errTail⟩ authedSession 7
            (lit "secret\n") =
          sessionStep okEnv authedSession 7 (lit "secret\n")) ∧
      ((sessionStep okEnv authedSession 7 (lit "secret\n")).faults = authedSession.faults →
        (sessionStep okEnv authedSession 7 (lit "secret\n")).trace =
          authedSession.trace ++ [Event.decode (commandLine 7 (lit "secret\n")),
            Event.send (lit "310 Ka fasken prater du om (" ++
              (storePars authedSession.par
                (Decode (commandLine 7 (lit "secret\n")) MAXARGS).params).getD 0 [] ++
              lit ")?\r\n")] ∧
        (sessionStep okEnv authedSession 7 (lit "secret\n")).authenticated = true ∧
        (sessionStep okEnv authedSession 7 (lit "secret\n")).exited = false ∧
        (sessionStep okEnv authedSession 7 (lit "secret\n")).done = false)) :=
  ⟨by decide, by decide,
    no_reauthentication okEnv authedSession 7 (lit "secret\n") (by decide) rfl rfl (by decide)
      (by decide)⟩

/-! ## Create: the name limit of the flat convention -/

/-- C18. Flat-convention name limit: for every create type (`group`, `user`,
`org`, as passed for `NEWGR`, `NEWUSR`, `NEWORG` with the name `par[2]`) and
every parent reference in the flat convention (`WinNT:`), a name longer than
20 characters makes `CreateGroupOrUserWrap` return the failure code `E_FAIL`
with no backend call made, and a name of 20 characters or fewer passes the
check: the first backend call, the lookup of the parent, is made. -/
theorem create_flat_name_limit (B : List CreateCall → CreateCall → Int)
    (parent name sam type ret : List Nat) (hflat : isFlat parent = true)
    (htype : type ∈ createTypes) :
    ((cstr name).length > 20 →
      (CreateGroupOrUserWrap B parent name sam type ret).hr = E_FAIL ∧
        FAILED (CreateGroupOrUserWrap B parent name sam type ret).hr = true ∧
        (CreateGroupOrUserWrap B parent name sam type ret).calls = []) ∧
    ((cstr name).length ≤ 20 →
      [CreateCall.ADsGetObject parent] <+:
        (CreateGroupOrUserWrap B parent name sam type ret).calls) := by
  have _ht := htype
  unfold CreateGroupOrUserWrap
  rw [if_pos hflat]
  unfold CreateGroupOrUserWin
  constructor
  · intro hlong
    rw [if_pos hlong]
    have hf : FAILED E_FAIL = true := by decide
    exact ⟨rfl, hf, rfl⟩
  · intro hshort
    rw [if_neg (by omega)]
    simp only
    split_ifs <;> simp [List.prefix_iff_eq_append]

/-- C18 on a name of 21 characters and one of 20 under `WinNT://D`. -/
theorem create_flat_name_limit_witness :
    ((cstr (lit "abcdefghijklmnopqrstu")).length > 20 →
      (CreateGroupOrUserWrap okCreate (lit "WinNT://D") (lit "abcdefghijklmnopqrstu") []
          (lit "user") []).hr = E_FAIL ∧
        FAILED (CreateGroupOrUserWrap okCreate (lit "WinNT://D")
          (lit "abcdefghijklmnopqrstu") [] (lit "user") []).hr = true ∧
        (CreateGroupOrUserWrap okCreate (lit "WinNT://D") (lit "abcdefghijklmnopqrstu") []
          (lit "user") []).calls = []) ∧
    ((cstr (lit "abcdefghijklmnopqrstu")).length ≤ 20 →
      [CreateCall.ADsGetObject (lit "WinNT://D")] <+:
        (CreateGroupOrUserWrap okCreate (lit "WinNT://D") (lit "abcdefghijklmnopqrstu") []
          (lit "user") []).calls) :=
  create_flat_name_limit okCreate (lit "WinNT://D") (lit "abcdefghijklmnopqrstu") []
    (lit "user") [] (by decide) (by decide)

/-! ## ConvName: there and back -/

theorem swapChar_back (s : List Nat) (h : 47 ∉ s) :
    swapChar 47 92 (swapChar 92 47 s) = s := by
  induction s with
  | nil => rfl
  | cons c s ih =>
    have hc : c ≠ 47 := by rintro rfl; simp at h
    have hs : 47 ∉ s := fun hm => h (List.mem_cons_of_mem _ hm)
    have ih := ih hs
    unfold swapChar at ih ⊢
    simp only [List.map_cons, ih, List.cons.injEq, and_true]
    by_cases h92 : c = 92
    · subst h92; simp
    · simp [h92, hc]

/-- C19. Round trip of `ConvName`: for every hierarchical reference
`LDAP://<dn>` that the translator resolves to the NT4 name `nt` (a name of
the form `DOMAIN\name`, without `/`), with the reverse lookup of `nt`
yielding `dn` again, `ConvName` gives the flat reference `WinNT://` followed
by `nt` with `/` for `\`, and `ConvName` applied to that flat reference gives
back `LDAP://<dn>`; both calls succeed. -/
theorem ConvName_round_trip (T : NameTranslate) (dn nt to1 ret1 to2 ret2 : List Nat)
    (h1 h2 : Int) (hc : FAILED T.create = false) (hi : FAILED T.init = false)
    (hs1 : FAILED (T.set ADS_NAME_TYPE_1779 dn) = false)
    (hg1 : T.get ADS_NAME_TYPE_NT4 ADS_NAME_TYPE_1779 dn = (h1, nt))
    (hh1 : FAILED h1 = false) (hfmt : 47 ∉ nt)
    (hs2 : FAILED (T.set ADS_NAME_TYPE_NT4 nt) = false)
    (hg2 : T.get ADS_NAME_TYPE_1779 ADS_NAME_TYPE_NT4 nt = (h2, dn))
    (hh2 : FAILED h2 = false) :
    (ConvName T (lit "LDAP://" ++ dn) to1 ret1).dst = lit "WinNT://" ++ swapChar 92 47 nt ∧
      FAILED (ConvName T (lit "LDAP://" ++ dn) to1 ret1).hr = false ∧
      (ConvName T (ConvName T (lit "LDAP://" ++ dn) to1 ret1).dst to2 ret2).dst =
        lit "LDAP://" ++ dn ∧
      FAILED (ConvName T (ConvName T (lit "LDAP://" ++ dn) to1 ret1).dst to2 ret2).hr =
        false := by
  have eL : lit "LDAP://" = [76, 68, 65, 80, 58, 47, 47] := by decide
  have eW : lit "WinNT://" = [87, 105, 110, 78, 84, 58, 47, 47] := by decide
  have r1 : ConvName T (lit "LDAP://" ++ dn) to1 ret1 =
      ⟨h1, lit "WinNT://" ++ swapChar 92 47 nt, ret1, lit "LDAP://" ++ dn⟩ := by
    unfold ConvName
    have ht : (lit "LDAP://" ++ dn).take 7 = lit "LDAP://" := by rw [eL]; rfl
    have hd : (lit "LDAP://" ++ dn).drop 7 = dn := by rw [eL]; rfl
    simp only [hc, hi, ht, hd, hs1, hg1, hh1, if_true, Bool.false_eq_true, if_false]
  have r2 : ConvName T (lit "WinNT://" ++ swapChar 92 47 nt) to2 ret2 =
      ⟨h2, lit "LDAP://" ++ dn, ret2, lit "WinNT://" ++ nt⟩ := by
    unfold ConvName
    have ht7 : ¬ ((lit "WinNT://" ++ swapChar 92 47 nt).take 7 = lit "LDAP://") := by
      rw [eL, eW]; simp
    have ht : (lit "WinNT://" ++ swapChar 92 47 nt).take 8 = lit "WinNT://" := by
      rw [eW]; rfl
    have hd : (lit "WinNT://" ++ swapChar 92 47 nt).drop 8 = swapChar 92 47 nt := by
      rw [eW]; rfl
    simp only [hc, hi, ht7, ht, hd, swapChar_back nt hfmt, hs2, hg2, if_true,
      Bool.false_eq_true, if_false]
  rw [r1]
  simp only
  rw [r2]
  exact ⟨trivial, hh1, rfl, hh2⟩

/-- C19 on the object `CN=u,DC=d`, NT4 name `D\u`. -/
theorem ConvName_round_trip_witness :
    (ConvName oneObject (lit "LDAP://" ++ lit "CN=u,DC=d") [] []).dst =
        lit "WinNT://" ++ swapChar 92 47 (lit "D\\u") ∧
      FAILED (ConvName oneObject (lit "LDAP://" ++ lit "CN=u,DC=d") [] []).hr = false ∧
      (ConvName oneObject
          (ConvName oneObject (lit "LDAP://" ++ lit "CN=u,DC=d") [] []).dst [] []).dst =
        lit "LDAP://" ++ lit "CN=u,DC=d" ∧
      FAILED (ConvName oneObject
          (ConvName oneObject (lit "LDAP://" ++ lit "CN=u,DC=d") [] []).dst [] []).hr =
        false :=
  ConvName_round_trip oneObject (lit "CN=u,DC=d") (lit "D\\u") [] [] [] [] 0 0 (by decide)
    (by decide) (by decide) (by decide) (by decide) (by decide) (by decide) (by decide)
    (by decide)

/-! ## Listings -/

/-- With every getter succeeding `ProcessUser` appends the fields of the
user and returns `S_OK`, leaving `ret` alone. -/
theorem ProcessUserGetters_ok (u : UserObject) (line ret : List Nat) (h : u.ok) :
    ProcessUserGetters u line ret = ⟨0, line ++ userFields u, ret⟩ := by
  obtain ⟨h1, h2, h3, h4, h5, h6, h7, h8, h9, h10⟩ := h
  unfold ProcessUserGetters userFields
  simp only [h1, h2, h3, h4, h5, h6, h7, h8, h9, h10, Bool.false_eq_true, if_false]
  simp only [userFields, appres, List.append_assoc, List.nil_append]

theorem SUCCEEDED_of_not_FAILED {hr : Int} (h : FAILED hr = false) : SUCCEEDED hr = true := by
  unfold FAILED at h
  unfold SUCCEEDED
  simp only [decide_eq_false_iff_not, not_lt] at h
  simpa using h

theorem fmtDec_length (k : Nat) (h : k < 10 ^ 10) : (fmtDec k).length ≤ 10 := by
  unfold fmtDec
  rw [List.length_map]
  exact Nat.toDigitsCore_length 10 (by decide) (k + 1) k 10 h (by decide)

/-- The final line of a listing has at most 50 characters: it fits every
array it goes through. -/
theorem allOfThem_fits (k : Nat) (b : Buffer) : overrun b (allOfThem k) = [] := by
  apply overrun_of_lt
  have h1 : (lit "210 OK That's all folks, all ").length = 29 := by decide
  have h2 : (lit " of them!\n").length = 10 := by decide
  have h3 : (fmtInt32 k).length ≤ 11 := by
    unfold fmtInt32
    split_ifs
    · have := fmtDec_length (k % 4294967296) (by omega)
      omega
    · have := fmtDec_length (4294967296 - k % 4294967296) (by omega)
      simp only [List.length_cons]
      omega
  have hb : 255 ≤ b.size := by cases b <;> decide
  unfold allOfThem
  simp only [List.length_append, h1, h2]
  omega

/-- The body of the loop of `ListObjectsWin` on an element whose calls all
succeed: the line of the element, a success code, `ret` left alone. -/
theorem listOneWin_okFor (expand : Bool) (o : ListedObject) (ret : List Nat)
    (h : o.okFor expand) :
    ∃ hr, FAILED hr = false ∧ listOneWin expand o ret = ⟨hr, winLine expand o, ret⟩ := by
  cases expand
  · obtain ⟨h1, h2, h3⟩ := h
    refine ⟨o.name.1, h3, ?_⟩
    unfold listOneWin
    simp only [h1, h2, h3, Bool.false_eq_true, if_false, winLine, winObjectLine]
  · obtain ⟨h1, h2⟩ := h
    have h0 : FAILED 0 = false := by decide
    refine ⟨0, h0, ?_⟩
    unfold listOneWin
    rw [ProcessUserGetters_ok o.user _ ret h2]
    simp only [h1, h0, if_true, Bool.false_eq_true, if_false, winLine, winUserLine]

theorem listBatchWin_okFor (expand : Bool) (objs : List ListedObject) :
    ∀ acc : ListResult, (∀ o ∈ objs, o.okFor expand) →
    ∃ hr1, (SUCCEEDED acc.hr = true → SUCCEEDED hr1 = true) ∧
      listBatchWin expand objs acc =
        Except.ok ⟨hr1, acc.ret, acc.lines ++ objs.map (winLine expand),
          acc.faults ++ winFaults expand objs⟩ := by
  induction objs with
  | nil => intro acc _; exact ⟨acc.hr, id, by simp [listBatchWin, winFaults]⟩
  | cons o os ih =>
    intro acc hok
    obtain ⟨h0, hf0, hone⟩ := listOneWin_okFor expand o acc.ret (hok o (List.mem_cons_self _ _))
    obtain ⟨h1, hs1, hrest⟩ := ih ⟨h0, acc.ret, acc.lines ++ [winLine expand o],
        acc.faults ++ overrun Buffer.line (winLine expand o) ++
          overrun Buffer.sendBuff (winLine expand o)⟩
      (fun x hx => hok x (List.mem_cons_of_mem _ hx))
    refine ⟨h1, fun _ => hs1 (SUCCEEDED_of_not_FAILED hf0), ?_⟩
    rw [listBatchWin, hone]
    simp only [hf0, Bool.false_eq_true, if_false]
    rw [hrest]
    simp [winFaults]

/-- The enumeration loop of `ListObjectsWin` over batches that end with the
answer `S_FALSE`, when every call on every element succeeds: one line per
element of all the batches, then the final line with their number; the
returned code is a success, and the faults are those of the lines that do
not fit. -/
theorem listLoopWin_okFor (expand : Bool) (last : List ListedObject)
    (pre : List (Int × List ListedObject)) :
    ∀ (k : Nat) (acc : ListResult), (∀ a ∈ pre, a.1 ≠ S_FALSE) →
    (∀ o ∈ batchElements (pre ++ [(S_FALSE, last)]), o.okFor expand) →
    ∃ hr, SUCCEEDED hr = true ∧
      listLoopWin expand (pre ++ [(S_FALSE, last)]) k acc =
        some ⟨hr, acc.ret,
          acc.lines ++ (batchElements (pre ++ [(S_FALSE, last)])).map (winLine expand) ++
            [allOfThem (k + (batchElements (pre ++ [(S_FALSE, last)])).length)],
          acc.faults ++ winFaults expand (batchElements (pre ++ [(S_FALSE, last)]))⟩ := by
  induction pre with
  | nil =>
    intro k acc _ hok
    have hlast : ∀ o ∈ last, o.okFor expand := fun o ho => hok o (by simp [batchElements, ho])
    obtain ⟨h1, hs1, hb⟩ := listBatchWin_okFor expand last
      ⟨S_FALSE, acc.ret, acc.lines, acc.faults⟩ hlast
    refine ⟨h1, hs1 (show SUCCEEDED S_FALSE = true by decide), ?_⟩
    simp only [List.nil_append, listLoopWin, hb, if_true, batchElements, List.map_cons,
      List.map_nil, List.flatten_cons, List.flatten_nil, List.append_nil, allOfThem_fits]
  | cons a pre ih =>
    intro k acc hne hok
    obtain ⟨hr0, objs⟩ := a
    have hne0 : hr0 ≠ S_FALSE := hne (hr0, objs) (List.mem_cons_self _ _)
    have hobjs : ∀ o ∈ objs, o.okFor expand := fun o ho => hok o (by simp [batchElements, ho])
    obtain ⟨h1, _, hb⟩ := listBatchWin_okFor expand objs
      ⟨hr0, acc.ret, acc.lines, acc.faults⟩ hobjs
    obtain ⟨hr, hs, hloop⟩ := ih (k + objs.length)
      ⟨h1, acc.ret, acc.lines ++ objs.map (winLine expand), acc.faults ++ winFaults expand objs⟩
      (fun x hx => hne x (List.mem_cons_of_mem _ hx))
      (fun o ho => hok o (by
        simp only [batchElements, List.cons_append, List.map_cons, List.flatten_cons,
          List.mem_append] at ho ⊢
        exact Or.inr ho))
    refine ⟨hr, hs, ?_⟩
    rw [List.cons_append, listLoopWin, hb]
    simp only [hne0, if_false]
    rw [hloop]
    simp [batchElements, winFaults, Nat.add_assoc]

/-- The function `ListObjectsWin` with the kind `users` or `groups`, when the
setup calls and every call on every element succeed and the batches end with
the answer `S_FALSE`: one line per element, in order, then the final line
with their number; the faults are those of the lines that do not fit
`TCHAR line[255]` and the buffer of `send_data`. -/
theorem ListObjectsWin_okFor (C : WinContainer) (type ret : List Nat) (expand : Bool)
    (htype : type = lit "users" ∨ type = lit "groups")
    (hsetup : FAILED C.getObject = false ∧ FAILED C.buildVarArray = false ∧
      FAILED C.putFilter = false ∧ FAILED C.buildEnumerator = false)
    (hend : endsWithSFalse C.answers)
    (hok : ∀ o ∈ batchElements C.answers, o.okFor expand) :
    ∃ hr, SUCCEEDED hr = true ∧
      ListObjectsWin C type expand ret =
        some ⟨hr, ret, (batchElements C.answers).map (winLine expand) ++
          [allOfThem (batchElements C.answers).length],
          winFaults expand (batchElements C.answers)⟩ := by
  obtain ⟨h1, h2, h3, h4⟩ := hsetup
  obtain ⟨pre, last, hans, hne⟩ := hend
  rw [hans] at hok ⊢
  obtain ⟨hr, hs, hloop⟩ := listLoopWin_okFor expand last pre 0
    ⟨C.buildEnumerator, ret, [], []⟩ hne hok
  refine ⟨hr, hs, ?_⟩
  unfold ListObjectsWin
  simp only [h1, h2, h3, h4, Bool.false_eq_true, if_false, htype, if_true, hans]
  rw [hloop]
  simp

/-- Lines shorter than 255 characters give no fault. -/
theorem winFaults_of_fit (expand : Bool) (objs : List ListedObject)
    (h : ∀ o ∈ objs, (winLine expand o).length < 255) : winFaults expand objs = [] := by
  unfold winFaults
  rw [List.flatten_eq_nil_iff]
  intro l hl
  obtain ⟨o, ho, rfl⟩ := List.mem_map.mp hl
  have h1 : overrun Buffer.line (winLine expand o) = [] := overrun_of_lt (h o ho)
  have h2 : overrun Buffer.sendBuff (winLine expand o) = [] := overrun_of_lt (h o ho)
  rw [h1, h2]
  rfl

/-- The function `ListObjectsLdap` on a search whose setup calls succeed and
whose `GetFirstRow` reports that there is no row: the line `210-Data follows`
and the final line with the count 0. -/
theorem ListObjectsLdap_no_rows (D : Directory) (S : LdapSearch) (type ret : List Nat)
    (expand : Bool) (dtype : Nat) (htype : ldapType type = some dtype)
    (hsetup : FAILED S.openObject = false ∧ FAILED S.rootDSE = false ∧
      FAILED S.namingContext.1 = false)
    (hfirst : S.firstRow = S_ADS_NOMORE_ROWS) :
    ∃ r : ListResult, ListObjectsLdap D S type expand ret = some r ∧
      r.hr = S_ADS_NOMORE_ROWS ∧ r.lines = [lit "210-Data follows\n", allOfThem 0] := by
  obtain ⟨h1, h2, h3⟩ := hsetup
  have hf : FAILED S_ADS_NOMORE_ROWS = false := by decide
  have hloop : ∀ (base : List Nat) (acc : ListResult),
      listLoopLdap D dtype expand base S.rows S_ADS_NOMORE_ROWS 0 acc =
        some (sendLdap ⟨S_ADS_NOMORE_ROWS, acc.ret, acc.lines, acc.faults⟩ (allOfThem 0)) := by
    intro base acc
    cases S.rows <;> simp [listLoopLdap]
  unfold ListObjectsLdap
  simp only [h1, h2, h3, htype, hfirst, hf, Bool.false_eq_true, if_false]
  rw [hloop]
  exact ⟨_, rfl, rfl, rfl⟩

/-- The verb chain on `LUSERS` with two operands: one call of
`ListObjectsWrap` for `users`. -/
theorem dispatch_LUSERS (env : Env) (hist : List Event) (par : List (List Nat))
    (h : par.getD 0 [] = lit "LUSERS") :
    dispatch env hist par 2 =
      callSock env hist false [0, 1, 2]
        (ProviderCall.ListObjectsWrap (par.getD 1 []) (lit "users")
          (decide (par.getD 2 [] = lit "1"))) := by
  unfold dispatch
  simp only [h, if_true, ne_eq, not_true_eq_false, if_false]

/-- One turn of the loop on the command `LUSERS <path>&1` when the listing
returns a success code: the lines of the listing and nothing else; the
faults are those of the input line and of the listing. -/
theorem sessionStep_LUSERS (env : Env) (s : Session) (n : Int) (lnBuff path : List Nat)
    (hn : 0 < n) (hauth : s.authenticated = true) (hlive : s.exited = false)
    (hdec : Decode (commandLine n lnBuff) MAXARGS = ⟨2, [lit "LUSERS", path, lit "1"]⟩)
    (r : ProviderResult)
    (hr : env.provider (s.trace ++ [Event.decode (commandLine n lnBuff)])
      (ProviderCall.ListObjectsWrap path (lit "users") true) = r)
    (hs : SUCCEEDED r.hr = true) (hreads : r.reads = []) :
    (sessionStep env s n lnBuff).trace =
        s.trace ++ [Event.decode (commandLine n lnBuff),
          Event.call (ProviderCall.ListObjectsWrap path (lit "users") true)] ++
          r.lines.map Event.send ∧
      (sessionStep env s n lnBuff).exited = false ∧
      (sessionStep env s n lnBuff).done = false ∧
      (sessionStep env s n lnBuff).faults = s.faults ++ inputFaults n lnBuff ++ r.faults := by
  have hb := loopBody_authed env s n lnBuff hn hauth _ rfl
  rw [hdec] at hb
  have hp0 : (storePars s.par [lit "LUSERS", path, lit "1"]).getD 0 [] = lit "LUSERS" := rfl
  have hp1 : (storePars s.par [lit "LUSERS", path, lit "1"]).getD 1 [] = path := rfl
  have hp2 : (storePars s.par [lit "LUSERS", path, lit "1"]).getD 2 [] = lit "1" := rfl
  simp only at hb
  rw [dispatch_LUSERS env _ _ hp0, hp1, hp2] at hb
  simp only [decide_True, callSock, hr, hreads] at hb
  have hu : unsetSlots (max s.stored [lit "LUSERS", path, lit "1"].length) ([0, 1, 2] ++ []) =
      [] := by
    have h3 : 3 ≤ max s.stored [lit "LUSERS", path, lit "1"].length := le_max_right _ _
    simp only [unsetSlots, List.append_nil, List.filter_cons, List.filter_nil]
    rw [if_neg (by simp), if_neg (by simp), if_neg (by simp)]
    rfl
  rw [hu] at hb
  simp [sessionStep, hlive, hb, respond, respondFaults, hs]

/-- C11, as stated, fails. On the flat container `WinNT://D` with the two
users `a` and `b` (delivered in two batches) the command `LUSERS WinNT://D&1`
yields the two `210-` lines followed by the terminal line
`210 OK That's all folks, all 2 of them!`, which is not of the form
`210 2 OK ...`; and on a hierarchical reference with no user at all it yields
one line beginning `210-` (`210-Data follows`) before the terminal line. -/
theorem LUSERS_terminal_line_form :
    (sessionStep listEnv authedSession 19 (lit "LUSERS&WinNT://D&1\n")).trace.drop 4 =
        [Event.send (lit
            "210-name&a&up&WinNT://D/a&hdir&&fn&&pf&&ls&&hdr&&dis&0&ccp&1&pexp&0&\n"),
          Event.send (lit
            "210-name&b&up&WinNT://D/b&hdir&&fn&&pf&&ls&&hdr&&dis&0&ccp&1&pexp&0&\n"),
          Event.send (lit "210 OK That's all folks, all 2 of them!\n")] ∧
      ¬ (lit "210 2 OK" <+: lit "210 OK That's all folks, all 2 of them!\n") ∧
      (sessionStep listEnv authedSession 21 (lit "LUSERS&LDAP://DC=d&1\n")).trace.drop 4 =
        [Event.send (lit "210-Data follows\n"),
          Event.send (lit "210 OK That's all folks, all 0 of them!\n")] := by
  decide

/-- C11, amended. The command `LUSERS <container>&1` on an authenticated
session, with every backend call succeeding.

On a flat (`WinNT:`) reference, for every way the backend splits the users
into batches (the answers of `ADsEnumerateNext`, ended by `S_FALSE`): the
faults of the turn are those of the input line and one pair for each user
whose line has 255 characters or more; on a turn without fault the session
sends exactly one line beginning `210-` per user, in order, followed by the
terminal line `210 OK That's all folks, all N of them!` with `N` the number
of users, and nothing else.

On a hierarchical reference whose search finds no user: on a turn without
fault the session sends the line `210-Data follows` and the terminal line
with the count 0. (For each row found the code calls `FreeADsMem` on an
array of the stack, so no turn with a row is without fault.) -/
theorem LUSERS_listing (pw : List Nat) (errText : Int → List Nat) (L : ListBackend)
    (other : List Event → ProviderCall → ProviderResult) (errTail : List Nat) (s : Session)
    (n : Int) (lnBuff path : List Nat) (hn : 0 < n) (hauth : s.authenticated = true)
    (hlive : s.exited = false)
    (hdec : Decode (commandLine n lnBuff) MAXARGS = ⟨2, [lit "LUSERS", path, lit "1"]⟩) :
    (isFlat path = true →
      ∀ (pre : List (Int × List ListedObject)) (last : List ListedObject),
        (L.win path).answers = pre ++ [(S_FALSE, last)] →
        (FAILED (L.win path).getObject = false ∧ FAILED (L.win path).buildVarArray = false ∧
          FAILED (L.win path).putFilter = false ∧
          FAILED (L.win path).buildEnumerator = false) →
        (∀ a ∈ pre, a.1 ≠ S_FALSE) → (∀ a ∈ pre, ∀ o ∈ a.2, o.okUser) →
        (∀ o ∈ last, o.okUser) →
        (sessionStep ⟨pw, errText, listProvider L other, errTail⟩ s n lnBuff).faults =
            s.faults ++ inputFaults n lnBuff ++
              winFaults true ((pre.map Prod.snd).flatten ++ last) ∧
          ((∀ o ∈ (pre.map Prod.snd).flatten ++ last, (winUserLine o).length < 255) →
            winFaults true ((pre.map Prod.snd).flatten ++ last) = []) ∧
          ((sessionStep ⟨pw, errText, listProvider L other, errTail⟩ s n lnBuff).faults =
              s.faults →
            (sessionStep ⟨pw, errText, listProvider L other, errTail⟩ s n lnBuff).trace =
              s.trace ++ [Event.decode (commandLine n lnBuff),
                Event.call (ProviderCall.ListObjectsWrap path (lit "users") true)] ++
                (((pre.map Prod.snd).flatten ++ last).map winUserLine ++
                  [allOfThem ((pre.map Prod.snd).flatten ++ last).length]).map Event.send ∧
            ∀ o : ListedObject, lit "210-" <+: winUserLine o)) ∧
    (isFlat path = false →
      (FAILED (L.ldap path).openObject = false ∧ FAILED (L.ldap path).rootDSE = false ∧
        FAILED (L.ldap path).namingContext.1 = false) →
      (L.ldap path).firstRow = S_ADS_NOMORE_ROWS →
      (sessionStep ⟨pw, errText, listProvider L other, errTail⟩ s n lnBuff).faults = s.faults →
      (sessionStep ⟨pw, errText, listProvider L other, errTail⟩ s n lnBuff).trace =
        s.trace ++ [Event.decode (commandLine n lnBuff),
          Event.call (ProviderCall.ListObjectsWrap path (lit "users") true)] ++
          [lit "210-Data follows\n", allOfThem 0].map Event.send) := by
  constructor
  · intro hflat pre last hans hsetup hne hok hlast
    have hall : ∀ o ∈ batchElements (L.win path).answers, o.okFor true := by
      intro o ho
      rw [hans] at ho
      simp only [batchElements, List.map_append, List.map_cons, List.map_nil,
        List.flatten_append, List.flatten_cons, List.flatten_nil, List.append_nil,
        List.mem_append, List.mem_flatten, List.mem_map] at ho
      rcases ho with ⟨l, ⟨a, ha, rfl⟩, hol⟩ | ho
      · exact hok a ha o hol
      · exact hlast o ho
    have hel : batchElements (L.win path).answers = (pre.map Prod.snd).flatten ++ last := by
      rw [hans]
      simp [batchElements]
    obtain ⟨hr, hs, hlist⟩ := ListObjectsWin_okFor (L.win path) (lit "users") [] true
      (Or.inl rfl) hsetup ⟨pre, last, hans, hne⟩ hall
    rw [hel] at hlist
    have hw : ListObjectsWrap L path (lit "users") true [] =
        some ⟨hr, [], ((pre.map Prod.snd).flatten ++ last).map (winLine true) ++
          [allOfThem ((pre.map Prod.snd).flatten ++ last).length],
          winFaults true ((pre.map Prod.snd).flatten ++ last)⟩ := by
      unfold ListObjectsWrap
      rw [if_pos hflat]
      exact hlist
    have hprov : (Env.mk pw errText (listProvider L other) errTail).provider
        (s.trace ++ [Event.decode (commandLine n lnBuff)])
        (ProviderCall.ListObjectsWrap path (lit "users") true) =
        ⟨hr, [], ((pre.map Prod.snd).flatten ++ last).map (winLine true) ++
          [allOfThem ((pre.map Prod.snd).flatten ++ last).length], [],
          winFaults true ((pre.map Prod.snd).flatten ++ last), []⟩ := by
      simp only [listProvider, hw]
    have hstep := sessionStep_LUSERS _ s n lnBuff path hn hauth hlive hdec _ hprov hs rfl
    refine ⟨hstep.2.2.2, fun hfit => winFaults_of_fit true _ hfit, fun _ => ⟨hstep.1, ?_⟩⟩
    intro o
    unfold winUserLine
    rw [List.append_assoc]
    exact List.prefix_append _ _
  · intro hflat hsetup hfirst _
    obtain ⟨r, hlist, hhr, hlines⟩ := ListObjectsLdap_no_rows L.dir (L.ldap path) (lit "users")
      [] true 1 (by decide) hsetup hfirst
    have hw : ListObjectsWrap L path (lit "users") true [] = some r := by
      unfold ListObjectsWrap
      rw [if_neg (by simp [hflat])]
      exact hlist
    have hprov : (Env.mk pw errText (listProvider L other) errTail).provider
        (s.trace ++ [Event.decode (commandLine n lnBuff)])
        (ProviderCall.ListObjectsWrap path (lit "users") true) =
        ⟨r.hr, r.ret, r.lines, [], r.faults, []⟩ := by
      simp only [listProvider, hw]
    have hs : SUCCEEDED r.hr = true := by rw [hhr]; decide
    have hstep := sessionStep_LUSERS _ s n lnBuff path hn hauth hlive hdec _ hprov hs rfl
    rw [hstep.1, hlines]

/-- C11 amended, on the two users of `noRows` (two batches) and on its empty
hierarchical search: both turns are without fault. On `oneRow`, whose
hierarchical search finds one user, the turn has the fault of `FreeADsMem`. -/
theorem LUSERS_listing_witness :
    (sessionStep ⟨lit "secret\n", fun _ => lit "error text", listProvider noRows okProvider, []⟩
        authedSession 19 (lit "LUSERS&WinNT://D&1\n")).faults = authedSession.faults ∧
    (sessionStep ⟨lit "secret\n", fun _ => lit "error text", listProvider noRows okProvider, []⟩
        authedSession 21 (lit "LUSERS&LDAP://DC=d&1\n")).faults = authedSession.faults ∧
    (sessionStep ⟨lit "secret\n", fun _ => lit "error text", listProvider oneRow okProvider, []⟩
        authedSession 21 (lit "LUSERS&LDAP://DC=d&1\n")).faults = [Fault.free] ∧
    ((sessionStep ⟨lit "secret\n", fun _ => lit "error text", listProvider noRows okProvider, []⟩
          authedSession 19 (lit "LUSERS&WinNT://D&1\n")).faults = authedSession.faults →
      (sessionStep ⟨lit "secret\n", fun _ => lit "error text", listProvider noRows okProvider, []⟩
          authedSession 19 (lit "LUSERS&WinNT://D&1\n")).trace =
        authedSession.trace ++ [Event.decode (commandLine 19 (lit "LUSERS&WinNT://D&1\n")),
          Event.call (ProviderCall.ListObjectsWrap (lit "WinNT://D") (lit "users") true)] ++
          ((([(0, [okObject (lit "a")])].map Prod.snd).flatten ++ [okObject (lit "b")]).map
              winUserLine ++
            [allOfThem (([((0 : Int), [okObject (lit "a")])].map Prod.snd).flatten ++
              [okObject (lit "b")]).length]).map Event.send ∧
        ∀ o : ListedObject, lit "210-" <+: winUserLine o) ∧
    ((sessionStep ⟨lit "secret\n", fun _ => lit "error text", listProvider noRows okProvider, []⟩
          authedSession 21 (lit "LUSERS&LDAP://DC=d&1\n")).faults = authedSession.faults →
      (sessionStep ⟨lit "secret\n", fun _ => lit "error text", listProvider noRows okProvider, []⟩
          authedSession 21 (lit "LUSERS&LDAP://DC=d&1\n")).trace =
        authedSession.trace ++ [Event.decode (commandLine 21 (lit "LUSERS&LDAP://DC=d&1\n")),
          Event.call (ProviderCall.ListObjectsWrap (lit "LDAP://DC=d") (lit "users") true)] ++
          [lit "210-Data follows\n", allOfThem 0].map Event.send) :=
  ⟨by decide, by decide, by decide,
    ((LUSERS_listing (lit "secret\n") (fun _ => lit "error text") noRows okProvider []
        authedSession 19 (lit "LUSERS&WinNT://D&1\n") (lit "WinNT://D") (by decide) (by decide)
        (by decide) (by decide)).1 (by decide) [(0, [okObject (lit "a")])]
        [okObject (lit "b")] (by decide) (by decide) (by decide) (by decide) (by decide)).2.2,
    (LUSERS_listing (lit "secret\n") (fun _ => lit "error text") noRows okProvider []
        authedSession 21 (lit "LUSERS&LDAP://DC=d&1\n") (lit "LDAP://DC=d") (by decide)
        (by decide) (by decide) (by decide)).2 (by decide) (by decide) (by decide)⟩

/-- C12, at the failing input. The command `LGROUPS WinNT://D` on a flat
reference gets no response at all: `ListObjectsWin` is handed the type
`group`, knows only `users` and `groups`, writes `Bad args` into `ret` and
returns `S_FALSE`, a success code; with `give_ack` unset the session sends
nothing and waits for the next line. -/
theorem LGROUPS_flat_no_response :
    (sessionStep listEnv authedSession 18 (lit "LGROUPS&WinNT://D\n")).trace =
        authedSession.trace ++
          [Event.decode (lit "LGROUPS&WinNT://D"),
            Event.call (ProviderCall.ListObjectsWrap (lit "WinNT://D") (lit "group") false)] ∧
      ListObjectsWrap twoUsers (lit "WinNT://D") (lit "group") false [] =
        some ⟨S_FALSE, lit "Bad args", [], []⟩ ∧
      (sessionStep listEnv authedSession 18 (lit "LGROUPS&WinNT://D\n")).exited = false ∧
      (sessionStep listEnv authedSession 18 (lit "LGROUPS&WinNT://D\n")).done = false := by
  decide

/-! ## The flag fields of ALTRUSR -/

theorem flagWord_bits (f pos : Nat) (one : Bool) :
    (if one = true then (f ||| 2 ^ pos) ^^^ 2 ^ pos else f ||| 2 ^ pos).testBit pos = !one ∧
      ∀ k, k ≠ pos →
        (if one = true then (f ||| 2 ^ pos) ^^^ 2 ^ pos else f ||| 2 ^ pos).testBit k =
          f.testBit k := by
  cases one
  · refine ⟨?_, fun k hk => ?_⟩
    · simp [Nat.testBit_or, Nat.testBit_two_pow]
    · simp [Nat.testBit_or, Nat.testBit_two_pow, Ne.symm hk]
  · refine ⟨?_, fun k hk => ?_⟩
    · simp [Nat.testBit_xor, Nat.testBit_or, Nat.testBit_two_pow]
    · simp [Nat.testBit_xor, Nat.testBit_or, Nat.testBit_two_pow, Ne.symm hk]

theorem flagWord_indep (f g pos : Nat) (one : Bool)
    (h : ∀ k, k ≠ pos → g.testBit k = f.testBit k) :
    (if one = true then (g ||| 2 ^ pos) ^^^ 2 ^ pos else g ||| 2 ^ pos) =
      (if one = true then (f ||| 2 ^ pos) ^^^ 2 ^ pos else f ||| 2 ^ pos) := by
  apply Nat.eq_of_testBit_eq
  intro k
  by_cases hk : k = pos
  · subst hk
    rw [(flagWord_bits g k one).1, (flagWord_bits f k one).1]
  · rw [(flagWord_bits g pos one).2 k hk, (flagWord_bits f pos one).2 k hk, h k hk]

theorem invoke_of_ok (B : UserBackend) (c : UserCall) (ln : Nat) (ret : List Nat)
    (calls : List UserCall) (h : FAILED (B.hr calls c) = false) :
    invoke B c ln ret calls = Flow.next ret (calls ++ [c]) := by
  unfold invoke BAIL_ON_FAILURE
  rw [h]
  rfl

theorem alterField_pexp (B : UserBackend) (p : List (List Nat)) (i : Nat) (ret : List Nat)
    (calls : List UserCall) (htag : p.getD i [] = lit "pexp")
    (hget : FAILED (B.hr calls UserCall.Get_UserFlags) = false) :
    alterField B p i ret calls =
      invoke B (UserCall.Put_UserFlags
        (if decide (p.getD (i + 1) [] = lit "1") = true then
          (B.userFlags calls ||| 2 ^ 16) ^^^ 2 ^ 16 else B.userFlags calls ||| 2 ^ 16))
        713 ret (calls ++ [UserCall.Get_UserFlags]) := by
  unfold alterField
  simp +decide only [htag, if_false, if_true]
  rw [invoke_of_ok B _ _ _ _ hget]
  simp only [ADS_UF_DONT_EXPIRE_PASSWD, decide_eq_true_eq]
  rfl

theorem alterField_ccp (B : UserBackend) (p : List (List Nat)) (i : Nat) (ret : List Nat)
    (calls : List UserCall) (htag : p.getD i [] = lit "ccp")
    (hget : FAILED (B.hr calls UserCall.Get_UserFlags) = false) :
    alterField B p i ret calls =
      invoke B (UserCall.Put_UserFlags
        (if decide (p.getD (i + 1) [] = lit "1") = true then
          (B.userFlags calls ||| 2 ^ 6) ^^^ 2 ^ 6 else B.userFlags calls ||| 2 ^ 6))
        720 ret (calls ++ [UserCall.Get_UserFlags]) := by
  unfold alterField
  simp +decide only [htag, if_false, if_true]
  rw [invoke_of_ok B _ _ _ _ hget]
  simp only [UF_PASSWD_CANT_CHANGE, decide_eq_true_eq]
  rfl

/-- C25. In `AlterUser` the fields `pexp` and `ccp` write the bit from the
value: with `f` the flag word read by `Get(L"UserFlags")` and `v` the value
`p[i+1]`, the word handed to `Put(L"UserFlags")` has the bit
`ADS_UF_DONT_EXPIRE_PASSWD` (bit 16) for `pexp`, `UF_PASSWD_CANT_CHANGE`
(bit 6) for `ccp`, clear when `v` is `1` and set otherwise, every other bit
is the bit of `f`, and the outcome is the same for every flag word that
differs from `f` in that bit only. -/
theorem ALTRUSR_flag_fields (B : UserBackend) (p : List (List Nat)) (i : Nat)
    (ret : List Nat) (calls : List UserCall) (f : Nat) (v : List Nat)
    (hget : FAILED (B.hr calls UserCall.Get_UserFlags) = false)
    (hf : B.userFlags calls = f) (hv : p.getD (i + 1) [] = v) :
    ADS_UF_DONT_EXPIRE_PASSWD = 2 ^ 16 ∧ UF_PASSWD_CANT_CHANGE = 2 ^ 6 ∧
      (p.getD i [] = lit "pexp" → ∃ w : Nat,
        alterField B p i ret calls =
            invoke B (UserCall.Put_UserFlags w) 713 ret (calls ++ [UserCall.Get_UserFlags]) ∧
          w.testBit 16 = !decide (v = lit "1") ∧
          (∀ k, k ≠ 16 → w.testBit k = f.testBit k) ∧
          ∀ B2 : UserBackend, B2.hr = B.hr →
            (∀ k, k ≠ 16 → (B2.userFlags calls).testBit k = f.testBit k) →
            alterField B2 p i ret calls = alterField B p i ret calls) ∧
      (p.getD i [] = lit "ccp" → ∃ w : Nat,
        alterField B p i ret calls =
            invoke B (UserCall.Put_UserFlags w) 720 ret (calls ++ [UserCall.Get_UserFlags]) ∧
          w.testBit 6 = !decide (v = lit "1") ∧
          (∀ k, k ≠ 6 → w.testBit k = f.testBit k) ∧
          ∀ B2 : UserBackend, B2.hr = B.hr →
            (∀ k, k ≠ 6 → (B2.userFlags calls).testBit k = f.testBit k) →
            alterField B2 p i ret calls = alterField B p i ret calls) := by
  subst hf hv
  refine ⟨by decide, by decide, fun htag => ?_, fun htag => ?_⟩
  · refine ⟨_, alterField_pexp B p i ret calls htag hget, (flagWord_bits _ 16 _).1,
      (flagWord_bits _ 16 _).2, fun B2 hhr hbits => ?_⟩
    have hget2 : FAILED (B2.hr calls UserCall.Get_UserFlags) = false := by rw [hhr]; exact hget
    rw [alterField_pexp B p i ret calls htag hget, alterField_pexp B2 p i ret calls htag hget2,
      flagWord_indep _ _ 16 _ hbits]
    unfold invoke
    rw [hhr]
  · refine ⟨_, alterField_ccp B p i ret calls htag hget, (flagWord_bits _ 6 _).1,
      (flagWord_bits _ 6 _).2, fun B2 hhr hbits => ?_⟩
    have hget2 : FAILED (B2.hr calls UserCall.Get_UserFlags) = false := by rw [hhr]; exact hget
    rw [alterField_ccp B p i ret calls htag hget, alterField_ccp B2 p i ret calls htag hget2,
      flagWord_indep _ _ 6 _ hbits]
    unfold invoke
    rw [hhr]

/-- C25 on the flag word `0x10041` (both bits set): `pexp&1` writes `0x41`,
`ccp&0` writes `0x10041`. -/
theorem ALTRUSR_flag_fields_witness :
    (AlterUser (flagsBackend 65601) [lit "ALTRUSR", lit "WinNT://D/u", lit "pexp", lit "1"] 3
        []).calls =
      [UserCall.ADsGetObject (lit "WinNT://D/u"), UserCall.Get_UserFlags,
        UserCall.Put_UserFlags 65, UserCall.SetInfo] ∧
    (AlterUser (flagsBackend 65601) [lit "ALTRUSR", lit "WinNT://D/u", lit "ccp", lit "0"] 3
        []).calls =
      [UserCall.ADsGetObject (lit "WinNT://D/u"), UserCall.Get_UserFlags,
        UserCall.Put_UserFlags 65601, UserCall.SetInfo] ∧
    (∃ w : Nat,
      alterField (flagsBackend 65601) [lit "ALTRUSR", lit "WinNT://D/u", lit "pexp", lit "1"] 2
          [] [UserCall.ADsGetObject (lit "WinNT://D/u")] =
        invoke (flagsBackend 65601) (UserCall.Put_UserFlags w) 713 []
          ([UserCall.ADsGetObject (lit "WinNT://D/u")] ++ [UserCall.Get_UserFlags]) ∧
        w.testBit 16 = !decide (lit "1" = lit "1") ∧
        (∀ k, k ≠ 16 → w.testBit k = (65601 : Nat).testBit k) ∧
        ∀ B2 : UserBackend, B2.hr = (flagsBackend 65601).hr →
          (∀ k, k ≠ 16 →
            (B2.userFlags [UserCall.ADsGetObject (lit "WinNT://D/u")]).testBit k =
              (65601 : Nat).testBit k) →
          alterField B2 [lit "ALTRUSR", lit "WinNT://D/u", lit "pexp", lit "1"] 2 []
              [UserCall.ADsGetObject (lit "WinNT://D/u")] =
            alterField (flagsBackend 65601)
              [lit "ALTRUSR", lit "WinNT://D/u", lit "pexp", lit "1"] 2 []
              [UserCall.ADsGetObject (lit "WinNT://D/u")]) :=
  ⟨by decide, by decide,
    (ALTRUSR_flag_fields (flagsBackend 65601)
      [lit "ALTRUSR", lit "WinNT://D/u", lit "pexp", lit "1"] 2 []
      [UserCall.ADsGetObject (lit "WinNT://D/u")] 65601 (lit "1") (by decide) rfl
      (by decide)).2.2.1 (by decide)⟩

/-! ## Batches of the flat listing -/

theorem allOfThem_small {k : Nat} (h : k < 2147483648) :
    allOfThem k = lit "210 OK That's all folks, all " ++ fmtDec k ++ lit " of them!\n" := by
  unfold allOfThem fmtInt32
  have h1 : k % 4294967296 = k := Nat.mod_eq_of_lt (by omega)
  rw [h1, if_pos h]

theorem winLine_status (expand : Bool) (o : ListedObject) :
    (lit "210-").isPrefixOf (winLine expand o) = true := by
  rw [List.isPrefixOf_iff_prefix]
  cases expand
  · simp only [winLine, winObjectLine, Bool.false_eq_true, if_false, List.append_assoc]
    exact List.prefix_append _ _
  · simp only [winLine, winUserLine, if_true, List.append_assoc]
    exact List.prefix_append _ _

theorem allOfThem_status (k : Nat) : (lit "210-").isPrefixOf (allOfThem k) = false := by
  have h : lit "210-" = [50, 49, 48, 45] := by decide
  have h2 : lit "210 OK That's all folks, all " =
      [50, 49, 48, 32] ++ lit "OK That's all folks, all " := by decide
  rw [Bool.eq_false_iff]
  intro hp
  rw [List.isPrefixOf_iff_prefix] at hp
  unfold allOfThem at hp
  rw [h, h2] at hp
  simp only [List.append_assoc, List.cons_append, List.nil_append, List.cons_prefix_cons]
    at hp
  exact absurd hp.2.2.2.1 (by decide)

theorem countP_status (expand : Bool) (objs : List ListedObject) (k : Nat) :
    (objs.map (winLine expand) ++ [allOfThem k]).countP
      (fun l => (lit "210-").isPrefixOf l) = objs.length := by
  rw [List.countP_append, List.countP_map]
  have h1 : objs.countP ((fun l => (lit "210-").isPrefixOf l) ∘ winLine expand) =
      objs.length := by
    rw [List.countP_eq_length]
    intro o _
    exact winLine_status expand o
  rw [h1]
  simp [List.countP_cons, allOfThem_status]

/-- The flat listing on elements whose lines all fit. In `ListObjectsWin`
with the kind `users` or `groups`, when the setup calls and every call on
every element succeed, the batches of `ADsEnumerateNext` are ended by
`S_FALSE` (whatever their sizes) and the line of every element is shorter
than 255 characters, the call has no fault and the lines sent are one line
beginning `210-` per element of all the batches, in order, followed by
`210 OK That's all folks, all <count> of them!` with `<count>` the total
number of elements (below 2^31, the range of `%d`); the number of lines
beginning `210-` is that total, and every other split of the same elements
into batches gives the same lines. -/
theorem ListObjectsWin_fitting_lines (C : WinContainer) (type ret : List Nat) (expand : Bool)
    (htype : type = lit "users" ∨ type = lit "groups")
    (hsetup : FAILED C.getObject = false ∧ FAILED C.buildVarArray = false ∧
      FAILED C.putFilter = false ∧ FAILED C.buildEnumerator = false)
    (hend : endsWithSFalse C.answers)
    (hok : ∀ o ∈ batchElements C.answers, o.okFor expand)
    (hfit : ∀ o ∈ batchElements C.answers, (winLine expand o).length < 255)
    (hN : (batchElements C.answers).length < 2147483648) :
    ∃ r : ListResult, ListObjectsWin C type expand ret = some r ∧ SUCCEEDED r.hr = true ∧
      r.faults = [] ∧
      r.lines = (batchElements C.answers).map (winLine expand) ++
        [lit "210 OK That's all folks, all " ++ fmtDec (batchElements C.answers).length ++
          lit " of them!\n"] ∧
      r.lines.countP (fun l => (lit "210-").isPrefixOf l) = (batchElements C.answers).length ∧
      ∀ C2 : WinContainer,
        (FAILED C2.getObject = false ∧ FAILED C2.buildVarArray = false ∧
          FAILED C2.putFilter = false ∧ FAILED C2.buildEnumerator = false) →
        endsWithSFalse C2.answers → batchElements C2.answers = batchElements C.answers →
        (ListObjectsWin C2 type expand ret).map ListResult.lines = some r.lines := by
  obtain ⟨hr, hs, hlist⟩ := ListObjectsWin_okFor C type ret expand htype hsetup hend hok
  refine ⟨_, hlist, hs, winFaults_of_fit expand _ hfit, ?_, ?_, ?_⟩
  · simp only [allOfThem_small hN]
  · exact countP_status expand _ _
  · intro C2 hsetup2 hend2 hsame
    obtain ⟨hr2, _, hlist2⟩ := ListObjectsWin_okFor C2 type ret expand htype hsetup2 hend2
      (by rw [hsame]; exact hok)
    rw [hlist2, hsame]
    rfl

set_option maxRecDepth 100000 in
/-- C24, at the failing input. The flat listing of groups on a container
that holds one group whose name has 130 characters `A` (one batch, every
call succeeding): the line of the element, `210-up&WinNT://D/<name>&name&<name>`
and the line feed, has 284 characters; the `wcscat` calls write it to
`TCHAR line[255]` and `send_data` converts it into `char buff[255]`, both
past the end of the array (the other locals of `ListObjectsWin`, among them
the counter `dwObjects`, lie on the same stack frame). -/
theorem ListObjectsWin_line_overrun :
    (okObject (List.replicate 130 65)).okFor false ∧
      (winLine false (okObject (List.replicate 130 65))).length = 284 ∧
      (ListObjectsWin (batchContainer [(S_FALSE, [okObject (List.replicate 130 65)])])
          (lit "groups") false []).map (fun r => (r.lines.length, r.faults)) =
        some (2, [Fault.overrun Buffer.line 284, Fault.overrun Buffer.sendBuff 284]) ∧
      Buffer.line.size = 255 ∧ Buffer.sendBuff.size = 255 := by
  decide

/-! ## The bounds of Decode -/

/-- The slots of the caller's array that `DecodeWrites` records are the slots
of the strings `DecodeLoop` stores. -/
theorem DecodeWrites_slots (k : Nat) : ∀ (str : List Nat), str.length ≤ k →
    ∀ (b : Nat) (buff : List Nat) (params : List (List Nat)),
    ∃ m, (DecodeLoop str b buff params).params.length = params.length + m ∧
      (DecodeWrites str b buff.length params.length).filterMap DecodeWrite.slot =
        List.range' params.length m := by
  induction k with
  | zero =>
    intro str hlen b buff params
    have : str = [] := List.length_eq_zero.mp (Nat.le_zero.mp hlen)
    subst this
    exact ⟨1, by simp [DecodeLoop], by simp [DecodeWrites, DecodeWrite.slot]⟩
  | succ k ih =>
    intro str hlen b buff params
    cases str with
    | nil => exact ⟨1, by simp [DecodeLoop], by simp [DecodeWrites, DecodeWrite.slot]⟩
    | cons c rest =>
      have hlenr : rest.length ≤ k := by simpa using hlen
      rw [DecodeLoop.eq_def, DecodeWrites.eq_def]
      simp only
      by_cases hc0 : c = 0
      · simp only [hc0, if_true]
        exact ⟨1, by simp, by simp [DecodeWrite.slot]⟩
      simp only [hc0, if_false]
      by_cases hamp : c = 38
      · simp only [hamp, if_true]
        obtain ⟨m, hm1, hm2⟩ := ih rest hlenr 1 [] (params ++ [cstr buff])
        refine ⟨m + 1, ?_, ?_⟩
        · rw [hm1]; simp; omega
        · simp only [List.length_append, List.length_singleton, List.length_nil] at hm2
          simp only [List.filterMap_cons, DecodeWrite.slot, hm2, List.range'_succ]
      simp only [hamp, if_false]
      by_cases hpct : c = 37
      · simp only [hpct, if_true]
        match rest, hlenr with
        | [], _ => exact ⟨0, by simp, by simp⟩
        | [_], _ => exact ⟨0, by simp, by simp⟩
        | hh :: l :: r2, hlenr =>
          simp only
          cases hx : hexval hh with
          | none => exact ⟨0, by simp, by simp⟩
          | some x =>
            cases hy : hexval l with
            | none => exact ⟨0, by simp, by simp⟩
            | some y =>
              simp only
              by_cases hb : b + 1 > 255
              · simp only [hb, if_true]
                exact ⟨0, by simp, by simp [DecodeWrite.slot]⟩
              · simp only [hb, if_false]
                have hl2 : r2.length ≤ k := by
                  simp only [List.length_cons] at hlenr; omega
                obtain ⟨m, hm1, hm2⟩ := ih r2 hl2 (b + 1) (buff ++ [x * 16 + y]) params
                refine ⟨m, hm1, ?_⟩
                simp only [List.length_append, List.length_singleton] at hm2
                simp only [List.filterMap_cons, DecodeWrite.slot, hm2]
      · simp only [hpct, if_false]
        by_cases hb : b + 1 > 255
        · simp only [hb, if_true]
          exact ⟨0, by simp, by simp [DecodeWrite.slot]⟩
        · simp only [hb, if_false]
          obtain ⟨m, hm1, hm2⟩ := ih rest hlenr (b + 1) (buff ++ [c]) params
          refine ⟨m, hm1, ?_⟩
          simp only [List.length_append, List.length_singleton] at hm2
          simp only [List.filterMap_cons, DecodeWrite.slot, hm2]

set_option maxRecDepth 100000 in
/-- C21, at the failing inputs. `Decode` writes outside both objects and
still reports success: on a line of 255 characters `A` it returns 0 after
writing the terminator to `buff[255]`, one past the 255-element scratch
buffer; on a line of 20 separators `&` it returns 20 after storing into
`params[20]`, one past the caller's array of `MAXARGS` = 20 slots (`maxpars`
is never read). On 256 characters `A` it fails, but only after the write to
`buff[255]`. -/
theorem Decode_writes_out_of_bounds :
    ((Decode (List.replicate 255 65) MAXARGS).ret = 0 ∧
        DecodeWrite.buff 255 ∈ Decode.writes (List.replicate 255 65) MAXARGS ∧
        (DecodeWrite.buff 255).inBounds MAXARGS = false) ∧
      ((Decode (List.replicate 20 38) MAXARGS).ret = 20 ∧
        DecodeWrite.params 20 ∈ Decode.writes (List.replicate 20 38) MAXARGS ∧
        (DecodeWrite.params 20).inBounds MAXARGS = false) ∧
      ((Decode (List.replicate 256 65) MAXARGS).ret = -1 ∧
        DecodeWrite.buff 255 ∈ Decode.writes (List.replicate 256 65) MAXARGS) := by
  decide

/-! ## Pipelined lines -/

/-- The scan of the rest of a line body and its LF, with the part received
earlier in `buff`. -/
theorem scanLine_end (n : Int) (t rest buff : List Nat) (hlf : 10 ∉ t)
    (hlen : ((buff.length + t.length : Nat) : Int) ≤ n - 2) :
    scanLine n (t ++ 10 :: rest) buff = Scan.done (dropCR (buff ++ t) ++ [10]) rest := by
  rw [scanLine_plain n t _ buff hlf (by omega), scanLine]
  simp only [if_true]
  by_cases h0 : (buff ++ t).length = 0
  · have hnil : buff ++ t = [] := List.length_eq_zero.mp h0
    rw [if_pos h0, hnil]
    rfl
  · rw [if_neg h0]
    by_cases hcr : (buff ++ t).getLast? = some 13
    · rw [if_pos hcr, dropCR, if_pos hcr]
    · have hlt : (((buff ++ t).length : Nat) : Int) < n - 1 := by
        simp only [List.length_append]
        omega
      rw [if_neg hcr, if_pos hlt, dropCR, if_neg hcr]

theorem scanLine_more (n : Int) (c buff : List Nat) (hlf : 10 ∉ c)
    (hlen : ((buff.length + c.length : Nat) : Int) ≤ n - 1) :
    scanLine n c buff = Scan.more (buff ++ c) := by
  have h := scanLine_plain n c [] buff hlf hlen
  rw [List.append_nil] at h
  rw [h, scanLine]

/-- Socket calls on which `recvwithtimeout` returns the listed chunks deliver
the bytes of the chunks. -/
theorem socketBytes_chunks : ∀ (chunks : List (List Nat)) (socks : List SockCall),
    socks.map recvwithtimeout = chunks.map RecvResult.data →
    socketBytes socks = chunks.flatten := by
  intro chunks
  induction chunks with
  | nil =>
    intro socks h
    cases socks with
    | nil => rfl
    | cons sc ss => simp at h
  | cons c cs ih =>
    intro socks h
    cases socks with
    | nil => simp at h
    | cons sc ss =>
      simp only [List.map_cons, List.cons.injEq] at h
      have ih1 := ih ss h.2
      unfold socketBytes at ih1 ⊢
      simp only [List.map_cons, List.flatten_cons, ih1, h.1]

/-- The refill loop of `rf_gets` on socket calls that return chunks holding
the rest `t` of the current line, its LF and what follows. -/
theorem rf_getsFill_line (n : Int) : ∀ (chunks : List (List Nat)) (socks : List SockCall)
    (buff t rest : List Nat),
    socks.map recvwithtimeout = chunks.map RecvResult.data →
    (∀ c ∈ chunks, c ≠ []) → 10 ∉ t → ((buff.length + t.length : Nat) : Int) ≤ n - 2 →
    chunks.flatten = t ++ 10 :: rest →
    ∃ (pending1 : List Nat) (chunks1 : List (List Nat)) (socks1 : List SockCall),
      rf_getsFill n socks buff =
          some ⟨((dropCR (buff ++ t)).length : Int) + 1,
            some (cstr (dropCR (buff ++ t) ++ [10])), pending1, socks1⟩ ∧
        socks1.map recvwithtimeout = chunks1.map RecvResult.data ∧
        pending1 ++ chunks1.flatten = rest ∧ ∀ c ∈ chunks1, c ≠ [] := by
  intro chunks
  induction chunks with
  | nil =>
    intro socks buff t rest _ _ _ _ hflat
    simp at hflat
  | cons c cs ih =>
    intro socks buff t rest hmap hne hlf hlen hflat
    cases socks with
    | nil => simp at hmap
    | cons sc ss =>
      simp only [List.map_cons, List.cons.injEq] at hmap
      obtain ⟨hsc, hss⟩ := hmap
      have hc : c ≠ [] := hne c (List.mem_cons_self _ _)
      have hcs : ∀ x ∈ cs, x ≠ [] := fun x hx => hne x (List.mem_cons_of_mem _ hx)
      have hstep : ∀ a1 : List Nat, t = c ++ a1 → cs.flatten = a1 ++ 10 :: rest →
          ∃ (pending1 : List Nat) (chunks1 : List (List Nat)) (socks1 : List SockCall),
            rf_getsFill n (sc :: ss) buff =
                some ⟨((dropCR (buff ++ t)).length : Int) + 1,
                  some (cstr (dropCR (buff ++ t) ++ [10])), pending1, socks1⟩ ∧
              socks1.map recvwithtimeout = chunks1.map RecvResult.data ∧
              pending1 ++ chunks1.flatten = rest ∧ ∀ c ∈ chunks1, c ≠ [] := by
        intro a1 ht hrest
        subst ht
        have hlfc : 10 ∉ c := fun h => hlf (List.mem_append_left _ h)
        have hlfa : 10 ∉ a1 := fun h => hlf (List.mem_append_right _ h)
        simp only [List.length_append] at hlen
        have hmore := scanLine_more n c buff hlfc (by omega)
        obtain ⟨p1, ch1, so1, hfill, hso1, hp1, hch1⟩ := ih ss (buff ++ c) a1 rest hss hcs hlfa
          (by simp only [List.length_append]; omega) hrest
        refine ⟨p1, ch1, so1, ?_, hso1, hp1, hch1⟩
        rw [rf_getsFill.eq_def]
        simp only [hsc, hc, if_false]
        rw [hmore]
        simp only
        rw [hfill, List.append_assoc]
      rw [List.flatten_cons] at hflat
      rcases List.append_eq_append_iff.mp hflat with ⟨a1, ht, hrest⟩ | ⟨c1, hc1, hrest⟩
      · exact hstep a1 ht hrest
      · cases c1 with
        | nil =>
          rw [List.append_nil] at hc1
          rw [List.nil_append] at hrest
          exact hstep [] (by rw [hc1, List.append_nil]) (by rw [← hrest, List.nil_append])
        | cons x c2 =>
          rw [List.cons_append] at hrest
          obtain ⟨hx, hrest2⟩ := List.cons.inj hrest
          subst hx
          refine ⟨c2, cs, ss, ?_, hss, hrest2.symm, hcs⟩
          rw [rf_getsFill.eq_def]
          simp only [hsc, hc, if_false]
          rw [hc1, scanLine_end n t c2 buff hlf hlen]
          simp

/-- One call of `rf_gets` on input that starts with the line body `s` and its
LF, however the input is split between `fb` and the chunks to come. -/
theorem rf_gets_line (n : Int) (chunks : List (List Nat)) (socks : List SockCall)
    (pending s rest : List Nat)
    (hmap : socks.map recvwithtimeout = chunks.map RecvResult.data)
    (hne : ∀ c ∈ chunks, c ≠ []) (hlf : 10 ∉ s) (hlen : (s.length : Int) ≤ n - 2)
    (hflat : pending ++ chunks.flatten = s ++ 10 :: rest) :
    ∃ (pending1 : List Nat) (chunks1 : List (List Nat)) (socks1 : List SockCall),
      rf_gets n pending socks =
          some ⟨((dropCR s).length : Int) + 1, some (cstr (dropCR s ++ [10])), pending1,
            socks1⟩ ∧
        socks1.map recvwithtimeout = chunks1.map RecvResult.data ∧
        pending1 ++ chunks1.flatten = rest ∧ ∀ c ∈ chunks1, c ≠ [] := by
  have hstep : ∀ a1 : List Nat, s = pending ++ a1 → chunks.flatten = a1 ++ 10 :: rest →
      ∃ (pending1 : List Nat) (chunks1 : List (List Nat)) (socks1 : List SockCall),
        rf_gets n pending socks =
            some ⟨((dropCR s).length : Int) + 1, some (cstr (dropCR s ++ [10])), pending1,
              socks1⟩ ∧
          socks1.map recvwithtimeout = chunks1.map RecvResult.data ∧
          pending1 ++ chunks1.flatten = rest ∧ ∀ c ∈ chunks1, c ≠ [] := by
    intro a1 hs hrest
    subst hs
    have hlfp : 10 ∉ pending := fun h => hlf (List.mem_append_left _ h)
    have hlfa : 10 ∉ a1 := fun h => hlf (List.mem_append_right _ h)
    simp only [List.length_append, Nat.cast_add] at hlen
    have hmore := scanLine_more n pending [] hlfp
      (by simp only [List.length_nil, Nat.zero_add]; omega)
    rw [List.nil_append] at hmore
    obtain ⟨p1, ch1, so1, hfill, hso1, hp1, hch1⟩ := rf_getsFill_line n chunks socks pending a1
      rest hmap hne hlfa (by push_cast; omega) hrest
    refine ⟨p1, ch1, so1, ?_, hso1, hp1, hch1⟩
    unfold rf_gets
    rw [hmore]
    exact hfill
  rcases List.append_eq_append_iff.mp hflat with ⟨a1, hs, hrest⟩ | ⟨p1, hp1, hrest⟩
  · exact hstep a1 hs hrest
  · cases p1 with
    | nil =>
      rw [List.append_nil] at hp1
      rw [List.nil_append] at hrest
      exact hstep [] (by rw [hp1, List.append_nil]) (by rw [← hrest, List.nil_append])
    | cons x p2 =>
      rw [List.cons_append] at hrest
      obtain ⟨hx, hrest2⟩ := List.cons.inj hrest
      subst hx
      refine ⟨p2, chunks, socks, ?_, hmap, hrest2.symm, hne⟩
      have hscan := scanLine_end n s p2 [] hlf
        (by simp only [List.length_nil, Nat.zero_add]; exact hlen)
      rw [List.nil_append] at hscan
      rw [hp1, rf_gets_of_done _ hscan]
      simp

theorem tails_eq_cons (ls : List (List Nat)) : ls.tails = ls :: ls.tails.tail := by
  cases ls <;> simp [List.tails]

/-- Successive calls of `rf_gets` on a stream of lines, however the stream is
split between `fb` and the chunks to come: one line per call, in order, and
after each call the input left is the stream of the lines after it. -/
theorem rf_getsCalls_lines (n : Int) : ∀ (ls : List (List Nat)) (pending : List Nat)
    (chunks : List (List Nat)) (socks : List SockCall),
    socks.map recvwithtimeout = chunks.map RecvResult.data →
    (∀ s ∈ ls, 10 ∉ s ∧ (s.length : Int) ≤ n - 2) → (∀ c ∈ chunks, c ≠ []) →
    pending ++ chunks.flatten = lineStream ls →
    ∃ gs : List GetsResult,
      rf_getsCalls n ls.length pending socks = some gs ∧
        gs.map (fun g => (g.ret, g.rbuff)) =
          ls.map (fun s => (((dropCR s).length : Int) + 1, some (cstr (dropCR s ++ [10])))) ∧
        gs.map GetsResult.unread = ls.tails.tail.map lineStream := by
  intro ls
  induction ls with
  | nil =>
    intro pending chunks socks _ _ _ _
    exact ⟨[], rfl, rfl, rfl⟩
  | cons s ls ih =>
    intro pending chunks socks hmap hls hne hflat
    have hs := hls s (List.mem_cons_self _ _)
    have hflat1 : pending ++ chunks.flatten = s ++ 10 :: lineStream ls := by
      rw [hflat]
      simp [lineStream]
    obtain ⟨p1, ch1, so1, hget, hso1, hp1, hch1⟩ := rf_gets_line n chunks socks pending s
      (lineStream ls) hmap hne hs.1 hs.2 hflat1
    obtain ⟨gs, hcalls, hlines, hunread⟩ := ih p1 ch1 so1 hso1
      (fun x hx => hls x (List.mem_cons_of_mem _ hx)) hch1 hp1
    refine ⟨(⟨((dropCR s).length : Int) + 1, some (cstr (dropCR s ++ [10])), p1,
      so1⟩ : GetsResult) :: gs, ?_, ?_, ?_⟩
    · rw [List.length_cons, rf_getsCalls, hget]
      simp only
      rw [hcalls]
      rfl
    · rw [List.map_cons, hlines, List.map_cons]
    · rw [List.map_cons, hunread]
      have ht : (s :: ls).tails.tail = ls :: ls.tails.tail := by
        rw [List.tails, List.tail_cons]
        exact tails_eq_cons ls
      rw [ht, List.map_cons]
      simp only [GetsResult.unread, socketBytes_chunks ch1 so1 hso1, hp1]

/-- Socket calls that give the chunks one by one make the successive calls
of `recvwithtimeout` return the chunks. -/
theorem recvwithtimeout_of_all_give {socks : List SockCall} {chunks : List (List Nat)}
    (h : List.Forall₂ SockCall.gives socks chunks) :
    socks.map recvwithtimeout = chunks.map RecvResult.data := by
  induction h with
  | nil => rfl
  | cons hg _ ih => rw [List.map_cons, List.map_cons, recvwithtimeout_of_gives hg, ih]

theorem cstr_dropCR_of_not_mem {s : List Nat} (h0 : 0 ∉ s) :
    cstr (dropCR s ++ [10]) = dropCR s ++ [10] := by
  apply cstr_of_not_mem
  simp only [List.mem_append, List.mem_singleton, not_or]
  refine ⟨fun h => h0 ?_, by decide⟩
  unfold dropCR at h
  split_ifs at h
  · exact List.dropLast_subset _ h
  · exact h

/-- C23, as stated, fails. The stream of the two lines `A\0B\n` and `C\n`
(bodies of 3 and 1 characters, without LF), delivered in one chunk: the first
call of `rf_gets` hands back the line `A`, which is not the first line of the
stream and does not end in `\n`; the count it returns is 4, and the second
call returns the second line. -/
theorem rf_gets_pipelined_NUL :
    lineStream [[65, 0, 66], [67]] = [65, 0, 66, 10, 67, 10] ∧
      rf_getsCalls 510 2 [] [delivers [65, 0, 66, 10, 67, 10]] =
        some [⟨4, some [65], [67, 10], []⟩, ⟨2, some [67, 10], [], []⟩] ∧
      ([65] : List Nat) ≠ [65, 0, 66, 10] ∧ ([65] : List Nat).getLast? ≠ some 10 := by
  decide

/-- C23, amended. The buffered line reader loses nothing between calls: for
every stream of lines (bodies without LF and without NUL, of at most `n - 2`
characters, each followed by LF) and every way the socket delivers the
stream in non-empty chunks (the socket gives each call of `recvwithtimeout`
the next chunk, by the first `recv` or, after a first `recv` that would block
and a `select` that reports data, by the second `recv`), the successive calls of
`rf_gets` return the lines one per call, in order, each ending in `\n` (a CR
just before the LF is dropped); after each call the unread characters of `fb`
followed by the bytes still to come are exactly the lines after the returned
one. -/
theorem rf_gets_pipelined (n : Int) (ls chunks : List (List Nat)) (socks : List SockCall)
    (hls : ∀ s ∈ ls, 10 ∉ s ∧ 0 ∉ s ∧ (s.length : Int) ≤ n - 2)
    (hsock : List.Forall₂ SockCall.gives socks chunks)
    (hch : ∀ c ∈ chunks, c ≠ []) (hstream : chunks.flatten = lineStream ls) :
    (∃ gs : List GetsResult,
      rf_getsCalls n ls.length [] socks = some gs ∧
        gs.map (fun g => (g.ret, g.rbuff)) =
          ls.map (fun s => (((dropCR s).length : Int) + 1, some (dropCR s ++ [10]))) ∧
        gs.map GetsResult.unread = ls.tails.tail.map lineStream) ∧
      (∀ s : List Nat, s.getLast? ≠ some 13 → dropCR s = s) := by
  refine ⟨?_, fun s hs => by rw [dropCR, if_neg hs]⟩
  obtain ⟨gs, hcalls, hlines, hunread⟩ := rf_getsCalls_lines n ls [] chunks socks
    (recvwithtimeout_of_all_give hsock)
    (fun s hs => ⟨(hls s hs).1, (hls s hs).2.2⟩) hch (by rw [List.nil_append, hstream])
  refine ⟨gs, hcalls, ?_, hunread⟩
  rw [hlines]
  apply List.map_congr_left
  intro s hs
  rw [cstr_dropCR_of_not_mem (hls s hs).2.1]

/-- C23 amended, on the two commands `LUSER&x` and `QUIT` delivered as `LUS`,
`ER&x\nQU`, `IT\n`, the second chunk by the second `recv` of its call (the
first one would block). -/
theorem rf_gets_pipelined_witness :
    rf_getsCalls 510 2 []
        [delivers (lit "LUS"), ⟨RecvResult.error, true, 1, RecvResult.data (lit "ER&x\nQU")⟩,
          delivers (lit "IT\n")] =
        some [⟨8, some (lit "LUSER&x\n"), lit "QU", [delivers (lit "IT\n")]⟩,
          ⟨5, some (lit "QUIT\n"), [], []⟩] ∧
      ((∃ gs : List GetsResult,
        rf_getsCalls 510 [lit "LUSER&x", lit "QUIT"].length []
            [delivers (lit "LUS"),
              ⟨RecvResult.error, true, 1, RecvResult.data (lit "ER&x\nQU")⟩,
              delivers (lit "IT\n")] = some gs ∧
          gs.map (fun g => (g.ret, g.rbuff)) =
            [lit "LUSER&x", lit "QUIT"].map
              (fun s => (((dropCR s).length : Int) + 1, some (dropCR s ++ [10]))) ∧
          gs.map GetsResult.unread = [lit "LUSER&x", lit "QUIT"].tails.tail.map lineStream) ∧
        (∀ s : List Nat, s.getLast? ≠ some 13 → dropCR s = s)) :=
  ⟨by decide,
    rf_gets_pipelined 510 [lit "LUSER&x", lit "QUIT"]
      [lit "LUS", lit "ER&x\nQU", lit "IT\n"]
      [delivers (lit "LUS"), ⟨RecvResult.error, true, 1, RecvResult.data (lit "ER&x\nQU")⟩,
        delivers (lit "IT\n")] (by decide)
      (List.Forall₂.cons (Or.inl rfl)
        (List.Forall₂.cons (Or.inr ⟨rfl, rfl, by decide, rfl⟩)
          (List.Forall₂.cons (Or.inl rfl) List.Forall₂.nil)))
      (by decide) (by decide)⟩

/-! ## One connection at a time -/

theorem get_set {l : List Thread} {i j : Nat} {x t : Thread} (h : (l.set i x)[j]? = some t) :
    (j = i ∧ t = x) ∨ (j ≠ i ∧ l[j]? = some t) := by
  rw [List.getElem?_set] at h
  by_cases hij : i = j
  · subst hij
    simp only [if_true] at h
    by_cases hl : i < l.length
    · simp only [hl, if_true, Option.some.injEq] at h
      exact Or.inl ⟨rfl, h.symm⟩
    · simp [hl] at h
  · simp only [hij, if_false] at h
    exact Or.inr ⟨fun h' => hij h'.symm, h⟩

theorem get_append {l : List Thread} {j : Nat} {x t : Thread} (h : (l ++ [x])[j]? = some t) :
    (j < l.length ∧ l[j]? = some t) ∨ (j = l.length ∧ t = x) := by
  by_cases hj : j < l.length
  · rw [List.getElem?_append_left hj] at h
    exact Or.inl ⟨hj, h⟩
  · have hlen : j < (l ++ [x]).length := by
      by_contra hc
      rw [List.getElem?_eq_none (by omega)] at h
      exact absurd h (by simp)
    simp only [List.length_append, List.length_singleton] at hlen
    have : j = l.length := by omega
    subst this
    simp at h
    exact Or.inr ⟨rfl, h.symm⟩

theorem AcceptThreadProc.step_not_running {t : Thread} {go : Bool} (hr : t.running = true)
    (h : (AcceptThreadProc.step go t).running = false) :
    AcceptThreadProc.step go t = Thread.finished := by
  obtain ⟨pc, r⟩ := t
  simp only at hr
  subst hr
  cases pc <;> cases go <;> simp [AcceptThreadProc.step] at h ⊢ <;> rfl

theorem Inv_init : Server.init.Inv := by
  refine ⟨?_, ?_, ?_, ?_⟩
  · intro i t h; simp [Server.init] at h
  · intro h; simp [Server.init] at h
  · intro _ i t h; simp [Server.init] at h
  · intro i t h; simp [Server.init] at h

theorem Inv_stopFlag {s : Server} (h : s.Inv) : (s.step Action.stopFlag).Inv := by
  obtain ⟨h1, h2, h3, h4⟩ := h
  refine ⟨h1, fun _ => rfl, fun hf => ?_, ?_⟩
  · simp [Server.step] at hf
  · cases hm : s.main with
    | top => rw [hm] at h4; simpa [Server.step, mainInv, hm] using h4
    | create => rw [hm] at h4; simpa [Server.step, mainInv, hm] using h4
    | assign h =>
      rw [hm] at h4
      cases h <;> simpa [Server.step, mainInv, hm] using h4
    | wait =>
      rw [hm] at h4
      cases ha : s.acceptThread <;> simp only [mainInv, ha] at h4 <;>
        simpa [Server.step, mainInv, hm, ha] using h4
    | stopped => simp [Server.step, mainInv, hm]

theorem finished_not_running {t : Thread} (h : t = Thread.finished) : t.running = false := by
  rw [h]; rfl

theorem Inv_thread {s : Server} (i : Nat) (go : Bool) (h : s.Inv) :
    (s.step (Action.thread i go)).Inv := by
  obtain ⟨h1, h2, h3, h4⟩ := h
  simp only [Server.step, Server.threadStep]
  cases hi : s.threads[i]? with
  | none => exact ⟨h1, h2, h3, h4⟩
  | some t =>
    simp only
    by_cases hr : t.running = true
    · rw [if_pos hr]
      have hnf : t ≠ Thread.finished := fun hf => by
        rw [finished_not_running hf] at hr
        exact absurd hr (by decide)
      refine ⟨?_, h2, ?_, ?_⟩
      · intro j u hu hj
        simp only [List.length_set] at hj
        rcases get_set hu with ⟨rfl, _⟩ | ⟨_, hold⟩
        · exact absurd (h1 j t hi hj) hnf
        · exact h1 j u hold hj
      · intro hf j u hu hur
        rcases get_set hu with ⟨rfl, rfl⟩ | ⟨_, hold⟩
        · exact AcceptThreadProc.step_not_running hr hur
        · exact h3 hf j u hold hur
      · cases hm : s.main with
        | top =>
          rw [hm] at h4
          have := h4 i t hi
          rw [this] at hr
          exact absurd hr (by decide)
        | create =>
          rw [hm] at h4
          exact absurd (h4 i t hi) hnf
        | assign h0 =>
          rw [hm] at h4
          cases h0 with
          | none => exact absurd (h4 i t hi) hnf
          | some k =>
            simp only [mainInv, List.length_set] at h4 ⊢
            exact h4
        | wait =>
          rw [hm] at h4
          cases hacc : s.acceptThread with
          | none =>
            simp only [mainInv, hacc] at h4
            have := h4 i t hi
            rw [this] at hr
            exact absurd hr (by decide)
          | some k =>
            simp only [mainInv, hacc, List.length_set] at h4 ⊢
            exact h4
        | stopped => trivial
    · rw [if_neg hr]
      exact ⟨h1, h2, h3, h4⟩

theorem mainInv_congr {s1 s2 : Server} (ht : s2.threads = s1.threads)
    (ha : s2.acceptThread = s1.acceptThread) (m : MainPc) (h : mainInv s1 m) : mainInv s2 m := by
  cases m with
  | top => simpa [mainInv, ht] using h
  | create => simpa [mainInv, ht] using h
  | assign h0 => cases h0 <;> simpa [mainInv, ht] using h
  | wait =>
    cases hacc : s1.acceptThread <;> simp only [mainInv, hacc] at h <;>
      simpa [mainInv, ht, ha, hacc] using h
  | stopped => trivial

theorem Inv_terminate {s : Server} (h : s.Inv) : (s.step Action.terminate).Inv := by
  obtain ⟨h1, h2, h3, h4⟩ := h
  simp only [Server.step, ServiceStop.terminate]
  by_cases h0 : s.stops = 0
  · rw [if_pos h0]
    exact ⟨h1, h2, h3, h4⟩
  · rw [if_neg h0]
    have htold : s.told2stop = true := h2 (Nat.pos_of_ne_zero h0)
    have hsame : ∀ s2 : Server, s2.threads = s.threads → s2.acceptThread = s.acceptThread →
        s2.told2stop = s.told2stop → s2.main = s.main → s2.Inv := by
      intro s2 e1 e2 e3 e4
      refine ⟨?_, fun _ => by rw [e3]; exact htold, ?_, ?_⟩
      · rw [e1]; exact h1
      · rw [e1, e3]; exact h3
      · rw [e4]; exact mainInv_congr e1 e2 _ h4
    cases hacc : s.acceptThread with
    | none => exact hsame _ rfl hacc.symm rfl rfl
    | some i =>
      simp only
      cases hi : s.threads[i]? with
      | none => exact hsame _ rfl hacc.symm rfl rfl
      | some t =>
        simp only
        have hkill : t = Thread.finished →
            ({ t with running := false } : Thread) = Thread.finished := by
          intro ht; rw [ht]; rfl
        refine ⟨?_, fun _ => htold, ?_, ?_⟩
        · intro j u hu hj
          simp only [List.length_set] at hj
          rcases get_set hu with ⟨rfl, rfl⟩ | ⟨_, hold⟩
          · exact hkill (h1 j t hi hj)
          · exact h1 j u hold hj
        · intro hf
          simp only at hf
          rw [htold] at hf
          exact absurd hf (by decide)
        · cases hm : s.main with
          | top =>
            rw [hm] at h4
            intro j u hu
            rcases get_set hu with ⟨rfl, rfl⟩ | ⟨_, hold⟩
            · rfl
            · exact h4 j u hold
          | create =>
            rw [hm] at h4
            intro j u hu
            rcases get_set hu with ⟨rfl, rfl⟩ | ⟨_, hold⟩
            · exact hkill (h4 j t hi)
            · exact h4 j u hold
          | assign k0 =>
            rw [hm] at h4
            cases k0 with
            | none =>
              intro j u hu
              rcases get_set hu with ⟨rfl, rfl⟩ | ⟨_, hold⟩
              · exact hkill (h4 j t hi)
              · exact h4 j u hold
            | some k =>
              simp only [mainInv, List.length_set] at h4 ⊢
              exact h4
          | wait =>
            rw [hm] at h4
            simp only [mainInv, hacc, List.length_set] at h4 ⊢
            exact h4
          | stopped => trivial

theorem Inv_main {s : Server} (ok : Bool) (h : s.Inv) : (s.step (Action.main ok)).Inv := by
  obtain ⟨h1, h2, h3, h4⟩ := h
  simp only [Server.step, ServiceStart.step]
  cases hm : s.main with
  | top =>
    rw [hm] at h4
    simp only
    by_cases ht : s.told2stop = true
    · rw [if_pos ht]
      exact ⟨h1, h2, h3, trivial⟩
    · rw [if_neg ht]
      have hf : s.told2stop = false := by simpa using ht
      exact ⟨h1, h2, h3, fun i t hi => h3 hf i t hi (h4 i t hi)⟩
  | create =>
    rw [hm] at h4
    simp only
    cases ok with
    | false =>
      simp only [Bool.false_eq_true, if_false]
      exact ⟨h1, h2, h3, h4⟩
    | true =>
      simp only [if_true]
      refine ⟨?_, h2, ?_, ?_⟩
      · intro j u hu hj
        rcases get_append hu with ⟨_, hold⟩ | ⟨rfl, _⟩
        · exact h4 j u hold
        · simp only [List.length_append, List.length_singleton] at hj
          omega
      · intro _ j u hu hur
        rcases get_append hu with ⟨_, hold⟩ | ⟨_, rfl⟩
        · exact h4 j u hold
        · exact absurd hur (by decide)
      · simp [mainInv]
  | assign k0 =>
    rw [hm] at h4
    simp only
    refine ⟨h1, h2, h3, ?_⟩
    cases k0 with
    | none =>
      simp only [mainInv]
      exact fun i t hi => finished_not_running (h4 i t hi)
    | some k =>
      simp only [mainInv] at h4 ⊢
      exact h4
  | wait =>
    rw [hm] at h4
    simp only
    cases hacc : s.acceptThread with
    | none =>
      simp only [mainInv, hacc] at h4
      exact ⟨h1, h2, h3, h4⟩
    | some k =>
      simp only [mainInv, hacc] at h4
      simp only
      by_cases hrun : s.isRunning k = true
      · rw [if_pos hrun]
        refine ⟨h1, h2, h3, ?_⟩
        rw [hm]
        simp only [mainInv, hacc]
        exact h4
      · rw [if_neg hrun]
        refine ⟨h1, h2, h3, ?_⟩
        intro j u hu0
        have hu : s.threads[j]? = some u := hu0
        by_cases hj : j + 1 < s.threads.length
        · exact finished_not_running (h1 j u hu hj)
        · have hlt : j < s.threads.length := by
            by_contra hc
            rw [List.getElem?_eq_none (by omega)] at hu
            exact absurd hu (by simp)
          have hjk : j = k := by omega
          subst hjk
          simp only [Server.isRunning, hu] at hrun
          simpa using hrun
  | stopped =>
    simp only
    refine ⟨h1, h2, h3, ?_⟩
    rw [hm]
    trivial

theorem Inv_step {s : Server} (a : Action) (h : s.Inv) : (s.step a).Inv := by
  cases a with
  | main ok => exact Inv_main ok h
  | thread i go => exact Inv_thread i go h
  | stopFlag => exact Inv_stopFlag h
  | terminate => exact Inv_terminate h

theorem Inv_foldl (acts : List Action) : ∀ s : Server, s.Inv → (acts.foldl Server.step s).Inv := by
  induction acts with
  | nil => intro s h; exact h
  | cons a acts ih => intro s h; exact ih _ (Inv_step a h)

theorem Inv_run (acts : List Action) : (Server.run acts).Inv := Inv_foldl acts _ Inv_init

theorem not_live_of_finished {t : Thread} (h : t = Thread.finished) : t.live = false := by
  rw [h]; rfl

theorem live_le_one (l : List Thread)
    (h : ∀ (i : Nat) (t : Thread), l[i]? = some t → i + 1 < l.length → t = Thread.finished) :
    (l.filter Thread.live).length ≤ 1 := by
  rcases List.eq_nil_or_concat l with rfl | ⟨L, b, rfl⟩
  · simp
  · rw [List.concat_eq_append, List.filter_append]
    have hL : L.filter Thread.live = [] := by
      rw [List.filter_eq_nil_iff]
      intro t ht
      obtain ⟨i, hi, rfl⟩ := List.getElem_of_mem ht
      have hget : (L.concat b)[i]? = some L[i] := by
        rw [List.concat_eq_append, List.getElem?_append_left hi, List.getElem?_eq_getElem hi]
      have := h i L[i] hget (by simp only [List.length_concat]; omega)
      rw [not_live_of_finished this]
      decide
    rw [hL, List.nil_append]
    exact List.length_filter_le _ _

/-- C22. Connections are strictly serialized. In every state the process
reaches, whatever the scheduler does and whenever `ServiceStop` is called:
at most one session is live; every thread but the last created has closed
its socket and ended through `rf_resume`; and a step that creates a thread
(the only way to a new `accept`) is taken only when every thread created
before has closed its socket and ended. -/
theorem connections_serialized (acts : List Action) :
    ((Server.run acts).threads.filter Thread.live).length ≤ 1 ∧
      (∀ (i : Nat) (t : Thread), (Server.run acts).threads[i]? = some t →
        i + 1 < (Server.run acts).threads.length → t = Thread.finished) ∧
      ∀ a : Action, (Server.run acts).threads.length < ((Server.run acts).step a).threads.length →
        (∀ (i : Nat) (t : Thread), (Server.run acts).threads[i]? = some t →
          t = Thread.finished) ∧
        ((Server.run acts).step a).threads =
          (Server.run acts).threads ++ [⟨ThreadPc.accept, true⟩] := by
  have hinv := Inv_run acts
  refine ⟨live_le_one _ hinv.1, hinv.1, ?_⟩
  intro a hlen
  obtain ⟨h1, h2, h3, h4⟩ := hinv
  cases a with
  | main ok =>
    simp only [Server.step, ServiceStart.step] at hlen ⊢
    cases hm : (Server.run acts).main with
    | top =>
      rw [hm] at hlen
      simp only at hlen
      split_ifs at hlen <;> exact absurd hlen (lt_irrefl _)
    | create =>
      rw [hm] at hlen h4
      simp only at hlen ⊢
      cases ok with
      | false => exact absurd hlen (lt_irrefl _)
      | true => exact ⟨h4, rfl⟩
    | assign k0 =>
      rw [hm] at hlen
      exact absurd hlen (lt_irrefl _)
    | wait =>
      rw [hm] at hlen
      simp only at hlen
      cases hacc : (Server.run acts).acceptThread with
      | none =>
        rw [hacc] at hlen
        exact absurd hlen (lt_irrefl _)
      | some k =>
        rw [hacc] at hlen
        simp only at hlen
        split_ifs at hlen <;> exact absurd hlen (lt_irrefl _)
    | stopped =>
      rw [hm] at hlen
      exact absurd hlen (lt_irrefl _)
  | thread i go =>
    simp only [Server.step, Server.threadStep] at hlen
    cases hi : (Server.run acts).threads[i]? with
    | none =>
      rw [hi] at hlen
      exact absurd hlen (lt_irrefl _)
    | some t =>
      rw [hi] at hlen
      simp only at hlen
      split_ifs at hlen
      · simp only [List.length_set] at hlen
        exact absurd hlen (lt_irrefl _)
      · exact absurd hlen (lt_irrefl _)
  | stopFlag => exact absurd hlen (lt_irrefl _)
  | terminate =>
    simp only [Server.step, ServiceStop.terminate] at hlen
    split_ifs at hlen
    · exact absurd hlen (lt_irrefl _)
    · cases hacc : (Server.run acts).acceptThread with
      | none =>
        rw [hacc] at hlen
        exact absurd hlen (lt_irrefl _)
      | some k =>
        rw [hacc] at hlen
        simp only at hlen
        cases hi : (Server.run acts).threads[k]? with
        | none =>
          rw [hi] at hlen
          exact absurd hlen (lt_irrefl _)
        | some t =>
          rw [hi] at hlen
          simp only [List.length_set] at hlen
          exact absurd hlen (lt_irrefl _)

/-- C22 on a schedule that serves two connections: the second thread is
created, and accepts, after the first has closed its socket and ended. -/
theorem connections_serialized_witness :
    Server.run twoConnections =
        ⟨MainPc.wait, false, some 1, [Thread.finished, ⟨ThreadPc.serve, true⟩], 0⟩ ∧
      (((Server.run twoConnections).threads.filter Thread.live).length ≤ 1 ∧
        (∀ (i : Nat) (t : Thread), (Server.run twoConnections).threads[i]? = some t →
          i + 1 < (Server.run twoConnections).threads.length → t = Thread.finished) ∧
        ∀ a : Action,
          (Server.run twoConnections).threads.length <
              ((Server.run twoConnections).step a).threads.length →
          (∀ (i : Nat) (t : Thread), (Server.run twoConnections).threads[i]? = some t →
            t = Thread.finished) ∧
          ((Server.run twoConnections).step a).threads =
            (Server.run twoConnections).threads ++ [⟨ThreadPc.accept, true⟩]) :=
  ⟨by decide, connections_serialized twoConnections⟩

end Cerebrum
